import Mathlib

/-!
Shallow embedding of the incremental-synchronization engine of
`pyomo/solver/util.py` (`collect_vars_and_named_exprs` and
`PersistentSolverUtils`), and proofs settling the frozen claims about it.

Python objects are modelled by stable natural-number identities (`id(x)`),
Python dicts by insertion-ordered association lists with dict semantics
(setitem updates in place or appends, delete removes the key), Python
exceptions by an error component that carries the state at the point of
raise, and the abstract backend methods (`_add_variables`, ...) by a trace
of events plus per-primitive failure-injection flags.
-/

namespace Pyomo

/-- Insertion-ordered association list lookup (first matching key). -/
def lookupA {κ α : Type} [DecidableEq κ] : List (κ × α) → κ → Option α
  | [], _ => none
  | (k, a) :: rest, k₀ => if k = k₀ then some a else lookupA rest k₀

/-- Python dict setitem: update the value in place if the key is present,
otherwise append the pair at the end (insertion order preserved). -/
def insertA {κ α : Type} [DecidableEq κ] : List (κ × α) → κ → α → List (κ × α)
  | [], k₀, a₀ => [(k₀, a₀)]
  | (k, a) :: rest, k₀, a₀ =>
      if k = k₀ then (k, a₀) :: rest else (k, a) :: insertA rest k₀ a₀

/-- Python dict delete: remove the first pair with the key. -/
def eraseA {κ α : Type} [DecidableEq κ] : List (κ × α) → κ → List (κ × α)
  | [], _ => []
  | (k, a) :: rest, k₀ => if k = k₀ then rest else (k, a) :: eraseA rest k₀

def containsA {κ α : Type} [DecidableEq κ] (l : List (κ × α)) (k : κ) : Bool :=
  (lookupA l k).isSome

def keysA {κ α : Type} (l : List (κ × α)) : List κ := l.map Prod.fst

/-- Ordered-set insert (a Python dict used as a set: `d[k] = None`). -/
def addKey {κ : Type} [DecidableEq κ] (l : List κ) (k : κ) : List κ :=
  if k ∈ l then l else l ++ [k]

/-- A bound object of a constraint (`con.lower` / `con.upper`): either the
Python `None`, a `NumericConstant` object with its numeric value, or some
other expression object.  Non-`None` objects carry their identity (`id`);
object-identity comparison (`is`) is identity equality. -/
inductive BoundObj : Type where
  | noneB : BoundObj
  | numConst (ident : Nat) (value : Int) : BoundObj
  | otherB (ident : Nat) : BoundObj
deriving DecidableEq, Repr

/-- Identity of a bound object: `none` for the Python `None` singleton. -/
def BoundObj.ident : BoundObj → Option Nat
  | .noneB => none
  | .numConst i _ => some i
  | .otherB i => some i

/-- `a is b` on bound objects. -/
def sameBound (a b : BoundObj) : Bool := a.ident = b.ident

/-- Live attributes of a model variable: identities of `v._lb` / `v._ub`
(`none` = Python `None`), `v.fixed`, `v.domain.get_interval()` (compared by
value, abstracted to a number), and `v.value`. -/
structure VarAttrs : Type where
  vlb : Option Nat := none
  vub : Option Nat := none
  vfixed : Bool := false
  vdomain : Nat := 0
  vvalue : Int := 0
deriving DecidableEq, Repr

/-- A Pyomo expression tree, as the walker sees it.  A named sub-expression
node carries its own identity, the identity of its current inner expression
(`e.expr`), and the inner tree; an external-function call carries the node
identity.  N-ary operator nodes are represented by nested `binop` nodes;
this does not affect which leaves the walker reaches. -/
inductive PExpr : Type where
  | constE (v : Int) : PExpr
  | varE (vid : Nat) : PExpr
  | namedE (nid : Nat) (innerId : Nat) (inner : PExpr) : PExpr
  | extCallE (fid : Nat) (arg : PExpr) : PExpr
  | unop (a : PExpr) : PExpr
  | binop (a b : PExpr) : PExpr
deriving DecidableEq, Repr

/-- A constraint data object: identity plus the current values of
`con.lower`, `con.body` (identity and tree), `con.upper`. -/
structure SCon : Type where
  cid : Nat
  clower : BoundObj := .noneB
  cbodyId : Nat := 0
  cbody : PExpr := .constE 0
  cupper : BoundObj := .noneB
deriving DecidableEq, Repr

/-- An SOS constraint data object: identity plus `con.get_variables()`. -/
structure SSos : Type where
  sid : Nat
  svars : List Nat := []
deriving DecidableEq, Repr

/-- An objective data object: identity, current `obj.expr` (identity and
tree) and `obj.sense` (`true` = minimize). -/
structure SObj : Type where
  oid : Nat
  oexprId : Nat := 0
  oexpr : PExpr := .constE 0
  osense : Bool := true
deriving DecidableEq, Repr

/-- The live source model: variables with their current attributes, mutable
parameter ids, active constraints, active SOS constraints, at most one
active objective, and the current inner-expression identity of each named
sub-expression (`e.expr`, which the user may reassign between passes). -/
structure SModel : Type where
  mvars : List (Nat × VarAttrs) := []
  mparams : List Nat := []
  mcons : List SCon := []
  msos : List SSos := []
  mobj : Option SObj := none
  mnexprs : List (Nat × Nat) := []
deriving DecidableEq, Repr

/-- Current attributes of a variable object (the object always exists in
Python; an id absent from the table reads as defaults). -/
def SModel.varAttrs (m : SModel) (vid : Nat) : VarAttrs :=
  (lookupA m.mvars vid).getD {}

/-- Current `e.expr` identity of a named sub-expression; an id absent from
the table reads as the supplied last-known identity (i.e., unmodified). -/
def SModel.nexprCurrent (m : SModel) (nid : Nat) (old : Nat) : Nat :=
  (lookupA m.mnexprs nid).getD old

/-- `v.unfix()`: clears the fixed flag, keeps the value. -/
def SModel.unfixVar (m : SModel) (vid : Nat) : SModel :=
  match lookupA m.mvars vid with
  | none => m
  | some a => { m with mvars := insertA m.mvars vid { a with vfixed := false } }

/-- `v.fix()` with no argument: sets the fixed flag at the current value. -/
def SModel.fixVar (m : SModel) (vid : Nat) : SModel :=
  match lookupA m.mvars vid with
  | none => m
  | some a => { m with mvars := insertA m.mvars vid { a with vfixed := true } }

/-! ## The expression walker (`_VarAndNamedExprCollector`) -/

/-- The four collections built by `_VarAndNamedExprCollector`: named
sub-expressions (with the inner-expression identity read at collection
time), variables, currently-fixed variables, external-function nodes.
All are Python dicts keyed by object id, hence deduplicated keeping the
first-encounter order. -/
structure CollectorState : Type where
  named_expressions : List (Nat × Nat) := []
  vars : List Nat := []
  fixed_vars : List Nat := []
  external_functions : List Nat := []
deriving DecidableEq, Repr

/-- One `visiting_potential_leaf` recording step for a variable node. -/
def recordVar (fixedOf : Nat → Bool) (vid : Nat) (st : CollectorState) :
    CollectorState :=
  { st with
    vars := addKey st.vars vid
    fixed_vars := if fixedOf vid then addKey st.fixed_vars vid else st.fixed_vars }

/-- The traversal of `dfs_postorder_stack` with the collector's
`visiting_potential_leaf`: plain numbers are leaves, variables are recorded
leaves, named sub-expressions and external-function calls are recorded and
then descended into (`return False, None`), other expression nodes are
descended into. -/
def collectWalk (fixedOf : Nat → Bool) : PExpr → CollectorState → CollectorState
  | .constE _, st => st
  | .varE vid, st => recordVar fixedOf vid st
  | .namedE nid innerId inner, st =>
      collectWalk fixedOf inner
        { st with named_expressions := insertA st.named_expressions nid innerId }
  | .extCallE fid arg, st =>
      collectWalk fixedOf arg
        { st with external_functions := addKey st.external_functions fid }
  | .unop a, st => collectWalk fixedOf a st
  | .binop a b, st => collectWalk fixedOf b (collectWalk fixedOf a st)

/-- `collect_vars_and_named_exprs(expr)`: run a fresh collector over the
tree and return the four collections. -/
def collect_vars_and_named_exprs (fixedOf : Nat → Bool) (expr : PExpr) :
    CollectorState :=
  collectWalk fixedOf expr {}

/-! ## `PersistentSolverUtils` state -/

/-- Key of the constraint-indexed registries: a regular constraint data
object or an SOS constraint data object (distinct Python objects, so the
two id spaces never collide; `c.ctype` distinguishes the kinds). -/
inductive ConKey : Type where
  | reg (cid : Nat) : ConKey
  | sos (sid : Nat) : ConKey
deriving DecidableEq, Repr

/-- Key of `self._external_functions` (a `ComponentMap`): a constraint or
the objective. -/
inductive EFKey : Type where
  | conK (k : ConKey) : EFKey
  | objK (oid : Nat) : EFKey
deriving DecidableEq, Repr

/-- One entry of `self._referenced_variables`:
`[dict[constraints, None], dict[sos constraints, None], None or objective]`.
The two dicts are ordered key sets; the third slot holds the objective id. -/
structure RefEntry : Type where
  rcons : List ConKey := []
  rsos : List ConKey := []
  robj : Option Nat := none
deriving DecidableEq, Repr

/-- Value of `self._active_constraints`: `(con.lower, con.body, con.upper)`
for a regular constraint, the empty tuple (`none`) for an SOS constraint. -/
abbrev ConSnap : Type := Option (BoundObj × Nat × BoundObj)

/-- The `UpdateConfig` options consumed by `PersistentSolverUtils`. -/
structure UpdateConfig : Type where
  check_for_new_or_removed_constraints : Bool := true
  check_for_new_or_removed_vars : Bool := true
  check_for_new_or_removed_params : Bool := true
  check_for_new_objective : Bool := true
  update_constraints : Bool := true
  update_vars : Bool := true
  update_params : Bool := true
  update_named_expressions : Bool := true
  update_objective : Bool := true
  treat_fixed_vars_as_params : Bool := false
deriving DecidableEq, Repr

/-- A backend primitive call, as recorded on the trace (arguments are the
identities of the entities passed). -/
inductive Event : Type where
  | addVariables (vids : List Nat) : Event
  | addParams (pids : List Nat) : Event
  | addConstraints (cids : List Nat) : Event
  | addSosConstraints (sids : List Nat) : Event
  | setObjective (o : Option Nat) : Event
  | removeConstraints (cids : List Nat) : Event
  | removeSosConstraints (sids : List Nat) : Event
  | removeVariables (vids : List Nat) : Event
  | removeParams (pids : List Nat) : Event
  | updateVariables (vids : List Nat) : Event
  | updateParams : Event
deriving DecidableEq, Repr

/-- Failure injection for the abstract backend methods: a set flag makes
the corresponding primitive raise after being invoked. -/
structure BackendFail : Type where
  fAddVariables : Bool := false
  fAddParams : Bool := false
  fAddConstraints : Bool := false
  fAddSos : Bool := false
  fSetObjective : Bool := false
  fRemoveConstraints : Bool := false
  fRemoveSos : Bool := false
  fRemoveVariables : Bool := false
  fRemoveParams : Bool := false
  fUpdateVariables : Bool := false
  fUpdateParams : Bool := false
deriving DecidableEq, Repr

/-- Python exceptions raised by the engine: `ValueError` for duplicate
adds, removes of unknown entities and removes of still-referenced
variables (distinguished here by message kind), `KeyError` for strict
dict access, and an opaque backend failure. -/
inductive Err : Type where
  | alreadyAdded : Err
  | notAdded : Err
  | stillReferenced : Err
  | keyError : Err
  | backendError : Err
deriving DecidableEq, Repr

/-- The mutable state: the live model (mutated only through `fix`/`unfix`),
the configuration, the `only_child_vars` construction flag, the backend
failure flags, and the registries of `PersistentSolverUtils.__init__`. -/
structure SState : Type where
  model : SModel := {}
  config : UpdateConfig := {}
  only_child_vars : Bool := false
  fails : BackendFail := {}
  active_constraints : List (ConKey × ConSnap) := []
  vars : List (Nat × VarAttrs) := []
  params : List Nat := []
  objective : Option Nat := none
  objective_expr : Option Nat := none
  objective_sense : Option Bool := none
  named_expressions : List (ConKey × List (Nat × Nat)) := []
  external_functions : List (EFKey × List Nat) := []
  obj_named_expressions : List (Nat × Nat) := []
  referenced_variables : List (Nat × RefEntry) := []
  vars_referenced_by_con : List (ConKey × List Nat) := []
  vars_referenced_by_obj : List Nat := []
deriving DecidableEq, Repr

/-! ## Execution monad: state, exceptions that keep the state at the point
of raise, and a trace of backend calls -/

def M (α : Type) : Type := SState → Except Err α × SState × List Event

instance : Monad M where
  pure a := fun s => (Except.ok a, s, [])
  bind x f := fun s =>
    match x s with
    | (Except.ok a, s₁, t₁) =>
        match f a s₁ with
        | (r, s₂, t₂) => (r, s₂, t₁ ++ t₂)
    | (Except.error e, s₁, t₁) => (Except.error e, s₁, t₁)

def getS : M SState := fun s => (Except.ok s, s, [])

def setS (s₁ : SState) : M Unit := fun _ => (Except.ok (), s₁, [])

def modifyS (f : SState → SState) : M Unit := fun s => (Except.ok (), f s, [])

def throwE {α : Type} (e : Err) : M α := fun s => (Except.error e, s, [])

/-- Invoke a backend primitive: record the call, then raise `backendError`
if its failure flag is set. -/
def backendCall (ev : Event) (flag : SState → Bool) : M Unit :=
  fun s =>
    (if flag s then Except.error Err.backendError else Except.ok (), s, [ev])

/-- Result component of a run. -/
def runRes {α : Type} (x : M α) (s : SState) : Except Err α := (x s).1

/-- Final state of a run (the state at the point of raise on error). -/
def runSt {α : Type} (x : M α) (s : SState) : SState := (x s).2.1

/-- Backend calls made during a run (including a call that then raised). -/
def runTr {α : Type} (x : M α) (s : SState) : List Event := (x s).2.2

/-! ## Operations of `PersistentSolverUtils` -/

/-- Per-variable body of the `add_variables` loop: duplicate check, then
creation of the reference-count entry and of the snapshot record. -/
def addVariablesLoop : List Nat → M Unit
  | [] => pure ()
  | v :: rest => do
      let s ← getS
      if containsA s.referenced_variables v then throwE .alreadyAdded
      else do
        setS { s with
          referenced_variables := insertA s.referenced_variables v {}
          vars := insertA s.vars v (s.model.varAttrs v) }
        addVariablesLoop rest

/-- `add_variables`: register every variable, then one backend call. -/
def add_variables (vids : List Nat) : M Unit := do
  addVariablesLoop vids
  backendCall (.addVariables vids) (fun s => s.fails.fAddVariables)

/-- `add_params`: register every parameter (no duplicate check: the dict
setitem silently overwrites), then one backend call. -/
def add_params (pids : List Nat) : M Unit := do
  modifyS fun s => { s with params := pids.foldl addKey s.params }
  backendCall (.addParams pids) (fun s => s.fails.fAddParams)

/-- `_check_for_new_vars`: auto-register the variables not yet tracked. -/
def check_for_new_vars (vids : List Nat) : M Unit := do
  let s ← getS
  let new_vars := vids.foldl
    (fun acc v => if containsA s.referenced_variables v then acc else addKey acc v) []
  add_variables new_vars

/-- Per-variable body of the `remove_variables` loop: tracked check,
still-referenced check, then deletion from both tables (the reference
entry first, as in the source). -/
def removeVariablesLoop : List Nat → M Unit
  | [] => pure ()
  | v :: rest => do
      let s ← getS
      match lookupA s.referenced_variables v with
      | none => throwE .notAdded
      | some e =>
          if e.rcons ≠ [] ∨ e.rsos ≠ [] ∨ e.robj ≠ none then throwE .stillReferenced
          else do
            let s₁ := { s with referenced_variables := eraseA s.referenced_variables v }
            if containsA s₁.vars v then do
              setS { s₁ with vars := eraseA s₁.vars v }
              removeVariablesLoop rest
            else do
              setS s₁
              throwE .keyError

/-- `remove_variables`: one backend call first, then the checked loop. -/
def remove_variables (vids : List Nat) : M Unit := do
  backendCall (.removeVariables vids) (fun s => s.fails.fRemoveVariables)
  removeVariablesLoop vids

/-- The selection loop of `_check_to_remove_vars`: keep the variables whose
reference entry (a strict lookup) shows no referencing constraint, no
referencing SOS constraint and no referencing objective. -/
def checkToRemoveLoop : List Nat → List Nat → M (List Nat)
  | [], acc => pure acc
  | v :: rest, acc => do
      let s ← getS
      match lookupA s.referenced_variables v with
      | none => throwE .keyError
      | some e =>
          if e.rcons = [] ∧ e.rsos = [] ∧ e.robj = none then
            checkToRemoveLoop rest (addKey acc v)
          else checkToRemoveLoop rest acc

/-- `_check_to_remove_vars`: remove the variables left unreferenced. -/
def check_to_remove_vars (vids : List Nat) : M Unit := do
  let toRemove ← checkToRemoveLoop vids []
  remove_variables toRemove

/-- `remove_params`: one backend call first, then strict deletes. -/
def removeParamsLoop : List Nat → M Unit
  | [] => pure ()
  | p :: rest => do
      let s ← getS
      if p ∈ s.params then do
        setS { s with params := s.params.erase p }
        removeParamsLoop rest
      else throwE .keyError

def remove_params (pids : List Nat) : M Unit := do
  backendCall (.removeParams pids) (fun s => s.fails.fRemoveParams)
  removeParamsLoop pids

/-- `update_variables`: overwrite every snapshot record with the live
attributes (creating a record if absent, as dict setitem does), then one
backend call. -/
def update_variables (vids : List Nat) : M Unit := do
  modifyS fun s =>
    { s with vars := vids.foldl (fun t v => insertA t v (s.model.varAttrs v)) s.vars }
  backendCall (.updateVariables vids) (fun s => s.fails.fUpdateVariables)

/-- `update_params`: the backend bulk parameter refresh. -/
def update_params : M Unit :=
  backendCall .updateParams (fun s => s.fails.fUpdateParams)

/-- `self._referenced_variables[id(v)][0].pop(con)` (strict). -/
def refUnlinkCon (key : ConKey) (v : Nat) : M Unit := do
  let s ← getS
  match lookupA s.referenced_variables v with
  | none => throwE .keyError
  | some e =>
      if key ∈ e.rcons then do
        let rv := insertA s.referenced_variables v { e with rcons := e.rcons.erase key }
        setS { s with referenced_variables := rv }
      else throwE .keyError

def unlinkConVars (key : ConKey) : List Nat → M Unit
  | [] => pure ()
  | v :: rest => do
      refUnlinkCon key v
      unlinkConVars key rest

/-- `self._referenced_variables[id(v)][1].pop(con)` (strict). -/
def refUnlinkSos (key : ConKey) (v : Nat) : M Unit := do
  let s ← getS
  match lookupA s.referenced_variables v with
  | none => throwE .keyError
  | some e =>
      if key ∈ e.rsos then do
        let rv := insertA s.referenced_variables v { e with rsos := e.rsos.erase key }
        setS { s with referenced_variables := rv }
      else throwE .keyError

def unlinkSosVars (key : ConKey) : List Nat → M Unit
  | [] => pure ()
  | v :: rest => do
      refUnlinkSos key v
      unlinkSosVars key rest

/-- Strict `del self._active_constraints[con]`. -/
def delActiveCon (key : ConKey) : M Unit := do
  let s ← getS
  if containsA s.active_constraints key then
    setS { s with active_constraints := eraseA s.active_constraints key }
  else throwE .keyError

/-- Strict `del self._named_expressions[con]`. -/
def delNamedExpr (key : ConKey) : M Unit := do
  let s ← getS
  if containsA s.named_expressions key then
    setS { s with named_expressions := eraseA s.named_expressions key }
  else throwE .keyError

/-- Strict `del self._vars_referenced_by_con[con]`. -/
def delVarsByCon (key : ConKey) : M Unit := do
  let s ← getS
  if containsA s.vars_referenced_by_con key then
    setS { s with vars_referenced_by_con := eraseA s.vars_referenced_by_con key }
  else throwE .keyError

/-- `self._external_functions.pop(k, None)` (with default: never raises). -/
def popExternal (k : EFKey) : M Unit :=
  modifyS fun s => { s with external_functions := eraseA s.external_functions k }

/-- Per-constraint body of the `remove_constraints` loop: was-added check,
unlink every referenced variable, opportunistic removal of newly
unreferenced variables, then deletion of the four registry entries. -/
def removeConstraintsLoop : List Nat → M Unit
  | [] => pure ()
  | cid :: rest => do
      let key := ConKey.reg cid
      let s ← getS
      if ¬ containsA s.named_expressions key then throwE .notAdded
      else
        match lookupA s.vars_referenced_by_con key with
        | none => throwE .keyError
        | some vs => do
            unlinkConVars key vs
            let s₁ ← getS
            if ¬ s₁.only_child_vars then check_to_remove_vars vs else pure ()
            delActiveCon key
            delNamedExpr key
            popExternal (.conK key)
            delVarsByCon key
            removeConstraintsLoop rest

/-- `remove_constraints`: one backend call first, then the checked loop. -/
def remove_constraints (cids : List Nat) : M Unit := do
  backendCall (.removeConstraints cids) (fun s => s.fails.fRemoveConstraints)
  removeConstraintsLoop cids

/-- Per-constraint body of the `remove_sos_constraints` loop (note: the
unreferenced-variable check here is not guarded by `only_child_vars`, and
there is no external-function entry to pop). -/
def removeSosLoop : List Nat → M Unit
  | [] => pure ()
  | sid :: rest => do
      let key := ConKey.sos sid
      let s ← getS
      if ¬ containsA s.vars_referenced_by_con key then throwE .notAdded
      else
        match lookupA s.vars_referenced_by_con key with
        | none => throwE .keyError
        | some vs => do
            unlinkSosVars key vs
            check_to_remove_vars vs
            delActiveCon key
            delNamedExpr key
            delVarsByCon key
            removeSosLoop rest

/-- `remove_sos_constraints`: one backend call first, then the loop. -/
def remove_sos_constraints (sids : List Nat) : M Unit := do
  backendCall (.removeSosConstraints sids) (fun s => s.fails.fRemoveSos)
  removeSosLoop sids

/-- `self._referenced_variables[id(v)][0][con] = None` (strict lookup of
the variable entry, then ordered-set insert). -/
def linkConVar (key : ConKey) (v : Nat) : M Unit := do
  let s ← getS
  match lookupA s.referenced_variables v with
  | none => throwE .keyError
  | some e => do
      let rv := insertA s.referenced_variables v { e with rcons := addKey e.rcons key }
      setS { s with referenced_variables := rv }

def linkConVars (key : ConKey) : List Nat → M Unit
  | [] => pure ()
  | v :: rest => do
      linkConVar key v
      linkConVars key rest

/-- `self._referenced_variables[id(v)][1][con] = None`. -/
def linkSosVar (key : ConKey) (v : Nat) : M Unit := do
  let s ← getS
  match lookupA s.referenced_variables v with
  | none => throwE .keyError
  | some e => do
      let rv := insertA s.referenced_variables v { e with rsos := addKey e.rsos key }
      setS { s with referenced_variables := rv }

def linkSosVars (key : ConKey) : List Nat → M Unit
  | [] => pure ()
  | v :: rest => do
      linkSosVar key v
      linkSosVars key rest

/-- `v.unfix()` on every listed variable, in order. -/
def unfixAll : List Nat → M Unit
  | [] => pure ()
  | v :: rest => do
      modifyS fun s => { s with model := s.model.unfixVar v }
      unfixAll rest

/-- `v.fix()` on every listed variable, in order. -/
def fixAll : List Nat → M Unit
  | [] => pure ()
  | v :: rest => do
      modifyS fun s => { s with model := s.model.fixVar v }
      fixAll rest

/-- One iteration of the `add_constraints` loop: duplicate check, snapshot
recording, expression walking, auto-registration of new variables, linking
of the reference counts, and (unless fixed variables are treated as
parameters) the transient unfixing of the fixed variables the body
touches.  Returns the variables it unfixed, to be merged into
`all_fixed_vars`. -/
def addConOne (con : SCon) : M (List Nat) := do
  let key := ConKey.reg con.cid
  let s ← getS
  if containsA s.named_expressions key then throwE .alreadyAdded
  else do
    modifyS fun s =>
      { s with active_constraints :=
          insertA s.active_constraints key (some (con.clower, con.cbodyId, con.cupper)) }
    let s₁ ← getS
    let r := collect_vars_and_named_exprs
      (fun v => (s₁.model.varAttrs v).vfixed) con.cbody
    if ¬ s₁.only_child_vars then check_for_new_vars r.vars else pure ()
    modifyS fun s =>
      { s with named_expressions :=
          insertA s.named_expressions key r.named_expressions }
    if r.external_functions ≠ [] then
      modifyS fun s =>
        { s with external_functions :=
            insertA s.external_functions (.conK key) r.external_functions }
    else pure ()
    modifyS fun s =>
      { s with vars_referenced_by_con :=
          insertA s.vars_referenced_by_con key r.vars }
    linkConVars key r.vars
    let s₂ ← getS
    if ¬ s₂.config.treat_fixed_vars_as_params then do
      unfixAll r.fixed_vars
      pure r.fixed_vars
    else pure []

/-- The `add_constraints` loop, accumulating `all_fixed_vars` (a dict used
as an ordered set) across iterations. -/
def addConstraintsLoop : List SCon → List Nat → M (List Nat)
  | [], allFixed => pure allFixed
  | con :: rest, allFixed => do
      let fv ← addConOne con
      addConstraintsLoop rest (fv.foldl addKey allFixed)

/-- `add_constraints`: register every constraint (transiently unfixing the
fixed variables its body touches), one backend call, then re-fix the
accumulated variables.  Note the re-fixing pass runs only after a
successful backend call: there is no `try`/`finally` in the source. -/
def add_constraints (cons : List SCon) : M Unit := do
  let allFixed ← addConstraintsLoop cons []
  backendCall (.addConstraints (cons.map SCon.cid)) (fun s => s.fails.fAddConstraints)
  fixAll allFixed

/-- Per-constraint body of the `add_sos_constraints` loop. -/
def addSosLoop : List SSos → M Unit
  | [] => pure ()
  | con :: rest => do
      let key := ConKey.sos con.sid
      let s ← getS
      if containsA s.vars_referenced_by_con key then throwE .alreadyAdded
      else do
        modifyS fun s =>
          { s with active_constraints := insertA s.active_constraints key none }
        let s₁ ← getS
        if ¬ s₁.only_child_vars then check_for_new_vars con.svars else pure ()
        modifyS fun s =>
          { s with named_expressions := insertA s.named_expressions key [] }
        modifyS fun s =>
          { s with vars_referenced_by_con :=
              insertA s.vars_referenced_by_con key con.svars }
        linkSosVars key con.svars
        addSosLoop rest

/-- `add_sos_constraints`: register every SOS constraint, then one backend
call. -/
def add_sos_constraints (cons : List SSos) : M Unit := do
  addSosLoop cons
  backendCall (.addSosConstraints (cons.map SSos.sid)) (fun s => s.fails.fAddSos)

/-- `self._referenced_variables[id(v)][2] = o` (strict lookup). -/
def setObjRef (o : Option Nat) (v : Nat) : M Unit := do
  let s ← getS
  match lookupA s.referenced_variables v with
  | none => throwE .keyError
  | some e => do
      let rv := insertA s.referenced_variables v { e with robj := o }
      setS { s with referenced_variables := rv }

def setObjRefs (o : Option Nat) : List Nat → M Unit
  | [] => pure ()
  | v :: rest => do
      setObjRef o v
      setObjRefs o rest

/-- `set_objective`: retire the previous objective (clearing its variable
references and removing any variable left unreferenced), then install the
new one (or clear everything when passed `None`). -/
def set_objective (obj : Option SObj) : M Unit := do
  let s ← getS
  match s.objective with
  | some oldOid => do
      setObjRefs none s.vars_referenced_by_obj
      let s₁ ← getS
      if ¬ s₁.only_child_vars then check_to_remove_vars s₁.vars_referenced_by_obj
      else pure ()
      popExternal (.objK oldOid)
  | none => pure ()
  match obj with
  | some o => do
      modifyS fun s => { s with
        objective := some o.oid
        objective_expr := some o.oexprId
        objective_sense := some o.osense }
      let s₂ ← getS
      let r := collect_vars_and_named_exprs
        (fun v => (s₂.model.varAttrs v).vfixed) o.oexpr
      if ¬ s₂.only_child_vars then check_for_new_vars r.vars else pure ()
      modifyS fun s => { s with obj_named_expressions := r.named_expressions }
      if r.external_functions ≠ [] then
        modifyS fun s =>
          { s with external_functions :=
              insertA s.external_functions (.objK o.oid) r.external_functions }
      else pure ()
      modifyS fun s => { s with vars_referenced_by_obj := r.vars }
      setObjRefs (some o.oid) r.vars
      let s₃ ← getS
      if ¬ s₃.config.treat_fixed_vars_as_params then unfixAll r.fixed_vars
      else pure ()
      backendCall (.setObjective (some o.oid)) (fun s => s.fails.fSetObjective)
      fixAll r.fixed_vars
  | none => do
      modifyS fun s => { s with
        vars_referenced_by_obj := []
        objective := none
        objective_expr := none
        objective_sense := none
        obj_named_expressions := [] }
      backendCall (.setObjective none) (fun s => s.fails.fSetObjective)

/-! ## The synchronization pass (`update`) -/

/-- The bound comparison of the constraint-diff loop: a bound is unchanged
when the new object is the old object (`is`), or when both are
`NumericConstant` objects with equal numeric value. -/
def boundUnchanged (newB oldB : BoundObj) : Bool :=
  sameBound newB oldB ||
    (match newB, oldB with
     | .numConst _ v₁, .numConst _ v₂ => v₁ = v₂
     | _, _ => false)

/-- The full per-constraint change test of the diff loop (lines 593-618):
body identity, then lower bound, then upper bound. -/
def conChanged (snap : BoundObj × Nat × BoundObj) (c : SCon) : Bool :=
  decide (c.cbodyId ≠ snap.2.1) ||
    !boundUnchanged c.clower snap.1 ||
    !boundUnchanged c.cupper snap.2.2

/-- Variable discovery of the `only_child_vars` branch: the current model
variable ids (deduplicated in encounter order, as the dict build does),
the new ones, and the tracked-but-gone ones. -/
def discoverVarsOC (s : SState) : List Nat × List Nat × List Nat :=
  let current := s.model.mvars.foldl (fun acc p => addKey acc p.1) []
  let new_vars := current.filter (fun v => ¬ containsA s.vars v)
  let old_vars := (keysA s.vars).filter (fun v => v ∉ current)
  (new_vars, old_vars, current)

/-- Parameter discovery: mutable parameters appearing/disappearing. -/
def discoverParams (s : SState) : List Nat × List Nat :=
  let current := s.model.mparams.foldl addKey []
  (current.filter (fun p => p ∉ s.params), s.params.filter (fun p => p ∉ current))

/-- Constraint/SOS discovery: model entities not yet tracked, and tracked
keys no longer in the model, classified by kind (`c.ctype`). -/
def discoverCons (s : SState) : List SCon × List SSos × List Nat × List Nat :=
  let currentKeys : List ConKey :=
    s.model.mcons.map (fun c => .reg c.cid) ++ s.model.msos.map (fun c => .sos c.sid)
  let new_cons := s.model.mcons.filter
    (fun c => ¬ containsA s.vars_referenced_by_con (ConKey.reg c.cid))
  let new_sos := s.model.msos.filter
    (fun c => ¬ containsA s.vars_referenced_by_con (ConKey.sos c.sid))
  let oldKeys := (keysA s.vars_referenced_by_con).filter (fun k => k ∉ currentKeys)
  let old_cons := oldKeys.filterMap
    (fun k => match k with | .reg cid => some cid | .sos _ => none)
  let old_sos := oldKeys.filterMap
    (fun k => match k with | .reg _ => none | .sos sid => some sid)
  (new_cons, new_sos, old_cons, old_sos)

/-- Keep-first insert into the `cons_to_remove_and_add` dict (keyed by the
constraint object, carried here with its current attributes). -/
def dictAddCon (acc : List (Nat × SCon)) (c : SCon) : List (Nat × SCon) :=
  if containsA acc c.cid then acc else acc ++ [(c.cid, c)]

/-- The live constraint object with a given id (used when a constraint is
queued for re-addition by id; a queued id always denotes a live model
constraint, whose current attributes this looks up). -/
def modelConOfId (s : SState) (cid : Nat) : SCon :=
  (s.model.mcons.find? (fun c => decide (c.cid = cid))).getD { cid := cid }

/-- The diff loop over the surviving constraints: strict snapshot lookup,
then the identity/value comparisons of `conChanged`. -/
def conDiffLoop : List SCon → List (Nat × SCon) → M (List (Nat × SCon))
  | [], acc => pure acc
  | c :: rest, acc => do
      let s ← getS
      match lookupA s.active_constraints (ConKey.reg c.cid) with
      | none => throwE .keyError
      | some none => throwE .keyError
      | some (some snap) =>
          if conChanged snap c then conDiffLoop rest (dictAddCon acc c)
          else conDiffLoop rest acc

/-- The regular-constraint ids among a variable's referencing-constraint
keys (the `[0]` dict only ever holds regular constraints). -/
def regCids (l : List ConKey) : List Nat :=
  l.filterMap (fun k => match k with | .reg cid => some cid | .sos _ => none)

/-- The variable-diff loop (lines 631-648): strict snapshot lookup, then
the attribute comparisons in source order; a fixed-status or fixed-value
change additionally queues the referencing constraints for replacement and
flags the objective when `treat_fixed_vars_as_params` is set. -/
def varDiffLoop :
    List Nat → List Nat × List (Nat × SCon) × Bool →
    M (List Nat × List (Nat × SCon) × Bool)
  | [], out => pure out
  | v :: rest, (upd, acc, need) => do
      let s ← getS
      match lookupA s.vars v with
      | none => throwE .keyError
      | some snap =>
          let cur := s.model.varAttrs v
          if snap.vlb ≠ cur.vlb then varDiffLoop rest (upd ++ [v], acc, need)
          else if snap.vub ≠ cur.vub then varDiffLoop rest (upd ++ [v], acc, need)
          else if (snap.vfixed ≠ cur.vfixed) ∨ (snap.vfixed ∧ snap.vvalue ≠ cur.vvalue) then
            if s.config.treat_fixed_vars_as_params then
              match lookupA s.referenced_variables v with
              | none => throwE .keyError
              | some e =>
                  let acc₂ := (regCids e.rcons).foldl
                    (fun a cid => dictAddCon a (modelConOfId s cid)) acc
                  varDiffLoop rest (upd ++ [v], acc₂, need || decide (e.robj ≠ none))
            else varDiffLoop rest (upd ++ [v], acc, need)
          else if snap.vdomain ≠ cur.vdomain then varDiffLoop rest (upd ++ [v], acc, need)
          else varDiffLoop rest (upd, acc, need)

/-- The named-expression diff (lines 657-664): constraints, other than the
newly added ones, one of whose recorded named sub-expressions now has a
different inner expression identity.  SOS entries always carry an empty
recorded list (set at add time), so only regular constraints can be
queued. -/
def namedDiffCons (s : SState) (newConIds : List Nat) : List Nat :=
  s.named_expressions.foldl
    (fun acc p =>
      match p.1 with
      | .reg cid =>
          if cid ∈ newConIds then acc
          else if p.2.any (fun q => decide (s.model.nexprCurrent q.1 q.2 ≠ q.2)) then
            acc ++ [cid]
          else acc
      | .sos _ => acc) []

/-- The tracked objective, read as a live object (`pyomo_obj` when
`check_for_new_objective` is off): when the model still exposes the
tracked objective object its current attributes are used; otherwise the
object is unchanged since tracking, so the recorded attributes stand. -/
def trackedObjAsSObj (s : SState) : Option SObj :=
  match s.objective with
  | none => none
  | some i =>
      match s.model.mobj with
      | some o =>
          if o.oid = i then some o
          else some { oid := i, oexprId := s.objective_expr.getD 0,
                      osense := s.objective_sense.getD true }
      | none => some { oid := i, oexprId := s.objective_expr.getD 0,
                       osense := s.objective_sense.getD true }

/-- `update`: the full synchronization pass, in the phase order of the
source — discovery; removal of vanished constraints/SOS/parameters;
parameter refresh and additions; constraint/SOS modification detection
(with the unconditional SOS remove+re-add); variable modification
detection; application of queued constraint replacements; named-expression
redetection; objective reconciliation; final variable removal. -/
def update : M Unit := do
  let s₀ ← getS
  let (new_vars, old_vars, current_var_ids) :=
    if s₀.only_child_vars ∧
        (s₀.config.check_for_new_or_removed_vars ∨ s₀.config.update_vars) then
      discoverVarsOC s₀
    else ([], [], [])
  let start_vars :=
    if ¬ s₀.only_child_vars ∧ s₀.config.update_vars then keysA s₀.vars else []
  let (new_params, old_params) :=
    if s₀.config.check_for_new_or_removed_params then discoverParams s₀ else ([], [])
  let (new_cons, new_sos, old_cons, old_sos) :=
    if s₀.config.check_for_new_or_removed_constraints ∨ s₀.config.update_constraints then
      discoverCons s₀
    else ([], [], [], [])
  remove_constraints old_cons
  remove_sos_constraints old_sos
  remove_params old_params
  if s₀.config.update_params then update_params else pure ()
  add_params new_params
  add_variables new_vars
  add_constraints new_cons
  add_sos_constraints new_sos
  let newConIds := new_cons.map SCon.cid
  let newSosIds := new_sos.map SSos.sid
  let consRA₁ ←
    if s₀.config.update_constraints then do
      let s₁ ← getS
      let cons_to_update := s₁.model.mcons.filter (fun c => c.cid ∉ newConIds)
      let sos_to_update := s₁.model.msos.filter (fun c => c.sid ∉ newSosIds)
      let acc ← conDiffLoop cons_to_update []
      remove_sos_constraints (sos_to_update.map SSos.sid)
      add_sos_constraints sos_to_update
      pure acc
    else pure []
  let s₂ ← getS
  let vars_to_check :=
    if s₂.only_child_vars ∧ s₀.config.update_vars then
      current_var_ids.filter (fun v => v ∉ new_vars)
    else if s₀.config.update_vars then
      (keysA s₂.vars).filter (fun v => v ∈ start_vars)
    else []
  let (vars_to_update, consRA, need₀) ←
    if s₀.config.update_vars then varDiffLoop vars_to_check ([], consRA₁, false)
    else pure ([], consRA₁, false)
  if s₀.config.update_vars then update_variables vars_to_update else pure ()
  remove_constraints (consRA.map Prod.fst)
  add_constraints (consRA.map Prod.snd)
  let s₃ ← getS
  let neCons := if s₀.config.update_named_expressions then namedDiffCons s₃ newConIds else []
  if s₀.config.update_named_expressions then do
    remove_constraints neCons
    add_constraints (neCons.map (modelConOfId s₃))
  else pure ()
  let need₁ := need₀ ||
    (s₀.config.update_named_expressions &&
      s₃.obj_named_expressions.any (fun q => decide (s₃.model.nexprCurrent q.1 q.2 ≠ q.2)))
  let s₄ ← getS
  let pyomo_obj :=
    if s₀.config.check_for_new_objective then s₄.model.mobj else trackedObjAsSObj s₄
  let need₂ := need₁ ||
    (s₀.config.check_for_new_objective && decide (pyomo_obj.map SObj.oid ≠ s₄.objective))
  let need₃ := need₂ ||
    (s₀.config.update_objective &&
      (match pyomo_obj with
       | some o =>
           decide (some o.oexprId ≠ s₄.objective_expr) ||
             decide (some o.osense ≠ s₄.objective_sense)
       | none => false))
  if need₃ then set_objective pyomo_obj else pure ()
  remove_variables old_vars

/-! ## Run lemmas for the execution monad -/

theorem runRes_bind {α β : Type} (x : M α) (f : α → M β) (s : SState) :
    runRes (x >>= f) s =
      match runRes x s with
      | .ok a => runRes (f a) (runSt x s)
      | .error e => .error e := by
  show ((match x s with
    | (Except.ok a, s₁, t₁) =>
        match f a s₁ with
        | (r, s₂, t₂) => (r, s₂, t₁ ++ t₂)
    | (Except.error e, s₁, t₁) => (Except.error e, s₁, t₁)) : _ × _ × _).1 = _
  rcases hx : x s with ⟨r, s₁, t₁⟩
  cases r with
  | ok a =>
      rcases hf : f a s₁ with ⟨r₂, s₂, t₂⟩
      simp [runRes, runSt, hx, hf]
  | error e => simp [runRes, hx]

theorem runSt_bind {α β : Type} (x : M α) (f : α → M β) (s : SState) :
    runSt (x >>= f) s =
      match runRes x s with
      | .ok a => runSt (f a) (runSt x s)
      | .error _ => runSt x s := by
  show ((match x s with
    | (Except.ok a, s₁, t₁) =>
        match f a s₁ with
        | (r, s₂, t₂) => (r, s₂, t₁ ++ t₂)
    | (Except.error e, s₁, t₁) => (Except.error e, s₁, t₁)) : _ × _ × _).2.1 = _
  rcases hx : x s with ⟨r, s₁, t₁⟩
  cases r with
  | ok a =>
      rcases hf : f a s₁ with ⟨r₂, s₂, t₂⟩
      simp [runRes, runSt, hx, hf]
  | error e => simp [runRes, runSt, hx]

theorem runTr_bind {α β : Type} (x : M α) (f : α → M β) (s : SState) :
    runTr (x >>= f) s =
      match runRes x s with
      | .ok a => runTr x s ++ runTr (f a) (runSt x s)
      | .error _ => runTr x s := by
  show ((match x s with
    | (Except.ok a, s₁, t₁) =>
        match f a s₁ with
        | (r, s₂, t₂) => (r, s₂, t₁ ++ t₂)
    | (Except.error e, s₁, t₁) => (Except.error e, s₁, t₁)) : _ × _ × _).2.2 = _
  rcases hx : x s with ⟨r, s₁, t₁⟩
  cases r with
  | ok a =>
      rcases hf : f a s₁ with ⟨r₂, s₂, t₂⟩
      simp [runRes, runSt, runTr, hx, hf]
  | error e => simp [runRes, runTr, hx]

@[simp] theorem runRes_pure {α : Type} (a : α) (s : SState) :
    runRes (pure a) s = .ok a := rfl

@[simp] theorem runSt_pure {α : Type} (a : α) (s : SState) :
    runSt (pure a) s = s := rfl

@[simp] theorem runTr_pure {α : Type} (a : α) (s : SState) :
    runTr (pure a) s = [] := rfl

@[simp] theorem runRes_getS (s : SState) : runRes getS s = .ok s := rfl

@[simp] theorem runSt_getS (s : SState) : runSt getS s = s := rfl

@[simp] theorem runTr_getS (s : SState) : runTr getS s = [] := rfl

@[simp] theorem runRes_setS (s₁ s : SState) : runRes (setS s₁) s = .ok () := rfl

@[simp] theorem runSt_setS (s₁ s : SState) : runSt (setS s₁) s = s₁ := rfl

@[simp] theorem runTr_setS (s₁ s : SState) : runTr (setS s₁) s = [] := rfl

@[simp] theorem runRes_modifyS (f : SState → SState) (s : SState) :
    runRes (modifyS f) s = .ok () := rfl

@[simp] theorem runSt_modifyS (f : SState → SState) (s : SState) :
    runSt (modifyS f) s = f s := rfl

@[simp] theorem runTr_modifyS (f : SState → SState) (s : SState) :
    runTr (modifyS f) s = [] := rfl

@[simp] theorem runRes_throwE {α : Type} (e : Err) (s : SState) :
    runRes (throwE e : M α) s = .error e := rfl

@[simp] theorem runSt_throwE {α : Type} (e : Err) (s : SState) :
    runSt (throwE e : M α) s = s := rfl

@[simp] theorem runTr_throwE {α : Type} (e : Err) (s : SState) :
    runTr (throwE e : M α) s = [] := rfl

theorem runRes_backendCall (ev : Event) (flag : SState → Bool) (s : SState) :
    runRes (backendCall ev flag) s =
      if flag s then .error .backendError else .ok () := by
  by_cases h : flag s <;> simp [runRes, backendCall, h]

@[simp] theorem runSt_backendCall (ev : Event) (flag : SState → Bool) (s : SState) :
    runSt (backendCall ev flag) s = s := by
  by_cases h : flag s <;> simp [runSt, backendCall, h]

@[simp] theorem runTr_backendCall (ev : Event) (flag : SState → Bool) (s : SState) :
    runTr (backendCall ev flag) s = [ev] := by
  by_cases h : flag s <;> simp [runTr, backendCall, h]

/-! ## C8: the walker and named sub-expressions -/

/-- The variable, fixed-variable and external-function collections produced
by a walk depend only on the corresponding collections of the starting
collector state (the named-expression dict evolves independently). -/
theorem collectWalk_indep (f : Nat → Bool) (e : PExpr) :
    ∀ st₁ st₂ : CollectorState,
      st₁.vars = st₂.vars → st₁.fixed_vars = st₂.fixed_vars →
      st₁.external_functions = st₂.external_functions →
      (collectWalk f e st₁).vars = (collectWalk f e st₂).vars ∧
      (collectWalk f e st₁).fixed_vars = (collectWalk f e st₂).fixed_vars ∧
      (collectWalk f e st₁).external_functions = (collectWalk f e st₂).external_functions := by
  induction e with
  | constE v => intro st₁ st₂ h₁ h₂ h₃; exact ⟨h₁, h₂, h₃⟩
  | varE vid =>
      intro st₁ st₂ h₁ h₂ h₃
      simp [collectWalk, recordVar, h₁, h₂, h₃]
  | namedE nid iid inner ih =>
      intro st₁ st₂ h₁ h₂ h₃
      exact ih _ _ h₁ h₂ h₃
  | extCallE fid arg ih =>
      intro st₁ st₂ h₁ h₂ h₃
      exact ih _ _ h₁ h₂ (by simp [h₃])
  | unop a ih =>
      intro st₁ st₂ h₁ h₂ h₃
      exact ih _ _ h₁ h₂ h₃
  | binop a b iha ihb =>
      intro st₁ st₂ h₁ h₂ h₃
      obtain ⟨g₁, g₂, g₃⟩ := iha st₁ st₂ h₁ h₂ h₃
      exact ihb _ _ g₁ g₂ g₃

/-! Association-list facts. -/

theorem lookupA_insertA_self {κ α : Type} [DecidableEq κ]
    (l : List (κ × α)) (k : κ) (a : α) :
    lookupA (insertA l k a) k = some a := by
  induction l with
  | nil => simp [insertA, lookupA]
  | cons p rest ih =>
      by_cases hp : p.1 = k
      · simp [insertA, hp, lookupA]
      · simp [insertA, hp, lookupA, ih]

theorem lookupA_insertA_ne {κ α : Type} [DecidableEq κ]
    (l : List (κ × α)) (k k₀ : κ) (a : α) (h : k ≠ k₀) :
    lookupA (insertA l k a) k₀ = lookupA l k₀ := by
  induction l with
  | nil => simp [insertA, lookupA, h]
  | cons p rest ih =>
      by_cases hp : p.1 = k
      · subst hp
        simp [insertA, lookupA, h]
      · simp [insertA, hp, lookupA, ih]

theorem containsA_insertA {κ α : Type} [DecidableEq κ]
    (l : List (κ × α)) (k k₀ : κ) (a : α) :
    containsA (insertA l k a) k₀ = (containsA l k₀ || decide (k = k₀)) := by
  by_cases h : k = k₀
  · subst h
    simp [containsA, lookupA_insertA_self]
  · simp [containsA, lookupA_insertA_ne l k k₀ a h, h]

theorem lookupA_eraseA_ne {κ α : Type} [DecidableEq κ]
    (l : List (κ × α)) (k k₀ : κ) (h : k ≠ k₀) :
    lookupA (eraseA l k) k₀ = lookupA l k₀ := by
  induction l with
  | nil => simp [eraseA]
  | cons p rest ih =>
      by_cases hp : p.1 = k
      · subst hp
        simp [eraseA, lookupA, h]
      · simp [eraseA, hp, lookupA, ih]

theorem insertA_lookup_self {κ α : Type} [DecidableEq κ]
    (l : List (κ × α)) (k : κ) (a : α) (h : lookupA l k = some a) :
    insertA l k a = l := by
  induction l with
  | nil => simp [lookupA] at h
  | cons p rest ih =>
      by_cases hp : p.1 = k
      · rcases p with ⟨pk, pa⟩
        simp only at hp
        subst hp
        simp [lookupA] at h
        simp [insertA, h]
      · simp [lookupA, hp] at h
        simp [insertA, hp, ih h]

/-- A named sub-expression already recorded stays recorded. -/
theorem collectWalk_named_mono (f : Nat → Bool) (e : PExpr) :
    ∀ (st : CollectorState) (k : Nat),
      containsA st.named_expressions k = true →
      containsA (collectWalk f e st).named_expressions k = true := by
  induction e with
  | constE v => intro st k h; exact h
  | varE vid => intro st k h; simpa [collectWalk, recordVar] using h
  | namedE nid iid inner ih =>
      intro st k h
      refine ih _ k ?_
      show containsA (insertA st.named_expressions nid iid) k = true
      rw [containsA_insertA]
      simp [h]
  | extCallE fid arg ih => intro st k h; exact ih _ k h
  | unop a ih => intro st k h; exact ih _ k h
  | binop a b iha ihb => intro st k h; exact ihb _ k (iha _ k h)

/-- C8, counterexample: in `.namedE 9 90 (.varE 1)` the (fixed) variable 1
occurs only inside the named sub-expression, yet the walker returns it in
both the variable and the fixed-variable collections — `visiting_potential_leaf`
returns `False` for a named expression node, so the traversal descends into
it, contrary to the claim. -/
theorem claim8_cex :
    (collect_vars_and_named_exprs (fun _ => true) (.namedE 9 90 (.varE 1))).vars = [1] ∧
    (collect_vars_and_named_exprs (fun _ => true) (.namedE 9 90 (.varE 1))).fixed_vars = [1] ∧
    (collect_vars_and_named_exprs (fun _ => true) (.namedE 9 90 (.varE 1))).named_expressions
      = [(9, 90)] := by
  refine ⟨rfl, rfl, rfl⟩

/-- C8, amended: the walker records each named sub-expression node it
encounters and then descends into it, so the variable, fixed-variable and
external-function collections of a named sub-expression wrapper are exactly
those of its inner expression (variables occurring only inside a named
sub-expression do appear in the returned collections). -/
theorem claim8_thm (f : Nat → Bool) (k iid : Nat) (inner : PExpr) :
    (collect_vars_and_named_exprs f (.namedE k iid inner)).vars
      = (collect_vars_and_named_exprs f inner).vars ∧
    (collect_vars_and_named_exprs f (.namedE k iid inner)).fixed_vars
      = (collect_vars_and_named_exprs f inner).fixed_vars ∧
    (collect_vars_and_named_exprs f (.namedE k iid inner)).external_functions
      = (collect_vars_and_named_exprs f inner).external_functions ∧
    containsA (collect_vars_and_named_exprs f
      (.namedE k iid inner)).named_expressions k = true := by
  have hw : collect_vars_and_named_exprs f (.namedE k iid inner)
      = collectWalk f inner
          { named_expressions := insertA [] k iid, vars := [],
            fixed_vars := [], external_functions := [] } := rfl
  obtain ⟨h₁, h₂, h₃⟩ := collectWalk_indep f inner
    { named_expressions := insertA ([] : List (Nat × Nat)) k iid, vars := [],
      fixed_vars := [], external_functions := [] }
    ({} : CollectorState) rfl rfl rfl
  refine ⟨by rw [hw]; exact h₁, by rw [hw]; exact h₂, by rw [hw]; exact h₃, ?_⟩
  rw [hw]
  refine collectWalk_named_mono f inner _ k ?_
  show containsA (insertA [] k iid) k = true
  rw [containsA_insertA]
  simp

/-! ## C3: `remove_variables` succeeds exactly on unreferenced variables -/

theorem addKey_mem {κ : Type} [DecidableEq κ] (l : List κ) (k : κ) (h : k ∈ l) :
    addKey l k = l := by
  simp [addKey, h]

/-- C3: for a tracked variable (one holding a reference-count entry and a
snapshot record), `remove_variables` succeeds if and only if the entry
shows no referencing constraint, no referencing SOS constraint and no
referencing objective; otherwise it raises the still-referenced error. -/
theorem claim3_thm (s : SState) (v : Nat) (e : RefEntry)
    (hv : lookupA s.referenced_variables v = some e)
    (hvars : containsA s.vars v = true)
    (hf : s.fails.fRemoveVariables = false) :
    (runRes (remove_variables [v]) s = .ok () ↔
      e.rcons = [] ∧ e.rsos = [] ∧ e.robj = none) ∧
    ((e.rcons ≠ [] ∨ e.rsos ≠ [] ∨ e.robj ≠ none) →
      runRes (remove_variables [v]) s = .error .stillReferenced) := by
  have hrun : runRes (remove_variables [v]) s = runRes (removeVariablesLoop [v]) s := by
    rw [remove_variables]
    rw [runRes_bind]
    rw [runRes_backendCall]
    simp [hf, runSt_backendCall]
  by_cases href : e.rcons ≠ [] ∨ e.rsos ≠ [] ∨ e.robj ≠ none
  · have herr : runRes (removeVariablesLoop [v]) s = .error .stillReferenced := by
      rw [removeVariablesLoop]
      rw [runRes_bind]
      simp [hv, href]
    constructor
    · rw [hrun, herr]
      constructor
      · intro h; simp at h
      · rintro ⟨h₁, h₂, h₃⟩
        rcases href with h | h | h
        · exact absurd h₁ h
        · exact absurd h₂ h
        · exact absurd h₃ h
    · intro _; rw [hrun, herr]
  · push_neg at href
    obtain ⟨h₁, h₂, h₃⟩ := href
    have hok : runRes (removeVariablesLoop [v]) s = .ok () := by
      rw [removeVariablesLoop]
      rw [runRes_bind]
      have hnot : ¬ (e.rcons ≠ [] ∨ e.rsos ≠ [] ∨ e.robj ≠ none) := by
        push_neg
        exact ⟨h₁, h₂, h₃⟩
      simp [hv, hnot, runRes_bind, hvars, removeVariablesLoop]
    constructor
    · rw [hrun, hok]
      exact ⟨fun _ => ⟨h₁, h₂, h₃⟩, fun _ => rfl⟩
    · intro hcon
      exact absurd hcon (by push_neg; exact ⟨h₁, h₂, h₃⟩)

def sW3 : SState := { referenced_variables := [(1, {})], vars := [(1, {})] }

theorem claim3_witness :
    (runRes (remove_variables [1]) sW3 = .ok () ↔
      ({} : RefEntry).rcons = [] ∧ ({} : RefEntry).rsos = [] ∧
        ({} : RefEntry).robj = none) ∧
    ((({} : RefEntry).rcons ≠ [] ∨ ({} : RefEntry).rsos ≠ [] ∨
        ({} : RefEntry).robj ≠ none) →
      runRes (remove_variables [1]) sW3 = .error .stillReferenced) :=
  claim3_thm sW3 1 {} rfl rfl rfl

/-! ## C6: duplicate adds -/

/-- C6, counterexample: adding an already-tracked mutable parameter again
does not raise — `add_params` has no duplicate check; the dict setitem
silently overwrites and the call succeeds. -/
theorem claim6_cex :
    runRes (add_params [4]) { params := [4] } = .ok () ∧
    (runSt (add_params [4]) { params := [4] }).params = [4] := ⟨rfl, rfl⟩

/-- C6, amended: re-adding a tracked constraint or a tracked SOS constraint
without an intervening removal raises the duplicate-add error, but
re-adding a tracked mutable parameter silently succeeds, leaving the
parameter registry unchanged. -/
theorem claim6_thm (s : SState) (c : SCon) (cs : List SCon) (so : SSos)
    (sol : List SSos) (p : Nat)
    (hc : containsA s.named_expressions (ConKey.reg c.cid) = true)
    (hs : containsA s.vars_referenced_by_con (ConKey.sos so.sid) = true)
    (hp : p ∈ s.params)
    (hpf : s.fails.fAddParams = false) :
    runRes (add_constraints (c :: cs)) s = .error .alreadyAdded ∧
    runRes (add_sos_constraints (so :: sol)) s = .error .alreadyAdded ∧
    runRes (add_params [p]) s = .ok () ∧
    (runSt (add_params [p]) s).params = s.params := by
  refine ⟨?_, ?_, ?_, ?_⟩
  · rw [add_constraints]
    rw [runRes_bind]
    rw [addConstraintsLoop]
    rw [runRes_bind]
    rw [addConOne]
    rw [runRes_bind]
    simp [hc]
  · rw [add_sos_constraints]
    rw [runRes_bind]
    rw [addSosLoop]
    rw [runRes_bind]
    simp [hs]
  · rw [add_params]
    rw [runRes_bind]
    simp [runRes_backendCall, hpf]
  · rw [add_params]
    rw [runSt_bind]
    simp [runRes_backendCall, hpf, addKey_mem _ _ hp]

def sW6 : SState :=
  { params := [4],
    named_expressions := [(ConKey.reg 10, [])],
    vars_referenced_by_con := [(ConKey.reg 10, []), (ConKey.sos 20, [])] }

theorem claim6_witness :
    runRes (add_constraints [{ cid := 10 }]) sW6 = .error .alreadyAdded ∧
    runRes (add_sos_constraints [{ sid := 20 }]) sW6 = .error .alreadyAdded ∧
    runRes (add_params [4]) sW6 = .ok () ∧
    (runSt (add_params [4]) sW6).params = sW6.params :=
  claim6_thm sW6 { cid := 10 } [] { sid := 20 } [] 4 rfl rfl (by simp [sW6]) rfl

/-! ## C1: the fixed-variable round trip of `add_constraints` -/

theorem VarAttrs.set_vfixed_self (a : VarAttrs) (b : Bool) (h : a.vfixed = b) :
    { a with vfixed := b } = a := by
  cases a
  simp at h
  simp [h]

/-- Pointwise effect of `v.unfix()` on variable attributes. -/
theorem lookup_unfixVar (m : SModel) (v w : Nat) :
    lookupA (m.unfixVar v).mvars w =
      if w = v then (lookupA m.mvars v).map (fun a => { a with vfixed := false })
      else lookupA m.mvars w := by
  cases hl : lookupA m.mvars v with
  | none =>
      by_cases hw : w = v
      · simp [SModel.unfixVar, hl, hw]
      · simp [SModel.unfixVar, hl, hw]
  | some a =>
      by_cases hw : w = v
      · subst hw
        simp [SModel.unfixVar, hl, lookupA_insertA_self]
  /- the two branches of the dict update -/
      · simp [SModel.unfixVar, hl, lookupA_insertA_ne _ _ _ _ (Ne.symm hw), hw]

/-- Pointwise effect of `v.fix()` on variable attributes. -/
theorem lookup_fixVar (m : SModel) (v w : Nat) :
    lookupA (m.fixVar v).mvars w =
      if w = v then (lookupA m.mvars v).map (fun a => { a with vfixed := true })
      else lookupA m.mvars w := by
  cases hl : lookupA m.mvars v with
  | none =>
      by_cases hw : w = v
      · simp [SModel.fixVar, hl, hw]
      · simp [SModel.fixVar, hl, hw]
  | some a =>
      by_cases hw : w = v
      · subst hw
        simp [SModel.fixVar, hl, lookupA_insertA_self]
      · simp [SModel.fixVar, hl, lookupA_insertA_ne _ _ _ _ (Ne.symm hw), hw]

/-- `fix`/`unfix` touch only the variable table of the model. -/
theorem unfixVar_only_mvars (m : SModel) (v : Nat) :
    (m.unfixVar v).mparams = m.mparams ∧ (m.unfixVar v).mcons = m.mcons ∧
    (m.unfixVar v).msos = m.msos ∧ (m.unfixVar v).mobj = m.mobj ∧
    (m.unfixVar v).mnexprs = m.mnexprs := by
  cases hl : lookupA m.mvars v <;> simp [SModel.unfixVar, hl]

/-- `unfixAll` leaves every state component except the model untouched and
acts pointwise on the variable attributes. -/
theorem unfixAll_run (l : List Nat) : ∀ s : SState,
    runRes (unfixAll l) s = .ok () ∧
    runTr (unfixAll l) s = [] ∧
    (runSt (unfixAll l) s) = { s with model := (runSt (unfixAll l) s).model } ∧
    (∀ w, lookupA (runSt (unfixAll l) s).model.mvars w =
      if w ∈ l then (lookupA s.model.mvars w).map (fun a => { a with vfixed := false })
      else lookupA s.model.mvars w) ∧
    (runSt (unfixAll l) s).model.mparams = s.model.mparams ∧
    (runSt (unfixAll l) s).model.mcons = s.model.mcons ∧
    (runSt (unfixAll l) s).model.msos = s.model.msos ∧
    (runSt (unfixAll l) s).model.mobj = s.model.mobj ∧
    (runSt (unfixAll l) s).model.mnexprs = s.model.mnexprs := by
  induction l with
  | nil =>
      intro s
      refine ⟨rfl, rfl, rfl, fun w => by simp [unfixAll], rfl, rfl, rfl, rfl, rfl⟩
  | cons v rest ih =>
      intro s
      have hstep : runSt (unfixAll (v :: rest)) s
          = runSt (unfixAll rest) { s with model := s.model.unfixVar v } := by
        rw [unfixAll]
        rw [runSt_bind]
        simp
      have hres : runRes (unfixAll (v :: rest)) s
          = runRes (unfixAll rest) { s with model := s.model.unfixVar v } := by
        rw [unfixAll]
        rw [runRes_bind]
        simp
      have htr : runTr (unfixAll (v :: rest)) s
          = runTr (unfixAll rest) { s with model := s.model.unfixVar v } := by
        rw [unfixAll]
        rw [runTr_bind]
        simp
      obtain ⟨i₁, i₂, i₃, i₄, i₅, i₆, i₇, i₈, i₉⟩ :=
        ih { s with model := s.model.unfixVar v }
      obtain ⟨o₁, o₂, o₃, o₄, o₅⟩ := unfixVar_only_mvars s.model v
      refine ⟨by rw [hres]; exact i₁, by rw [htr]; exact i₂, ?_, ?_, ?_, ?_, ?_, ?_, ?_⟩
      · rw [hstep]
        rw [i₃]
      · intro w
        rw [hstep, i₄ w, lookup_unfixVar]
        by_cases hw : w = v
        · subst hw
          by_cases hr : w ∈ rest <;>
            simp [hr, Option.map_map, Function.comp] <;>
            cases lookupA s.model.mvars w <;> simp
        · by_cases hr : w ∈ rest <;> simp [hr, hw]
      · rw [hstep, i₅]; exact o₁
      · rw [hstep, i₆]; exact o₂
      · rw [hstep, i₇]; exact o₃
      · rw [hstep, i₈]; exact o₄
      · rw [hstep, i₉]; exact o₅

theorem fixVar_only_mvars (m : SModel) (v : Nat) :
    (m.fixVar v).mparams = m.mparams ∧ (m.fixVar v).mcons = m.mcons ∧
    (m.fixVar v).msos = m.msos ∧ (m.fixVar v).mobj = m.mobj ∧
    (m.fixVar v).mnexprs = m.mnexprs := by
  cases hl : lookupA m.mvars v <;> simp [SModel.fixVar, hl]

/-- `fixAll` counterpart of `unfixAll_run`. -/
theorem fixAll_run (l : List Nat) : ∀ s : SState,
    runRes (fixAll l) s = .ok () ∧
    runTr (fixAll l) s = [] ∧
    (runSt (fixAll l) s) = { s with model := (runSt (fixAll l) s).model } ∧
    (∀ w, lookupA (runSt (fixAll l) s).model.mvars w =
      if w ∈ l then (lookupA s.model.mvars w).map (fun a => { a with vfixed := true })
      else lookupA s.model.mvars w) ∧
    (runSt (fixAll l) s).model.mparams = s.model.mparams ∧
    (runSt (fixAll l) s).model.mcons = s.model.mcons ∧
    (runSt (fixAll l) s).model.msos = s.model.msos ∧
    (runSt (fixAll l) s).model.mobj = s.model.mobj ∧
    (runSt (fixAll l) s).model.mnexprs = s.model.mnexprs := by
  induction l with
  | nil =>
      intro s
      refine ⟨rfl, rfl, rfl, fun w => by simp [fixAll], rfl, rfl, rfl, rfl, rfl⟩
  | cons v rest ih =>
      intro s
      have hstep : runSt (fixAll (v :: rest)) s
          = runSt (fixAll rest) { s with model := s.model.fixVar v } := by
        rw [fixAll]
        rw [runSt_bind]
        simp
      have hres : runRes (fixAll (v :: rest)) s
          = runRes (fixAll rest) { s with model := s.model.fixVar v } := by
        rw [fixAll]
        rw [runRes_bind]
        simp
      have htr : runTr (fixAll (v :: rest)) s
          = runTr (fixAll rest) { s with model := s.model.fixVar v } := by
        rw [fixAll]
        rw [runTr_bind]
        simp
      obtain ⟨i₁, i₂, i₃, i₄, i₅, i₆, i₇, i₈, i₉⟩ :=
        ih { s with model := s.model.fixVar v }
      obtain ⟨o₁, o₂, o₃, o₄, o₅⟩ := fixVar_only_mvars s.model v
      refine ⟨by rw [hres]; exact i₁, by rw [htr]; exact i₂, ?_, ?_, ?_, ?_, ?_, ?_, ?_⟩
      · rw [hstep]
        rw [i₃]
      · intro w
        rw [hstep, i₄ w, lookup_fixVar]
        by_cases hw : w = v
        · subst hw
          by_cases hr : w ∈ rest <;>
            simp [hr, Option.map_map, Function.comp] <;>
            cases lookupA s.model.mvars w <;> simp
        · by_cases hr : w ∈ rest <;> simp [hr, hw]
      · rw [hstep, i₅]; exact o₁
      · rw [hstep, i₆]; exact o₂
      · rw [hstep, i₇]; exact o₃
      · rw [hstep, i₈]; exact o₄
      · rw [hstep, i₉]; exact o₅

theorem run_bind_ok {α β : Type} {x : M α} {f : α → M β} {s : SState} {a : α}
    (h : runRes x s = .ok a) :
    runRes (x >>= f) s = runRes (f a) (runSt x s) ∧
    runSt (x >>= f) s = runSt (f a) (runSt x s) ∧
    runTr (x >>= f) s = runTr x s ++ runTr (f a) (runSt x s) := by
  rw [runRes_bind, runSt_bind, runTr_bind, h]
  exact ⟨rfl, rfl, rfl⟩

theorem run_bind_error {α β : Type} {x : M α} {f : α → M β} {s : SState} {e : Err}
    (h : runRes x s = .error e) :
    runRes (x >>= f) s = .error e ∧
    runSt (x >>= f) s = runSt x s ∧
    runTr (x >>= f) s = runTr x s := by
  rw [runRes_bind, runSt_bind, runTr_bind, h]
  exact ⟨rfl, rfl, rfl⟩

theorem mem_addKey {κ : Type} [DecidableEq κ] (l : List κ) (k v : κ) :
    v ∈ addKey l k ↔ v ∈ l ∨ v = k := by
  by_cases h : k ∈ l
  · simp only [addKey, if_pos h]
    constructor
    · exact Or.inl
    · rintro (hv | rfl)
      · exact hv
      · exact h
  · simp [addKey, if_neg h]

theorem mem_foldl_addKey {κ : Type} [DecidableEq κ] (l : List κ) :
    ∀ (acc : List κ) (v : κ), v ∈ l.foldl addKey acc ↔ v ∈ acc ∨ v ∈ l := by
  induction l with
  | nil => intro acc v; simp
  | cons k rest ih =>
      intro acc v
      rw [List.foldl_cons, ih, mem_addKey]
      constructor
      · rintro ((hv | rfl) | hv)
        · exact Or.inl hv
        · exact Or.inr (List.mem_cons_self _ _)
        · exact Or.inr (List.mem_cons_of_mem _ hv)
      · rintro (hv | hv)
        · exact Or.inl (Or.inl hv)
        · rcases List.mem_cons.mp hv with rfl | hv
          · exact Or.inl (Or.inr rfl)
          · exact Or.inr hv

/-- A variable is collected as fixed only when the fixed-status oracle says
so (or it was already in the accumulator). -/
theorem collectWalk_fixed_sub (f : Nat → Bool) (e : PExpr) :
    ∀ (st : CollectorState) (v : Nat),
      v ∈ (collectWalk f e st).fixed_vars → v ∈ st.fixed_vars ∨ f v = true := by
  induction e with
  | constE x => intro st v h; exact Or.inl h
  | varE vid =>
      intro st v h
      simp only [collectWalk, recordVar] at h
      by_cases hf : f vid
      · rw [if_pos hf] at h
        rcases (mem_addKey _ _ _).mp h with hv | rfl
        · exact Or.inl hv
        · exact Or.inr hf
      · rw [if_neg hf] at h
        exact Or.inl h
  | namedE nid iid inner ih =>
      intro st v h
      rw [collectWalk] at h
      exact ih { st with named_expressions := insertA st.named_expressions nid iid } v h
  | extCallE fid arg ih =>
      intro st v h
      rw [collectWalk] at h
      exact ih { st with external_functions := addKey st.external_functions fid } v h
  | unop a ih =>
      intro st v h
      rw [collectWalk] at h
      exact ih st v h
  | binop a b iha ihb =>
      intro st v h
      rw [collectWalk] at h
      rcases ihb _ v h with hv | hv
      · exact iha _ v hv
      · exact Or.inr hv

/-- A fixed `varAttrs` reading means the variable is present and fixed. -/
theorem vfixed_lookup (m : SModel) (v : Nat) (h : (m.varAttrs v).vfixed = true) :
    ∃ a, lookupA m.mvars v = some a ∧ a.vfixed = true := by
  cases hl : lookupA m.mvars v with
  | none => simp [SModel.varAttrs, hl] at h
  | some a => exact ⟨a, rfl, by simpa [SModel.varAttrs, hl] using h⟩

/-! Model preservation of the registry-only operations. -/

theorem model_addVariablesLoop (l : List Nat) :
    ∀ s : SState, (runSt (addVariablesLoop l) s).model = s.model := by
  induction l with
  | nil => intro s; rfl
  | cons v rest ih =>
      intro s
      rw [addVariablesLoop]
      rw [runSt_bind]
      simp only [runRes_getS, runSt_getS]
      by_cases h : containsA s.referenced_variables v
      · simp [h]
      · simp only [h]
        rw [if_neg (by simp [h])]
        rw [runSt_bind]
        simp [ih]

theorem model_add_variables (l : List Nat) :
    ∀ s : SState, (runSt (add_variables l) s).model = s.model := by
  intro s
  rw [add_variables]
  rw [runSt_bind]
  cases h : runRes (addVariablesLoop l) s with
  | ok a =>
      simp only [h]
      rw [runSt_backendCall, model_addVariablesLoop]
  | error e =>
      simp only [h]
      exact model_addVariablesLoop l s

theorem model_check_for_new_vars (l : List Nat) :
    ∀ s : SState, (runSt (check_for_new_vars l) s).model = s.model := by
  intro s
  rw [check_for_new_vars]
  rw [runSt_bind]
  simp only [runRes_getS, runSt_getS]
  exact model_add_variables _ s

theorem model_linkConVar (key : ConKey) (v : Nat) :
    ∀ s : SState, (runSt (linkConVar key v) s).model = s.model := by
  intro s
  rw [linkConVar]
  rw [runSt_bind]
  simp only [runRes_getS, runSt_getS]
  cases h : lookupA s.referenced_variables v <;> simp [h]

theorem model_linkConVars (key : ConKey) (l : List Nat) :
    ∀ s : SState, (runSt (linkConVars key l) s).model = s.model := by
  induction l with
  | nil => intro s; rfl
  | cons v rest ih =>
      intro s
      rw [linkConVars]
      rw [runSt_bind]
      cases h : runRes (linkConVar key v) s with
      | ok a =>
          simp only [h]
          rw [ih, model_linkConVar]
      | error e =>
          simp only [h]
          exact model_linkConVar key v s

/-- Characterization of a successful `addConOne` run: the final state is an
`unfixAll fv` image of an intermediate state whose model is the initial
one, and every returned variable was fixed in the initial model. -/
theorem addConOne_char (con : SCon) (s : SState) (fv : List Nat)
    (h : runRes (addConOne con) s = .ok fv) :
    ∃ st : SState, st.model = s.model ∧
      runSt (addConOne con) s = runSt (unfixAll fv) st ∧
      (∀ v ∈ fv, (s.model.varAttrs v).vfixed = true) := by
  rw [addConOne] at h ⊢
  simp only [runRes_bind, runSt_bind, runRes_getS, runSt_getS, runRes_modifyS,
    runSt_modifyS, runRes_pure, runSt_pure] at h ⊢
  by_cases hc : containsA s.named_expressions (ConKey.reg con.cid) = true
  · rw [if_pos hc] at h
    simp [runRes_throwE] at h
  · rw [if_neg hc] at h ⊢
    simp only [runRes_bind, runSt_bind, runRes_getS, runSt_getS, runRes_modifyS,
      runSt_modifyS, runRes_pure, runSt_pure] at h ⊢
    have runRes_unfix : ∀ (l : List Nat) (st : SState),
        runRes (unfixAll l) st = .ok () := fun l st => (unfixAll_run l st).1
    have hfix : ∀ v ∈ (collect_vars_and_named_exprs
        (fun v => (s.model.varAttrs v).vfixed) con.cbody).fixed_vars,
        (s.model.varAttrs v).vfixed = true := by
      intro v hv
      rcases collectWalk_fixed_sub
        (fun v => (s.model.varAttrs v).vfixed) con.cbody {} v hv with hv₀ | hv₀
      · simp at hv₀
      · exact hv₀
    split at h
    · -- only_child_vars = false: the auto-registration step runs
      rename_i hoc
      rw [if_pos hoc]
      simp only [runRes_bind, runSt_bind, runRes_getS, runSt_getS, runRes_modifyS,
        runSt_modifyS, runRes_pure, runSt_pure] at h ⊢
      split at h
      · -- check_for_new_vars returned ok
        rename_i u heq
        split at h
        · -- external functions present
          rename_i hext
          rw [if_pos hext]
          simp only [runRes_bind, runSt_bind, runRes_getS, runSt_getS, runRes_modifyS,
            runSt_modifyS, runRes_pure, runSt_pure] at h ⊢
          split at h
          · rename_i u₂ heq₂
            split at h
            · -- fixed vars are unfixed transiently
              rename_i ht
              rw [if_pos ht]
              simp only [runRes_bind, runSt_bind, runRes_pure, runSt_pure,
                runRes_unfix] at h ⊢
              obtain rfl : _ = fv := Except.ok.inj h
              refine ⟨_, ?_, rfl, hfix⟩
              simp [model_linkConVars, model_check_for_new_vars]
            · -- treat_fixed_vars_as_params: nothing unfixed
              rename_i ht
              rw [if_neg ht]
              simp only [runRes_pure, runSt_pure] at h ⊢
              obtain rfl : _ = fv := Except.ok.inj h
              simp only [unfixAll, runSt_pure]
              refine ⟨_, ?_, rfl, ?_⟩
              · simp [model_linkConVars, model_check_for_new_vars]
              · intro v hv
                simp at hv
          · rename_i e heq₂
            simp at h
        · -- no external functions
          rename_i hext
          rw [if_neg hext]
          simp only [runRes_bind, runSt_bind, runRes_getS, runSt_getS, runRes_modifyS,
            runSt_modifyS, runRes_pure, runSt_pure] at h ⊢
          split at h
          · rename_i u₂ heq₂
            split at h
            · rename_i ht
              rw [if_pos ht]
              simp only [runRes_bind, runSt_bind, runRes_pure, runSt_pure,
                runRes_unfix] at h ⊢
              obtain rfl : _ = fv := Except.ok.inj h
              refine ⟨_, ?_, rfl, hfix⟩
              simp [model_linkConVars, model_check_for_new_vars]
            · rename_i ht
              rw [if_neg ht]
              simp only [runRes_pure, runSt_pure] at h ⊢
              obtain rfl : _ = fv := Except.ok.inj h
              simp only [unfixAll, runSt_pure]
              refine ⟨_, ?_, rfl, ?_⟩
              · simp [model_linkConVars, model_check_for_new_vars]
              · intro v hv
                simp at hv
          · rename_i e heq₂
            simp at h
      · -- check_for_new_vars raised
        rename_i e heq
        simp at h
    · -- only_child_vars = true: no auto-registration
      rename_i hoc
      rw [if_neg hoc]
      simp only [runRes_bind, runSt_bind, runRes_getS, runSt_getS, runRes_modifyS,
        runSt_modifyS, runRes_pure, runSt_pure] at h ⊢
      split at h
      · rename_i hext
        rw [if_pos hext]
        simp only [runRes_bind, runSt_bind, runRes_getS, runSt_getS, runRes_modifyS,
          runSt_modifyS, runRes_pure, runSt_pure] at h ⊢
        split at h
        · rename_i u₂ heq₂
          split at h
          · rename_i ht
            rw [if_pos ht]
            simp only [runRes_bind, runSt_bind, runRes_pure, runSt_pure,
              runRes_unfix] at h ⊢
            obtain rfl : _ = fv := Except.ok.inj h
            refine ⟨_, ?_, rfl, hfix⟩
            simp [model_linkConVars]
          · rename_i ht
            rw [if_neg ht]
            simp only [runRes_pure, runSt_pure] at h ⊢
            obtain rfl : _ = fv := Except.ok.inj h
            simp only [unfixAll, runSt_pure]
            refine ⟨_, ?_, rfl, ?_⟩
            · simp [model_linkConVars]
            · intro v hv
              simp at hv
        · rename_i e heq₂
          simp at h
      · rename_i hext
        rw [if_neg hext]
        simp only [runRes_bind, runSt_bind, runRes_getS, runSt_getS, runRes_modifyS,
          runSt_modifyS, runRes_pure, runSt_pure] at h ⊢
        split at h
        · rename_i u₂ heq₂
          split at h
          · rename_i ht
            rw [if_pos ht]
            simp only [runRes_bind, runSt_bind, runRes_pure, runSt_pure,
              runRes_unfix] at h ⊢
            obtain rfl : _ = fv := Except.ok.inj h
            refine ⟨_, ?_, rfl, hfix⟩
            simp [model_linkConVars]
          · rename_i ht
            rw [if_neg ht]
            simp only [runRes_pure, runSt_pure] at h ⊢
            obtain rfl : _ = fv := Except.ok.inj h
            simp only [unfixAll, runSt_pure]
            refine ⟨_, ?_, rfl, ?_⟩
            · simp [model_linkConVars]
            · intro v hv
              simp at hv
        · rename_i e heq₂
          simp at h

/-- The fixed-variable bookkeeping of the whole `add_constraints` loop:
on success, the model differs from the initial one exactly by clearing the
fixed flag on the returned `all_fixed_vars`; the accumulator grows
monotonically; and every accumulated variable either was already
accumulated or was fixed in the initial model. -/
theorem addConsLoop_run (cons : List SCon) :
    ∀ (s : SState) (acc af : List Nat),
      runRes (addConstraintsLoop cons acc) s = .ok af →
      (∀ v ∈ acc, (s.model.varAttrs v).vfixed = false) →
      (∀ w, lookupA (runSt (addConstraintsLoop cons acc) s).model.mvars w =
        if w ∈ af then (lookupA s.model.mvars w).map (fun a => { a with vfixed := false })
        else lookupA s.model.mvars w) ∧
      (∀ v ∈ acc, v ∈ af) ∧
      (∀ v ∈ af, v ∈ acc ∨ ∃ a, lookupA s.model.mvars v = some a ∧ a.vfixed = true) := by
  induction cons with
  | nil =>
      intro s acc af h hacc
      obtain rfl : acc = af := Except.ok.inj h
      refine ⟨?_, fun v hv => hv, fun v hv => Or.inl hv⟩
      intro w
      by_cases hw : w ∈ acc
      · rw [if_pos hw]
        have := hacc w hw
        cases hl : lookupA s.model.mvars w with
        | none => exact hl
        | some a =>
            have ha : a.vfixed = false := by
              simpa [SModel.varAttrs, hl] using this
            have hm : (some a).map (fun b => { b with vfixed := false }) = some a := by
              simp [VarAttrs.set_vfixed_self a false ha]
            rw [hm]
            exact hl
      · rw [if_neg hw]
        rfl
  | cons con rest ih =>
      intro s acc af h hacc
      rw [addConstraintsLoop] at h ⊢
      cases hone : runRes (addConOne con) s with
      | error e =>
          obtain ⟨hr, -, -⟩ := run_bind_error hone
          rw [hr] at h
          simp at h
      | ok fv =>
          obtain ⟨hr, hsx, -⟩ := run_bind_ok hone
          rw [hr] at h
          rw [hsx]
          obtain ⟨st, hstm, hs₁, hfvfix⟩ := addConOne_char con s fv hone
          obtain ⟨u₁, u₂, u₃, u₄, u₅, u₆, u₇, u₈, u₉⟩ := unfixAll_run fv st
          have hpt : ∀ w, lookupA (runSt (addConOne con) s).model.mvars w =
              if w ∈ fv then
                (lookupA s.model.mvars w).map (fun a => { a with vfixed := false })
              else lookupA s.model.mvars w := by
            intro w
            rw [hs₁, u₄ w, hstm]
          have hacc₂ : ∀ v ∈ fv.foldl addKey acc,
              ((runSt (addConOne con) s).model.varAttrs v).vfixed = false := by
            intro v hv
            rcases (mem_foldl_addKey fv acc v).mp hv with hv₀ | hv₀
            · by_cases hf : v ∈ fv
              · have := hpt v
                rw [if_pos hf] at this
                cases hl : lookupA s.model.mvars v with
                | none => simp [SModel.varAttrs, this, hl]
                | some a => simp [SModel.varAttrs, this, hl]
              · have := hpt v
                rw [if_neg hf] at this
                have hb := hacc v hv₀
                cases hl : lookupA s.model.mvars v with
                | none => simp [SModel.varAttrs, this, hl]
                | some a =>
                    simp only [SModel.varAttrs, hl, Option.getD_some] at hb
                    simp [SModel.varAttrs, this, hl, hb]
            · have := hpt v
              rw [if_pos hv₀] at this
              cases hl : lookupA s.model.mvars v with
              | none => simp [SModel.varAttrs, this, hl]
              | some a => simp [SModel.varAttrs, this, hl]
          obtain ⟨i₁, i₂, i₃⟩ :=
            ih (runSt (addConOne con) s) (fv.foldl addKey acc) af h hacc₂
          have hfvaf : ∀ v ∈ fv, v ∈ af := by
            intro v hv
            exact i₂ v ((mem_foldl_addKey fv acc v).mpr (Or.inr hv))
          have hcollapse : ∀ (o : Option VarAttrs),
              (o.map (fun a => { a with vfixed := false })).map
                  (fun a => { a with vfixed := false })
                = o.map (fun a => { a with vfixed := false }) := by
            intro o
            cases o <;> rfl
          refine ⟨?_, ?_, ?_⟩
          · intro w
            rw [i₁ w, hpt w]
            by_cases haf : w ∈ af
            · by_cases hf : w ∈ fv
              · simp [haf, hf, hcollapse]
              · simp [haf, hf]
            · have hf : w ∉ fv := fun hw => haf (hfvaf w hw)
              simp [haf, hf]
          · intro v hv
            exact i₂ v ((mem_foldl_addKey fv acc v).mpr (Or.inl hv))
          · intro v hv
            rcases i₃ v hv with hv₀ | ⟨a, ha, hfx⟩
            · rcases (mem_foldl_addKey fv acc v).mp hv₀ with hv₁ | hv₁
              · exact Or.inl hv₁
              · exact Or.inr (vfixed_lookup s.model v (hfvfix v hv₁))
            · rw [hpt v] at ha
              by_cases hf : v ∈ fv
              · rw [if_pos hf] at ha
                exfalso
                cases hl : lookupA s.model.mvars v with
                | none => rw [hl] at ha; simp at ha
                | some b =>
                    rw [hl] at ha
                    have hba : ({ b with vfixed := false } : VarAttrs) = a := by
                      simpa using ha
                    rw [← hba] at hfx
                    simp at hfx
              · rw [if_neg hf] at ha
                exact Or.inr ⟨a, ha, hfx⟩

/-- C1, counterexample: `add_constraints` has no `try`/`finally`; when the
backend `_add_constraints` raises, the re-fixing pass never runs, so a
fixed variable transiently unfixed by the call is left unfixed (its value
is preserved but its fixed flag is cleared), contrary to the claim that it
is re-fixed on the failure path too. -/
theorem claim1_cex :
    runRes (add_constraints [{ cid := 10, cbody := .varE 1 }])
        { model := { mvars := [(1, { vfixed := true, vvalue := 7 })] },
          fails := { fAddConstraints := true } } = .error .backendError ∧
    (runSt (add_constraints [{ cid := 10, cbody := .varE 1 }])
        { model := { mvars := [(1, { vfixed := true, vvalue := 7 })] },
          fails := { fAddConstraints := true } }).model.varAttrs 1
      = { vfixed := false, vvalue := 7 } := ⟨rfl, rfl⟩

/-- C1, amended: when `treat_fixed_vars_as_params` is disabled and the
`add_constraints` call completes successfully (in particular the backend
`_add_constraints` call did not raise), every fixed variable transiently
unfixed during the call is fixed again with its original value — the
per-variable attribute records of the model are fully restored.  On a
backend exception the re-fixing pass does not run (see the
counterexample). -/
theorem claim1_thm (s : SState) (cons : List SCon)
    (hcfg : s.config.treat_fixed_vars_as_params = false)
    (h : runRes (add_constraints cons) s = .ok ()) :
    ∀ w, lookupA (runSt (add_constraints cons) s).model.mvars w
        = lookupA s.model.mvars w := by
  intro w
  rw [add_constraints] at h ⊢
  cases hl : runRes (addConstraintsLoop cons []) s with
  | error e =>
      obtain ⟨hr, -, -⟩ := run_bind_error hl
      rw [hr] at h
      simp at h
  | ok af =>
      obtain ⟨hr, hsx, -⟩ := run_bind_ok hl
      rw [hr] at h
      rw [hsx]
      cases hb : runRes (backendCall (.addConstraints (cons.map SCon.cid))
          (fun s => s.fails.fAddConstraints)) (runSt (addConstraintsLoop cons []) s) with
      | error e =>
          obtain ⟨hr₂, -, -⟩ := run_bind_error hb
          rw [hr₂] at h
          simp at h
      | ok u =>
          obtain ⟨-, hsx₂, -⟩ := run_bind_ok hb
          rw [hsx₂]
          rw [runSt_backendCall]
          obtain ⟨i₁, -, i₃⟩ := addConsLoop_run cons s [] af hl (by simp)
          obtain ⟨-, -, -, f₄, -, -, -, -, -⟩ :=
            fixAll_run af (runSt (addConstraintsLoop cons []) s)
          rw [f₄ w, i₁ w]
          by_cases haf : w ∈ af
          · rcases i₃ w haf with hw | ⟨a, ha, hfx⟩
            · simp at hw
            · simp [haf, ha, VarAttrs.set_vfixed_self a true hfx]
          · simp [haf]

def sW1 : SState := { model := { mvars := [(1, { vfixed := true, vvalue := 7 })] } }

theorem claim1_witness :
    lookupA (runSt (add_constraints [{ cid := 10, cbody := .varE 1 }]) sW1).model.mvars 1
      = lookupA sW1.model.mvars 1 :=
  claim1_thm sW1 [{ cid := 10, cbody := .varE 1 }] rfl rfl 1

/-! ## A small preservation framework over state projections -/

/-- `PresPart p x`: running `x` never changes the `p`-projection of the
state (on success and on error alike). -/
def PresPart {γ α : Type} (p : SState → γ) (x : M α) : Prop :=
  ∀ s : SState, p (runSt x s) = p s

theorem PresPart_bind {γ α β : Type} {p : SState → γ} {x : M α} {f : α → M β}
    (hx : PresPart p x) (hf : ∀ a, PresPart p (f a)) : PresPart p (x >>= f) := by
  intro s
  rw [runSt_bind]
  cases h : runRes x s with
  | ok a => rw [hf a (runSt x s), hx s]
  | error e => exact hx s

theorem PresPart_pure {γ α : Type} {p : SState → γ} (a : α) :
    PresPart p (Pure.pure a : M α) := fun _ => rfl

theorem PresPart_getS {γ : Type} {p : SState → γ} : PresPart p getS := fun _ => rfl

theorem PresPart_throwE {γ α : Type} {p : SState → γ} (e : Err) :
    PresPart p (throwE e : M α) := fun _ => rfl

theorem PresPart_backendCall {γ : Type} {p : SState → γ} (ev : Event)
    (flag : SState → Bool) : PresPart p (backendCall ev flag) := fun s => by
  rw [runSt_backendCall]

theorem PresPart_modifyS {γ : Type} {p : SState → γ} (g : SState → SState)
    (hg : ∀ s, p (g s) = p s) : PresPart p (modifyS g) := fun s => hg s

theorem PresPart_ite {γ α : Type} {p : SState → γ} (c : Prop) [Decidable c]
    {x y : M α} (hx : PresPart p x) (hy : PresPart p y) :
    PresPart p (if c then x else y) := by
  by_cases h : c
  · rw [if_pos h]; exact hx
  · rw [if_neg h]; exact hy

/-! Further association-list facts. -/

theorem lookupA_isSome_iff_mem {κ α : Type} [DecidableEq κ]
    (l : List (κ × α)) (k : κ) : (lookupA l k).isSome ↔ k ∈ keysA l := by
  induction l with
  | nil => simp [lookupA, keysA]
  | cons p rest ih =>
      by_cases hp : p.1 = k
      · simp [lookupA, keysA, hp]
      · simp [lookupA, keysA, hp, ih, Ne.symm hp]

theorem containsA_false_iff {κ α : Type} [DecidableEq κ]
    (l : List (κ × α)) (k : κ) : containsA l k = false ↔ k ∉ keysA l := by
  rw [containsA]
  rw [← lookupA_isSome_iff_mem]
  cases lookupA l k <;> simp

theorem keysA_eraseA_sublist {κ α : Type} [DecidableEq κ]
    (l : List (κ × α)) (k : κ) : (keysA (eraseA l k)).Sublist (keysA l) := by
  induction l with
  | nil => simp [eraseA]
  | cons p rest ih =>
      by_cases hp : p.1 = k
      · simp only [eraseA, if_pos hp, keysA, List.map_cons]
        exact List.Sublist.cons _ (List.Sublist.refl _)
      · simp only [eraseA, if_neg hp, keysA, List.map_cons]
        exact List.Sublist.cons₂ _ ih

theorem nodup_keysA_eraseA {κ α : Type} [DecidableEq κ]
    (l : List (κ × α)) (k : κ) (h : (keysA l).Nodup) :
    (keysA (eraseA l k)).Nodup :=
  (keysA_eraseA_sublist l k).nodup h

theorem containsA_eraseA_false {κ α : Type} [DecidableEq κ]
    (l : List (κ × α)) (k k₀ : κ) (h : containsA l k₀ = false) :
    containsA (eraseA l k) k₀ = false := by
  rw [containsA_false_iff] at h ⊢
  exact fun hm => h ((keysA_eraseA_sublist l k).mem hm)

theorem lookupA_eraseA_self {κ α : Type} [DecidableEq κ]
    (l : List (κ × α)) (k : κ) (h : (keysA l).Nodup) :
    lookupA (eraseA l k) k = none := by
  induction l with
  | nil => simp [eraseA, lookupA]
  | cons p rest ih =>
      simp only [keysA, List.map_cons, List.nodup_cons] at h
      by_cases hp : p.1 = k
      · rw [eraseA, if_pos hp]
        cases ho : lookupA rest k with
        | none => rfl
        | some a =>
            exfalso
            have : k ∈ keysA rest :=
              (lookupA_isSome_iff_mem rest k).mp (by simp [ho])
            exact h.1 (hp ▸ this)
      · rw [eraseA, if_neg hp]
        rw [lookupA, if_neg hp]
        exact ih h.2

theorem containsA_eraseA_self {κ α : Type} [DecidableEq κ]
    (l : List (κ × α)) (k : κ) (h : (keysA l).Nodup) :
    containsA (eraseA l k) k = false := by
  rw [containsA, lookupA_eraseA_self l k h]
  rfl

theorem nodup_addKey {κ : Type} [DecidableEq κ] (l : List κ) (k : κ)
    (h : l.Nodup) : (addKey l k).Nodup := by
  by_cases hk : k ∈ l
  · rw [addKey, if_pos hk]; exact h
  · rw [addKey, if_neg hk]
    rw [List.nodup_append]
    refine ⟨h, List.nodup_singleton k, ?_⟩
    intro a ha hb
    rw [List.mem_singleton] at hb
    subst hb
    exact hk ha

/-! ## C10 support: the removal loops -/

/-- `checkToRemoveLoop` is read-only. -/
theorem ctr_state (l : List Nat) : ∀ (acc : List Nat) (s : SState),
    runSt (checkToRemoveLoop l acc) s = s := by
  induction l with
  | nil => intro acc s; rfl
  | cons v rest ih =>
      intro acc s
      rw [checkToRemoveLoop]
      rw [runSt_bind]
      simp only [runRes_getS, runSt_getS]
      cases hl : lookupA s.referenced_variables v with
      | none => simp [hl]
      | some e =>
          simp only [hl]
          by_cases he : e.rcons = [] ∧ e.rsos = [] ∧ e.robj = none
          · rw [if_pos he]; exact ih _ s
          · rw [if_neg he]; exact ih _ s

/-- `checkToRemoveLoop` can only raise `KeyError`. -/
theorem ctr_err (l : List Nat) : ∀ (acc : List Nat) (s : SState) (e : Err),
    runRes (checkToRemoveLoop l acc) s = .error e → e = .keyError := by
  induction l with
  | nil =>
      intro acc s e h
      rw [checkToRemoveLoop] at h
      simp at h
  | cons v rest ih =>
      intro acc s e h
      rw [checkToRemoveLoop] at h
      rw [runRes_bind] at h
      simp only [runRes_getS, runSt_getS] at h
      cases hl : lookupA s.referenced_variables v with
      | none =>
          rw [hl] at h
          simp at h
          exact h.symm
      | some en =>
          rw [hl] at h
          simp only at h
          by_cases he : en.rcons = [] ∧ en.rsos = [] ∧ en.robj = none
          · rw [if_pos he] at h; exact ih _ s e h
          · rw [if_neg he] at h; exact ih _ s e h

/-- Every variable queued by `checkToRemoveLoop` was either already queued
or had, at the (unchanged) inspection state, an all-empty reference entry;
the queue stays duplicate-free. -/
theorem ctr_out (l : List Nat) : ∀ (acc out : List Nat) (s : SState),
    runRes (checkToRemoveLoop l acc) s = .ok out →
    (acc.Nodup → out.Nodup) ∧
    (∀ v ∈ out, v ∈ acc ∨ ∃ e, lookupA s.referenced_variables v = some e ∧
      e.rcons = [] ∧ e.rsos = [] ∧ e.robj = none) := by
  induction l with
  | nil =>
      intro acc out s h
      obtain rfl : acc = out := Except.ok.inj h
      exact ⟨fun h => h, fun v hv => Or.inl hv⟩
  | cons v rest ih =>
      intro acc out s h
      rw [checkToRemoveLoop] at h
      rw [runRes_bind] at h
      simp only [runRes_getS, runSt_getS] at h
      cases hl : lookupA s.referenced_variables v with
      | none => rw [hl] at h; simp at h
      | some en =>
          rw [hl] at h
          simp only at h
          by_cases he : en.rcons = [] ∧ en.rsos = [] ∧ en.robj = none
          · rw [if_pos he] at h
            obtain ⟨o₁, o₂⟩ := ih (addKey acc v) out s h
            refine ⟨fun hnd => o₁ (nodup_addKey acc v hnd), ?_⟩
            intro w hw
            rcases o₂ w hw with hw₀ | hw₀
            · rcases (mem_addKey acc v w).mp hw₀ with hw₁ | rfl
              · exact Or.inl hw₁
              · exact Or.inr ⟨en, hl, he⟩
            · exact Or.inr hw₀
          · rw [if_neg he] at h
            exact ih acc out s h

/-- The `remove_variables` loop leaves every registry except the variable
tables untouched. -/
theorem rvl_tables (l : List Nat) : ∀ s : SState,
    (runSt (removeVariablesLoop l) s).named_expressions = s.named_expressions ∧
    (runSt (removeVariablesLoop l) s).vars_referenced_by_con = s.vars_referenced_by_con ∧
    (runSt (removeVariablesLoop l) s).active_constraints = s.active_constraints := by
  induction l with
  | nil => intro s; exact ⟨rfl, rfl, rfl⟩
  | cons v rest ih =>
      intro s
      rw [removeVariablesLoop]
      rw [runSt_bind]
      simp only [runRes_getS, runSt_getS]
      cases hl : lookupA s.referenced_variables v with
      | none => simp [hl]
      | some e =>
          simp only [hl]
          by_cases he : e.rcons ≠ [] ∨ e.rsos ≠ [] ∨ e.robj ≠ none
          · rw [if_pos he]
            exact ⟨rfl, rfl, rfl⟩
          · rw [if_neg he]
            by_cases hv : containsA s.vars v = true
            · simp only [hv, if_true, runRes_bind, runSt_bind, runRes_setS, runSt_setS]
              exact ih _
            · simp only [hv]
              rw [if_neg (by simpa using hv)]
              simp [runSt_bind]

/-- The `remove_variables` loop only erases entries from the two variable
tables: absent keys stay absent and keys stay duplicate-free. -/
theorem rvl_mono (l : List Nat) : ∀ (s : SState) (w : Nat),
    (containsA s.referenced_variables w = false →
      containsA (runSt (removeVariablesLoop l) s).referenced_variables w = false) ∧
    (containsA s.vars w = false →
      containsA (runSt (removeVariablesLoop l) s).vars w = false) := by
  induction l with
  | nil => intro s w; exact ⟨fun h => h, fun h => h⟩
  | cons v rest ih =>
      intro s w
      rw [removeVariablesLoop]
      rw [runSt_bind]
      simp only [runRes_getS, runSt_getS]
      cases hl : lookupA s.referenced_variables v with
      | none => simp [hl]
      | some e =>
          simp only [hl]
          by_cases he : e.rcons ≠ [] ∨ e.rsos ≠ [] ∨ e.robj ≠ none
          · rw [if_pos he]
            exact ⟨fun h => h, fun h => h⟩
          · rw [if_neg he]
            by_cases hv : containsA s.vars v = true
            · simp only [hv, if_true, runRes_bind, runSt_bind, runRes_setS, runSt_setS]
              refine ⟨fun h => ?_, fun h => ?_⟩
              · exact ((ih _ w).1 (containsA_eraseA_false _ v w h))
              · exact ((ih _ w).2 (containsA_eraseA_false _ v w h))
            · simp only [hv]
              rw [if_neg (by simpa using hv)]
              simp only [runRes_bind, runSt_bind, runRes_setS, runSt_setS, runSt_throwE]
              exact ⟨fun h => containsA_eraseA_false _ v w h, fun h => h⟩

/-- Key-sets of the two variable tables stay duplicate-free through the
`remove_variables` loop. -/
theorem rvl_nodup (l : List Nat) : ∀ s : SState,
    ((keysA s.referenced_variables).Nodup →
      (keysA (runSt (removeVariablesLoop l) s).referenced_variables).Nodup) ∧
    ((keysA s.vars).Nodup → (keysA (runSt (removeVariablesLoop l) s).vars).Nodup) := by
  induction l with
  | nil => intro s; exact ⟨fun h => h, fun h => h⟩
  | cons v rest ih =>
      intro s
      rw [removeVariablesLoop]
      rw [runSt_bind]
      simp only [runRes_getS, runSt_getS]
      cases hl : lookupA s.referenced_variables v with
      | none => simp [hl]
      | some e =>
          simp only [hl]
          by_cases he : e.rcons ≠ [] ∨ e.rsos ≠ [] ∨ e.robj ≠ none
          · rw [if_pos he]
            exact ⟨fun h => h, fun h => h⟩
          · rw [if_neg he]
            by_cases hv : containsA s.vars v = true
            · simp only [hv, if_true, runRes_bind, runSt_bind, runRes_setS, runSt_setS]
              refine ⟨fun h => ?_, fun h => ?_⟩
              · exact (ih _).1 (nodup_keysA_eraseA _ v h)
              · exact (ih _).2 (nodup_keysA_eraseA _ v h)
            · simp only [hv]
              rw [if_neg (by simpa using hv)]
              simp only [runRes_bind, runSt_bind, runRes_setS, runSt_setS, runSt_throwE]
              exact ⟨fun h => nodup_keysA_eraseA _ v h, fun h => h⟩

/-- Failure analysis of the `remove_variables` loop: a not-added or
still-referenced error at position `k` leaves the backend request already
made, the registry entries of all earlier listed variables already
deleted, and the failing check visible in the final state. -/
theorem removeVarsLoop_err (l : List Nat) : ∀ (s : SState) (e : Err),
    runRes (removeVariablesLoop l) s = .error e →
    (e = .notAdded ∨ e = .stillReferenced) →
    (keysA s.referenced_variables).Nodup →
    (keysA s.vars).Nodup →
    ∃ (k : Nat) (hk : k < l.length),
      (∀ v ∈ l.take k,
        containsA (runSt (removeVariablesLoop l) s).referenced_variables v = false ∧
        containsA (runSt (removeVariablesLoop l) s).vars v = false) ∧
      ((e = .notAdded ∧
          lookupA (runSt (removeVariablesLoop l) s).referenced_variables
            (l.get ⟨k, hk⟩) = none) ∨
       (e = .stillReferenced ∧
          ∃ en, lookupA (runSt (removeVariablesLoop l) s).referenced_variables
              (l.get ⟨k, hk⟩) = some en ∧
            (en.rcons ≠ [] ∨ en.rsos ≠ [] ∨ en.robj ≠ none))) := by
  induction l with
  | nil =>
      intro s e h he _ _
      rw [removeVariablesLoop] at h
      simp at h
  | cons v rest ih =>
      intro s e h he hnr hnv
      rw [removeVariablesLoop] at h ⊢
      rw [runRes_bind] at h
      rw [runSt_bind]
      simp only [runRes_getS, runSt_getS] at h ⊢
      cases hl : lookupA s.referenced_variables v with
      | none =>
          simp only [hl] at h
          simp only [hl]
          simp only [runRes_throwE, runSt_throwE] at h ⊢
          obtain rfl : Err.notAdded = e := Except.error.inj h
          exact ⟨0, by simp, by simp, Or.inl ⟨rfl, hl⟩⟩
      | some en =>
          simp only [hl] at h
          simp only [hl]
          by_cases hee : en.rcons ≠ [] ∨ en.rsos ≠ [] ∨ en.robj ≠ none
          · rw [if_pos hee] at h ⊢
            simp only [runRes_throwE, runSt_throwE] at h ⊢
            obtain rfl : Err.stillReferenced = e := Except.error.inj h
            exact ⟨0, by simp, by simp, Or.inr ⟨rfl, en, hl, hee⟩⟩
          · rw [if_neg hee] at h ⊢
            by_cases hv : containsA s.vars v = true
            · simp only [hv, if_true, runRes_bind, runSt_bind, runRes_setS,
                runSt_setS] at h ⊢
              obtain ⟨k, hk, hpre, hdisj⟩ :=
                ih _ e h he (nodup_keysA_eraseA _ v hnr) (nodup_keysA_eraseA _ v hnv)
              refine ⟨k + 1, by simpa using hk, ?_, ?_⟩
              · intro w hw
                rcases List.mem_cons.mp (by simpa using hw) with rfl | hw₀
                · constructor
                  · exact (rvl_mono rest _ w).1
                      (containsA_eraseA_self s.referenced_variables w hnr)
                  · exact (rvl_mono rest _ w).2 (containsA_eraseA_self s.vars w hnv)
                · exact hpre w hw₀
              · simpa using hdisj
            · simp only [hv] at h ⊢
              rw [if_neg (by simpa using hv)] at h ⊢
              simp only [runRes_bind, runSt_bind, runRes_setS, runSt_setS,
                runRes_throwE] at h
              obtain rfl : Err.keyError = e := Except.error.inj h
              rcases he with he | he <;> simp at he

/-- On the happy inputs produced by `checkToRemoveLoop` (duplicate-free,
every variable present with an all-empty entry), the `remove_variables`
loop can fail only with `KeyError`. -/
theorem rvl_good (l : List Nat) : ∀ s : SState,
    l.Nodup →
    (∀ v ∈ l, ∃ e, lookupA s.referenced_variables v = some e ∧
      e.rcons = [] ∧ e.rsos = [] ∧ e.robj = none) →
    ∀ er, runRes (removeVariablesLoop l) s = .error er → er = .keyError := by
  induction l with
  | nil =>
      intro s _ _ er h
      rw [removeVariablesLoop] at h
      simp at h
  | cons v rest ih =>
      intro s hnd hgood er h
      rw [removeVariablesLoop] at h
      rw [runRes_bind] at h
      simp only [runRes_getS, runSt_getS] at h
      obtain ⟨e, hl, he₁, he₂, he₃⟩ := hgood v (List.mem_cons_self v rest)
      simp only [hl] at h
      rw [if_neg (by simp [he₁, he₂, he₃])] at h
      by_cases hv : containsA s.vars v = true
      · simp only [hv, if_true, runRes_bind, runSt_bind, runRes_setS, runSt_setS] at h
        refine ih _ (List.Nodup.of_cons hnd) ?_ er h
        intro w hw
        obtain ⟨ew, hlw, hw₁, hw₂, hw₃⟩ := hgood w (List.mem_cons_of_mem v hw)
        have hne : v ≠ w := by
          rintro rfl
          exact (List.nodup_cons.mp hnd).1 hw
        refine ⟨ew, ?_, hw₁, hw₂, hw₃⟩
        show lookupA (eraseA s.referenced_variables v) w = some ew
        rw [lookupA_eraseA_ne _ v w hne]
        exact hlw
      · simp only [hv] at h
        rw [if_neg (by simpa using hv)] at h
        simp only [runRes_bind, runRes_setS, runSt_setS, runRes_throwE] at h
        exact (Except.error.inj h).symm

/-- `_check_to_remove_vars` can fail only with `KeyError` or a backend
failure: in particular it never raises not-added or still-referenced. -/
theorem ctrv_err (vids : List Nat) (s : SState) (e : Err)
    (h : runRes (check_to_remove_vars vids) s = .error e) :
    e = .keyError ∨ e = .backendError := by
  rw [check_to_remove_vars] at h
  cases hr : runRes (checkToRemoveLoop vids []) s with
  | error e₀ =>
      obtain ⟨he, -, -⟩ := run_bind_error hr
      rw [he] at h
      exact Or.inl ((Except.error.inj h) ▸ ctr_err vids [] s e₀ hr)
  | ok out =>
      obtain ⟨he, -, -⟩ := run_bind_ok hr
      rw [he] at h
      rw [ctr_state] at h
      rw [remove_variables] at h
      cases hb : runRes (backendCall (.removeVariables out)
          (fun s => s.fails.fRemoveVariables)) s with
      | error e₁ =>
          obtain ⟨hbe, -, -⟩ := run_bind_error hb
          rw [hbe] at h
          rw [runRes_backendCall] at hb
          by_cases hf : s.fails.fRemoveVariables = true
          · rw [if_pos hf] at hb
            obtain rfl : Err.backendError = e₁ := Except.error.inj hb
            exact Or.inr (Except.error.inj h).symm
          · rw [if_neg hf] at hb
            simp at hb
      | ok u =>
          obtain ⟨hbo, hbs, -⟩ := run_bind_ok hb
          rw [hbo, runSt_backendCall] at h
          obtain ⟨-, hout⟩ := ctr_out vids [] out s hr
          exact Or.inl (rvl_good out s
            ((ctr_out vids [] out s hr).1 List.nodup_nil)
            (fun v hv => by
              rcases hout v hv with hv₀ | hv₀
              · simp at hv₀
              · exact hv₀) e h)

/-- `_check_to_remove_vars` never touches the constraint registries. -/
theorem ctrv_tables (vids : List Nat) (s : SState) :
    (runSt (check_to_remove_vars vids) s).named_expressions = s.named_expressions ∧
    (runSt (check_to_remove_vars vids) s).vars_referenced_by_con
      = s.vars_referenced_by_con ∧
    (runSt (check_to_remove_vars vids) s).active_constraints = s.active_constraints := by
  rw [check_to_remove_vars]
  rw [runSt_bind]
  cases hr : runRes (checkToRemoveLoop vids []) s with
  | error e₀ =>
      simp only
      rw [ctr_state]
      exact ⟨rfl, rfl, rfl⟩
  | ok out =>
      simp only
      rw [ctr_state]
      rw [remove_variables]
      rw [runSt_bind]
      cases hb : runRes (backendCall (.removeVariables out)
          (fun s => s.fails.fRemoveVariables)) s with
      | error e₁ =>
          simp only
          rw [runSt_backendCall]
          exact ⟨rfl, rfl, rfl⟩
      | ok u =>
          simp only
          rw [runSt_backendCall]
          exact rvl_tables out s

/-- `NVmono x`: `x` never adds a key to the two constraint registries and
keeps their key sets duplicate-free. -/
def NVmono {α : Type} (x : M α) : Prop := ∀ (s : SState) (key : ConKey),
  (containsA s.named_expressions key = false →
    containsA (runSt x s).named_expressions key = false) ∧
  (containsA s.vars_referenced_by_con key = false →
    containsA (runSt x s).vars_referenced_by_con key = false) ∧
  ((keysA s.named_expressions).Nodup →
    (keysA (runSt x s).named_expressions).Nodup) ∧
  ((keysA s.vars_referenced_by_con).Nodup →
    (keysA (runSt x s).vars_referenced_by_con).Nodup)

theorem NVmono_bind {α β : Type} {x : M α} {f : α → M β}
    (hx : NVmono x) (hf : ∀ a, NVmono (f a)) : NVmono (x >>= f) := by
  intro s key
  rw [runSt_bind]
  cases hr : runRes x s with
  | ok a =>
      obtain ⟨x₁, x₂, x₃, x₄⟩ := hx s key
      obtain ⟨f₁, f₂, f₃, f₄⟩ := hf a (runSt x s) key
      exact ⟨fun h => f₁ (x₁ h), fun h => f₂ (x₂ h), fun h => f₃ (x₃ h),
        fun h => f₄ (x₄ h)⟩
  | error e => exact hx s key

theorem NVmono_of_tables {α : Type} {x : M α}
    (h : ∀ s, (runSt x s).named_expressions = s.named_expressions ∧
      (runSt x s).vars_referenced_by_con = s.vars_referenced_by_con) : NVmono x := by
  intro s key
  obtain ⟨h₁, h₂⟩ := h s
  rw [h₁, h₂]
  exact ⟨fun h => h, fun h => h, fun h => h, fun h => h⟩

theorem NVmono_pure {α : Type} (a : α) : NVmono (Pure.pure a : M α) :=
  NVmono_of_tables fun _ => ⟨rfl, rfl⟩

theorem NVmono_throwE {α : Type} (e : Err) : NVmono (throwE e : M α) :=
  NVmono_of_tables fun _ => ⟨rfl, rfl⟩

theorem NVmono_ite {α : Type} (c : Prop) [Decidable c] {x y : M α}
    (hx : NVmono x) (hy : NVmono y) : NVmono (if c then x else y) := by
  by_cases h : c
  · rw [if_pos h]; exact hx
  · rw [if_neg h]; exact hy

theorem refUnlinkCon_tables (key : ConKey) (v : Nat) : ∀ s : SState,
    (runSt (refUnlinkCon key v) s).named_expressions = s.named_expressions ∧
    (runSt (refUnlinkCon key v) s).vars_referenced_by_con = s.vars_referenced_by_con := by
  intro s
  rw [refUnlinkCon]
  rw [runSt_bind]
  simp only [runRes_getS, runSt_getS]
  cases hl : lookupA s.referenced_variables v with
  | none => simp [hl]
  | some e =>
      simp only [hl]
      by_cases hk : key ∈ e.rcons
      · rw [if_pos hk]
        exact ⟨rfl, rfl⟩
      · rw [if_neg hk]
        exact ⟨rfl, rfl⟩

theorem unlinkConVars_tables (key : ConKey) (l : List Nat) : ∀ s : SState,
    (runSt (unlinkConVars key l) s).named_expressions = s.named_expressions ∧
    (runSt (unlinkConVars key l) s).vars_referenced_by_con
      = s.vars_referenced_by_con := by
  induction l with
  | nil => intro s; exact ⟨rfl, rfl⟩
  | cons v rest ih =>
      intro s
      rw [unlinkConVars]
      rw [runSt_bind]
      cases hr : runRes (refUnlinkCon key v) s with
      | ok a =>
          simp only
          obtain ⟨i₁, i₂⟩ := ih (runSt (refUnlinkCon key v) s)
          obtain ⟨t₁, t₂⟩ := refUnlinkCon_tables key v s
          rw [i₁, i₂, t₁, t₂]
          exact ⟨rfl, rfl⟩
      | error e =>
          simp only
          exact refUnlinkCon_tables key v s

theorem refUnlinkSos_tables (key : ConKey) (v : Nat) : ∀ s : SState,
    (runSt (refUnlinkSos key v) s).named_expressions = s.named_expressions ∧
    (runSt (refUnlinkSos key v) s).vars_referenced_by_con = s.vars_referenced_by_con := by
  intro s
  rw [refUnlinkSos]
  rw [runSt_bind]
  simp only [runRes_getS, runSt_getS]
  cases hl : lookupA s.referenced_variables v with
  | none => simp [hl]
  | some e =>
      simp only [hl]
      by_cases hk : key ∈ e.rsos
      · rw [if_pos hk]
        exact ⟨rfl, rfl⟩
      · rw [if_neg hk]
        exact ⟨rfl, rfl⟩

theorem unlinkSosVars_tables (key : ConKey) (l : List Nat) : ∀ s : SState,
    (runSt (unlinkSosVars key l) s).named_expressions = s.named_expressions ∧
    (runSt (unlinkSosVars key l) s).vars_referenced_by_con
      = s.vars_referenced_by_con := by
  induction l with
  | nil => intro s; exact ⟨rfl, rfl⟩
  | cons v rest ih =>
      intro s
      rw [unlinkSosVars]
      rw [runSt_bind]
      cases hr : runRes (refUnlinkSos key v) s with
      | ok a =>
          simp only
          obtain ⟨i₁, i₂⟩ := ih (runSt (refUnlinkSos key v) s)
          obtain ⟨t₁, t₂⟩ := refUnlinkSos_tables key v s
          rw [i₁, i₂, t₁, t₂]
          exact ⟨rfl, rfl⟩
      | error e =>
          simp only
          exact refUnlinkSos_tables key v s

theorem delActiveCon_tables (key : ConKey) : ∀ s : SState,
    (runSt (delActiveCon key) s).named_expressions = s.named_expressions ∧
    (runSt (delActiveCon key) s).vars_referenced_by_con = s.vars_referenced_by_con := by
  intro s
  rw [delActiveCon]
  rw [runSt_bind]
  simp only [runRes_getS, runSt_getS]
  by_cases hc : containsA s.active_constraints key = true
  · simp only [hc, if_true]
    exact ⟨rfl, rfl⟩
  · simp only [hc]
    rw [if_neg (by simpa using hc)]
    exact ⟨rfl, rfl⟩

theorem popExternal_tables (k : EFKey) : ∀ s : SState,
    (runSt (popExternal k) s).named_expressions = s.named_expressions ∧
    (runSt (popExternal k) s).vars_referenced_by_con = s.vars_referenced_by_con :=
  fun _ => ⟨rfl, rfl⟩

theorem NVmono_delNamedExpr (key : ConKey) : NVmono (delNamedExpr key) := by
  intro s k₀
  rw [delNamedExpr]
  rw [runSt_bind]
  simp only [runRes_getS, runSt_getS]
  by_cases hc : containsA s.named_expressions key = true
  · simp only [hc, if_true, runSt_setS]
    exact ⟨fun h => containsA_eraseA_false _ key k₀ h, fun h => h,
      fun h => nodup_keysA_eraseA _ key h, fun h => h⟩
  · simp only [hc]
    rw [if_neg (by simpa using hc)]
    exact ⟨fun h => h, fun h => h, fun h => h, fun h => h⟩

theorem NVmono_delVarsByCon (key : ConKey) : NVmono (delVarsByCon key) := by
  intro s k₀
  rw [delVarsByCon]
  rw [runSt_bind]
  simp only [runRes_getS, runSt_getS]
  by_cases hc : containsA s.vars_referenced_by_con key = true
  · simp only [hc, if_true, runSt_setS]
    exact ⟨fun h => h, fun h => containsA_eraseA_false _ key k₀ h,
      fun h => h, fun h => nodup_keysA_eraseA _ key h⟩
  · simp only [hc]
    rw [if_neg (by simpa using hc)]
    exact ⟨fun h => h, fun h => h, fun h => h, fun h => h⟩

theorem NVmono_check_to_remove (vids : List Nat) : NVmono (check_to_remove_vars vids) :=
  NVmono_of_tables fun s =>
    ⟨(ctrv_tables vids s).1, (ctrv_tables vids s).2.1⟩

theorem NVmono_delActiveCon (key : ConKey) : NVmono (delActiveCon key) :=
  NVmono_of_tables (delActiveCon_tables key)

theorem NVmono_unlinkConVars (key : ConKey) (l : List Nat) :
    NVmono (unlinkConVars key l) :=
  NVmono_of_tables (unlinkConVars_tables key l)

theorem NVmono_unlinkSosVars (key : ConKey) (l : List Nat) :
    NVmono (unlinkSosVars key l) :=
  NVmono_of_tables (unlinkSosVars_tables key l)

theorem NVmono_popExternal (k : EFKey) : NVmono (popExternal k) :=
  NVmono_of_tables (popExternal_tables k)

/-- The `remove_constraints` loop never re-adds a constraint-registry key. -/
theorem NVmono_removeConsLoop (l : List Nat) : NVmono (removeConstraintsLoop l) := by
  induction l with
  | nil => exact NVmono_pure ()
  | cons cid rest ih =>
      rw [removeConstraintsLoop]
      refine NVmono_bind (NVmono_of_tables fun _ => ⟨rfl, rfl⟩) ?_
      intro a
      refine NVmono_ite _ (NVmono_throwE _) ?_
      cases lookupA a.vars_referenced_by_con (ConKey.reg cid) with
      | none => exact NVmono_throwE _
      | some vs =>
          refine NVmono_bind (NVmono_unlinkConVars _ vs) fun _ => ?_
          refine NVmono_bind (NVmono_of_tables fun _ => ⟨rfl, rfl⟩) ?_
          intro s₁
          have hrest : NVmono (do
              delActiveCon (ConKey.reg cid)
              delNamedExpr (ConKey.reg cid)
              popExternal (EFKey.conK (ConKey.reg cid))
              delVarsByCon (ConKey.reg cid)
              removeConstraintsLoop rest) := by
            refine NVmono_bind (NVmono_delActiveCon _) fun _ => ?_
            refine NVmono_bind (NVmono_delNamedExpr _) fun _ => ?_
            refine NVmono_bind (NVmono_popExternal _) fun _ => ?_
            exact NVmono_bind (NVmono_delVarsByCon _) fun _ => ih
          refine NVmono_ite _ ?_ ?_
          · exact NVmono_bind (NVmono_check_to_remove vs) fun _ => hrest
          · exact NVmono_bind (NVmono_pure ()) fun _ => hrest

/-- The `remove_sos_constraints` loop never re-adds a constraint-registry
key. -/
theorem NVmono_removeSosLoop (l : List Nat) : NVmono (removeSosLoop l) := by
  induction l with
  | nil => exact NVmono_pure ()
  | cons sid rest ih =>
      rw [removeSosLoop]
      refine NVmono_bind (NVmono_of_tables fun _ => ⟨rfl, rfl⟩) ?_
      intro a
      refine NVmono_ite _ (NVmono_throwE _) ?_
      cases lookupA a.vars_referenced_by_con (ConKey.sos sid) with
      | none => exact NVmono_throwE _
      | some vs =>
          refine NVmono_bind (NVmono_unlinkSosVars _ vs) fun _ => ?_
          refine NVmono_bind (NVmono_check_to_remove vs) fun _ => ?_
          refine NVmono_bind (NVmono_delActiveCon _) fun _ => ?_
          refine NVmono_bind (NVmono_delNamedExpr _) fun _ => ?_
          exact NVmono_bind (NVmono_delVarsByCon _) fun _ => ih

theorem refUnlinkCon_err (key : ConKey) (v : Nat) (s : SState) (e : Err)
    (h : runRes (refUnlinkCon key v) s = .error e) : e = .keyError := by
  rw [refUnlinkCon] at h
  rw [runRes_bind] at h
  simp only [runRes_getS, runSt_getS] at h
  cases hl : lookupA s.referenced_variables v with
  | none =>
      simp only [hl, runRes_throwE] at h
      exact (Except.error.inj h).symm
  | some en =>
      simp only [hl] at h
      by_cases hk : key ∈ en.rcons
      · rw [if_pos hk] at h
        simp at h
      · rw [if_neg hk] at h
        simp only [runRes_throwE] at h
        exact (Except.error.inj h).symm

theorem unlinkConVars_err (key : ConKey) (l : List Nat) : ∀ (s : SState) (e : Err),
    runRes (unlinkConVars key l) s = .error e → e = .keyError := by
  induction l with
  | nil =>
      intro s e h
      rw [unlinkConVars] at h
      simp at h
  | cons v rest ih =>
      intro s e h
      rw [unlinkConVars] at h
      rw [runRes_bind] at h
      cases hr : runRes (refUnlinkCon key v) s with
      | ok a =>
          rw [hr] at h
          exact ih _ e h
      | error e₀ =>
          rw [hr] at h
          obtain rfl : e₀ = e := Except.error.inj h
          exact refUnlinkCon_err key v s _ hr

theorem refUnlinkSos_err (key : ConKey) (v : Nat) (s : SState) (e : Err)
    (h : runRes (refUnlinkSos key v) s = .error e) : e = .keyError := by
  rw [refUnlinkSos] at h
  rw [runRes_bind] at h
  simp only [runRes_getS, runSt_getS] at h
  cases hl : lookupA s.referenced_variables v with
  | none =>
      simp only [hl, runRes_throwE] at h
      exact (Except.error.inj h).symm
  | some en =>
      simp only [hl] at h
      by_cases hk : key ∈ en.rsos
      · rw [if_pos hk] at h
        simp at h
      · rw [if_neg hk] at h
        simp only [runRes_throwE] at h
        exact (Except.error.inj h).symm

theorem unlinkSosVars_err (key : ConKey) (l : List Nat) : ∀ (s : SState) (e : Err),
    runRes (unlinkSosVars key l) s = .error e → e = .keyError := by
  induction l with
  | nil =>
      intro s e h
      rw [unlinkSosVars] at h
      simp at h
  | cons v rest ih =>
      intro s e h
      rw [unlinkSosVars] at h
      rw [runRes_bind] at h
      cases hr : runRes (refUnlinkSos key v) s with
      | ok a =>
          rw [hr] at h
          exact ih _ e h
      | error e₀ =>
          rw [hr] at h
          obtain rfl : e₀ = e := Except.error.inj h
          exact refUnlinkSos_err key v s _ hr

theorem delActiveCon_err (key : ConKey) (s : SState) (e : Err)
    (h : runRes (delActiveCon key) s = .error e) : e = .keyError := by
  rw [delActiveCon] at h
  rw [runRes_bind] at h
  simp only [runRes_getS, runSt_getS] at h
  by_cases hc : containsA s.active_constraints key = true
  · simp only [hc, if_true] at h
    simp at h
  · simp only [hc] at h
    rw [if_neg (by simpa using hc)] at h
    simp only [runRes_throwE] at h
    exact (Except.error.inj h).symm

theorem delNamedExpr_run (key : ConKey) (s : SState) :
    (containsA s.named_expressions key = true →
      runRes (delNamedExpr key) s = .ok () ∧
      runSt (delNamedExpr key) s
        = { s with named_expressions := eraseA s.named_expressions key }) ∧
    (∀ e, runRes (delNamedExpr key) s = .error e → e = .keyError) := by
  constructor
  · intro hc
    rw [delNamedExpr]
    rw [runRes_bind, runSt_bind]
    simp only [runRes_getS, runSt_getS, hc, if_true]
    exact ⟨rfl, rfl⟩
  · intro e h
    rw [delNamedExpr] at h
    rw [runRes_bind] at h
    simp only [runRes_getS, runSt_getS] at h
    by_cases hc : containsA s.named_expressions key = true
    · simp only [hc, if_true] at h
      simp at h
    · simp only [hc] at h
      rw [if_neg (by simpa using hc)] at h
      simp only [runRes_throwE] at h
      exact (Except.error.inj h).symm

theorem delVarsByCon_run (key : ConKey) (s : SState) :
    (containsA s.vars_referenced_by_con key = true →
      runRes (delVarsByCon key) s = .ok () ∧
      runSt (delVarsByCon key) s
        = { s with vars_referenced_by_con := eraseA s.vars_referenced_by_con key }) ∧
    (∀ e, runRes (delVarsByCon key) s = .error e → e = .keyError) := by
  constructor
  · intro hc
    rw [delVarsByCon]
    rw [runRes_bind, runSt_bind]
    simp only [runRes_getS, runSt_getS, hc, if_true]
    exact ⟨rfl, rfl⟩
  · intro e h
    rw [delVarsByCon] at h
    rw [runRes_bind] at h
    simp only [runRes_getS, runSt_getS] at h
    by_cases hc : containsA s.vars_referenced_by_con key = true
    · simp only [hc, if_true] at h
      simp at h
    · simp only [hc] at h
      rw [if_neg (by simpa using hc)] at h
      simp only [runRes_throwE] at h
      exact (Except.error.inj h).symm

theorem popExternal_ok (k : EFKey) (s : SState) :
    runRes (popExternal k) s = .ok () := rfl

theorem ite_check_err (c : Prop) [Decidable c] (vs : List Nat) (st : SState) (e : Err)
    (h : runRes (if c then check_to_remove_vars vs else pure ()) st = .error e) :
    e = .keyError ∨ e = .backendError := by
  by_cases hc : c
  · rw [if_pos hc] at h
    exact ctrv_err vs st e h
  · rw [if_neg hc] at h
    simp at h

theorem ite_check_tables (c : Prop) [Decidable c] (vs : List Nat) (st : SState) :
    (runSt (if c then check_to_remove_vars vs else pure ()) st).named_expressions
      = st.named_expressions ∧
    (runSt (if c then check_to_remove_vars vs else pure ()) st).vars_referenced_by_con
      = st.vars_referenced_by_con := by
  by_cases hc : c
  · rw [if_pos hc]
    exact ⟨(ctrv_tables vs st).1, (ctrv_tables vs st).2.1⟩
  · rw [if_neg hc]
    exact ⟨rfl, rfl⟩

theorem delNamedExpr_ok_contains (key : ConKey) (s : SState) (u : Unit)
    (h : runRes (delNamedExpr key) s = .ok u) :
    containsA s.named_expressions key = true := by
  by_cases hc : containsA s.named_expressions key = true
  · exact hc
  · exfalso
    rw [delNamedExpr] at h
    rw [runRes_bind] at h
    simp only [runRes_getS, runSt_getS] at h
    rw [if_neg (by simpa using hc)] at h
    simp at h

/-- Failure analysis of the `remove_constraints` loop: a not-added error
at position `k` leaves the registry entries of all earlier listed
constraints already deleted, and the failing was-added check visible in
the final state. -/
theorem removeConsLoop_err (l : List Nat) : ∀ (s : SState),
    runRes (removeConstraintsLoop l) s = .error .notAdded →
    (keysA s.named_expressions).Nodup →
    (keysA s.vars_referenced_by_con).Nodup →
    ∃ (k : Nat) (hk : k < l.length),
      (∀ c ∈ l.take k,
        containsA (runSt (removeConstraintsLoop l) s).named_expressions
          (ConKey.reg c) = false ∧
        containsA (runSt (removeConstraintsLoop l) s).vars_referenced_by_con
          (ConKey.reg c) = false) ∧
      containsA (runSt (removeConstraintsLoop l) s).named_expressions
        (ConKey.reg (l.get ⟨k, hk⟩)) = false := by
  induction l with
  | nil =>
      intro s h _ _
      rw [removeConstraintsLoop] at h
      simp at h
  | cons cid rest ih =>
      intro s h hn₁ hn₂
      rw [removeConstraintsLoop] at h ⊢
      rw [runRes_bind] at h
      rw [runSt_bind]
      simp only [runRes_getS, runSt_getS] at h ⊢
      by_cases hc : containsA s.named_expressions (ConKey.reg cid) = true
      · rw [if_neg (by simpa using hc)] at h ⊢
        cases hv : lookupA s.vars_referenced_by_con (ConKey.reg cid) with
        | none =>
            simp only [hv, runRes_throwE] at h
            simp at h
        | some vs =>
            simp only [hv] at h ⊢
            have hjp : ∀ st : SState,
                st.named_expressions = s.named_expressions →
                st.vars_referenced_by_con = s.vars_referenced_by_con →
                runRes (do
                  delActiveCon (ConKey.reg cid)
                  delNamedExpr (ConKey.reg cid)
                  popExternal (EFKey.conK (ConKey.reg cid))
                  delVarsByCon (ConKey.reg cid)
                  removeConstraintsLoop rest) st = .error .notAdded →
                ∃ (k : Nat) (hk : k < (cid :: rest).length),
                  (∀ c ∈ (cid :: rest).take k,
                    containsA (runSt (do
                      delActiveCon (ConKey.reg cid)
                      delNamedExpr (ConKey.reg cid)
                      popExternal (EFKey.conK (ConKey.reg cid))
                      delVarsByCon (ConKey.reg cid)
                      removeConstraintsLoop rest) st).named_expressions
                        (ConKey.reg c) = false ∧
                    containsA (runSt (do
                      delActiveCon (ConKey.reg cid)
                      delNamedExpr (ConKey.reg cid)
                      popExternal (EFKey.conK (ConKey.reg cid))
                      delVarsByCon (ConKey.reg cid)
                      removeConstraintsLoop rest) st).vars_referenced_by_con
                        (ConKey.reg c) = false) ∧
                  containsA (runSt (do
                    delActiveCon (ConKey.reg cid)
                    delNamedExpr (ConKey.reg cid)
                    popExternal (EFKey.conK (ConKey.reg cid))
                    delVarsByCon (ConKey.reg cid)
                    removeConstraintsLoop rest) st).named_expressions
                      (ConKey.reg ((cid :: rest).get ⟨k, hk⟩)) = false := by
              intro st hst₁ hst₂ hh
              cases ha : runRes (delActiveCon (ConKey.reg cid)) st with
              | error e₀ =>
                  obtain ⟨hr, -, -⟩ := run_bind_error ha
                  rw [hr] at hh
                  have h₁ : e₀ = Err.notAdded := Except.error.inj hh
                  have h₂ : e₀ = Err.keyError := delActiveCon_err _ st e₀ ha
                  rw [h₁] at h₂
                  simp at h₂
              | ok u₀ =>
                  obtain ⟨hr, hstq, -⟩ := run_bind_ok ha
                  rw [hr] at hh
                  rw [hstq]
                  obtain ⟨ha₁, ha₂⟩ := delActiveCon_tables (ConKey.reg cid) st
                  cases hd : runRes (delNamedExpr (ConKey.reg cid))
                      (runSt (delActiveCon (ConKey.reg cid)) st) with
                  | error e₀ =>
                      obtain ⟨hr₂, -, -⟩ := run_bind_error hd
                      rw [hr₂] at hh
                      have h₁ : e₀ = Err.notAdded := Except.error.inj hh
                      have h₂ : e₀ = Err.keyError := (delNamedExpr_run _ _).2 e₀ hd
                      rw [h₁] at h₂
                      simp at h₂
                  | ok u₁ =>
                      obtain ⟨hr₂, hstq₂, -⟩ := run_bind_ok hd
                      rw [hr₂] at hh
                      rw [hstq₂]
                      have hcon : containsA (runSt (delActiveCon (ConKey.reg cid))
                          st).named_expressions (ConKey.reg cid) = true := by
                        rw [ha₁, hst₁]
                        exact hc
                      obtain ⟨-, hererase⟩ := (delNamedExpr_run (ConKey.reg cid) _).1 hcon
                      have hp₁ : (runSt (popExternal (EFKey.conK (ConKey.reg cid)))
                          (runSt (delNamedExpr (ConKey.reg cid))
                            (runSt (delActiveCon (ConKey.reg cid))
                              st))).named_expressions
                          = eraseA st.named_expressions (ConKey.reg cid) := by
                        rw [(popExternal_tables (EFKey.conK (ConKey.reg cid)) _).1,
                          hererase]
                        show eraseA (runSt (delActiveCon (ConKey.reg cid))
                          st).named_expressions (ConKey.reg cid)
                          = eraseA st.named_expressions (ConKey.reg cid)
                        rw [ha₁]
                      have hp₂ : (runSt (popExternal (EFKey.conK (ConKey.reg cid)))
                          (runSt (delNamedExpr (ConKey.reg cid))
                            (runSt (delActiveCon (ConKey.reg cid))
                              st))).vars_referenced_by_con
                          = st.vars_referenced_by_con := by
                        rw [(popExternal_tables (EFKey.conK (ConKey.reg cid)) _).2,
                          hererase]
                        show (runSt (delActiveCon (ConKey.reg cid))
                          st).vars_referenced_by_con = st.vars_referenced_by_con
                        rw [ha₂]
                      obtain ⟨hr₄, hstq₄, -⟩ := run_bind_ok
                        (f := fun _ => delVarsByCon (ConKey.reg cid) >>=
                          fun _ => removeConstraintsLoop rest)
                        (popExternal_ok (EFKey.conK (ConKey.reg cid))
                          (runSt (delNamedExpr (ConKey.reg cid))
                            (runSt (delActiveCon (ConKey.reg cid)) st)))
                      rw [hr₄] at hh
                      rw [hstq₄]
                      cases hvb : runRes (delVarsByCon (ConKey.reg cid))
                          (runSt (popExternal (EFKey.conK (ConKey.reg cid)))
                            (runSt (delNamedExpr (ConKey.reg cid))
                              (runSt (delActiveCon (ConKey.reg cid)) st))) with
                      | error e₀ =>
                          obtain ⟨hr₅, -, -⟩ := run_bind_error hvb
                          rw [hr₅] at hh
                          have h₁ : e₀ = Err.notAdded := Except.error.inj hh
                          have h₂ : e₀ = Err.keyError := (delVarsByCon_run _ _).2 e₀ hvb
                          rw [h₁] at h₂
                          simp at h₂
                      | ok u₂ =>
                          obtain ⟨hr₅, hstq₅, -⟩ := run_bind_ok hvb
                          rw [hr₅] at hh
                          rw [hstq₅]
                          have hconv : containsA (runSt (popExternal
                              (EFKey.conK (ConKey.reg cid)))
                              (runSt (delNamedExpr (ConKey.reg cid))
                                (runSt (delActiveCon (ConKey.reg cid))
                                  st))).vars_referenced_by_con
                              (ConKey.reg cid) = true := by
                            rw [hp₂, hst₂]
                            rw [containsA, hv]
                            rfl
                          obtain ⟨-, hverase⟩ :=
                            (delVarsByCon_run (ConKey.reg cid) _).1 hconv
                          have hf₁ : (runSt (delVarsByCon (ConKey.reg cid))
                              (runSt (popExternal (EFKey.conK (ConKey.reg cid)))
                                (runSt (delNamedExpr (ConKey.reg cid))
                                  (runSt (delActiveCon (ConKey.reg cid))
                                    st)))).named_expressions
                              = eraseA st.named_expressions (ConKey.reg cid) := by
                            rw [hverase]
                            exact hp₁
                          have hf₂ : (runSt (delVarsByCon (ConKey.reg cid))
                              (runSt (popExternal (EFKey.conK (ConKey.reg cid)))
                                (runSt (delNamedExpr (ConKey.reg cid))
                                  (runSt (delActiveCon (ConKey.reg cid))
                                    st)))).vars_referenced_by_con
                              = eraseA st.vars_referenced_by_con (ConKey.reg cid) := by
                            rw [hverase]
                            show eraseA (runSt (popExternal (EFKey.conK (ConKey.reg cid)))
                              (runSt (delNamedExpr (ConKey.reg cid))
                                (runSt (delActiveCon (ConKey.reg cid))
                                  st))).vars_referenced_by_con (ConKey.reg cid)
                              = eraseA st.vars_referenced_by_con (ConKey.reg cid)
                            rw [hp₂]
                          obtain ⟨k, hk, hpre, hlast⟩ := ih _ hh
                            (by
                              rw [hf₁, hst₁]
                              exact nodup_keysA_eraseA _ _ hn₁)
                            (by
                              rw [hf₂, hst₂]
                              exact nodup_keysA_eraseA _ _ hn₂)
                          refine ⟨k + 1, by simpa using hk, ?_, by simpa using hlast⟩
                          intro c hcm
                          rcases List.mem_cons.mp (by simpa using hcm) with rfl | hcm₀
                          · constructor
                            · refine ((NVmono_removeConsLoop rest) _ (ConKey.reg c)).1 ?_
                              rw [hf₁, hst₁]
                              refine containsA_eraseA_self _ _ ?_
                              exact hn₁
                            · refine ((NVmono_removeConsLoop rest) _
                                (ConKey.reg c)).2.1 ?_
                              rw [hf₂, hst₂]
                              refine containsA_eraseA_self _ _ ?_
                              exact hn₂
                          · exact hpre c hcm₀
            cases hu : runRes (unlinkConVars (ConKey.reg cid) vs) s with
            | error e₀ =>
                obtain ⟨hr, -, -⟩ := run_bind_error hu
                rw [hr] at h
                have h₁ : e₀ = Err.notAdded := Except.error.inj h
                have h₂ : e₀ = Err.keyError := unlinkConVars_err _ vs s e₀ hu
                rw [h₁] at h₂
                simp at h₂
            | ok u =>
                obtain ⟨hr, hst, -⟩ := run_bind_ok hu
                rw [hr] at h
                rw [hst]
                rw [runRes_bind] at h
                rw [runSt_bind]
                simp only [runRes_getS, runSt_getS] at h ⊢
                obtain ⟨hu₁, hu₂⟩ := unlinkConVars_tables (ConKey.reg cid) vs s
                by_cases hoc :
                    (runSt (unlinkConVars (ConKey.reg cid) vs) s).only_child_vars = true
                · rw [if_neg (by simpa using hoc)] at h ⊢
                  rw [runRes_bind] at h
                  rw [runSt_bind]
                  simp only [runRes_pure, runSt_pure] at h ⊢
                  exact hjp _ hu₁ hu₂ h
                · rw [if_pos (by simpa using hoc)] at h ⊢
                  cases hck : runRes (check_to_remove_vars vs)
                      (runSt (unlinkConVars (ConKey.reg cid) vs) s) with
                  | error e₀ =>
                      obtain ⟨hr₂, -, -⟩ := run_bind_error hck
                      rw [hr₂] at h
                      have h₁ : e₀ = Err.notAdded := Except.error.inj h
                      rcases ctrv_err vs _ e₀ hck with h₂ | h₂ <;>
                        (rw [h₁] at h₂; simp at h₂)
                  | ok u₂ =>
                      obtain ⟨hr₂, hst₂, -⟩ := run_bind_ok hck
                      rw [hr₂] at h
                      rw [hst₂]
                      obtain ⟨hc₁, hc₂, -⟩ := ctrv_tables vs
                        (runSt (unlinkConVars (ConKey.reg cid) vs) s)
                      exact hjp _ (by rw [hc₁, hu₁]) (by rw [hc₂, hu₂]) h
      · -- not tracked: the was-added check fails right here
        rw [if_pos (by simpa using hc)] at h ⊢
        simp only [runSt_throwE]
        refine ⟨0, by simp, by simp, ?_⟩
        simpa using hc

/-- Failure analysis of the `remove_sos_constraints` loop: a not-added
error at position `k` leaves the registry entries of all earlier listed
SOS constraints already deleted, and the failing was-added check visible
in the final state. -/
theorem removeSosLoop_err (l : List Nat) : ∀ (s : SState),
    runRes (removeSosLoop l) s = .error .notAdded →
    (keysA s.named_expressions).Nodup →
    (keysA s.vars_referenced_by_con).Nodup →
    ∃ (k : Nat) (hk : k < l.length),
      (∀ c ∈ l.take k,
        containsA (runSt (removeSosLoop l) s).named_expressions
          (ConKey.sos c) = false ∧
        containsA (runSt (removeSosLoop l) s).vars_referenced_by_con
          (ConKey.sos c) = false) ∧
      containsA (runSt (removeSosLoop l) s).vars_referenced_by_con
        (ConKey.sos (l.get ⟨k, hk⟩)) = false := by
  induction l with
  | nil =>
      intro s h _ _
      rw [removeSosLoop] at h
      simp at h
  | cons sid rest ih =>
      intro s h hn₁ hn₂
      rw [removeSosLoop] at h ⊢
      rw [runRes_bind] at h
      rw [runSt_bind]
      simp only [runRes_getS, runSt_getS] at h ⊢
      by_cases hc : containsA s.vars_referenced_by_con (ConKey.sos sid) = true
      · rw [if_neg (by simpa using hc)] at h ⊢
        cases hv : lookupA s.vars_referenced_by_con (ConKey.sos sid) with
        | none =>
            simp only [hv, runRes_throwE] at h
            simp at h
        | some vs =>
            simp only [hv] at h ⊢
            cases hu : runRes (unlinkSosVars (ConKey.sos sid) vs) s with
            | error e₀ =>
                obtain ⟨hr, -, -⟩ := run_bind_error hu
                rw [hr] at h
                have h₁ : e₀ = Err.notAdded := Except.error.inj h
                have h₂ : e₀ = Err.keyError := unlinkSosVars_err _ vs s e₀ hu
                rw [h₁] at h₂
                simp at h₂
            | ok u =>
                obtain ⟨hr, hstq, -⟩ := run_bind_ok hu
                rw [hr] at h
                rw [hstq]
                obtain ⟨hu₁, hu₂⟩ := unlinkSosVars_tables (ConKey.sos sid) vs s
                cases hck : runRes (check_to_remove_vars vs)
                    (runSt (unlinkSosVars (ConKey.sos sid) vs) s) with
                | error e₀ =>
                    obtain ⟨hr₂, -, -⟩ := run_bind_error hck
                    rw [hr₂] at h
                    have h₁ : e₀ = Err.notAdded := Except.error.inj h
                    rcases ctrv_err vs _ e₀ hck with h₂ | h₂ <;>
                      (rw [h₁] at h₂; simp at h₂)
                | ok u₁ =>
                    obtain ⟨hr₂, hstq₂, -⟩ := run_bind_ok hck
                    rw [hr₂] at h
                    rw [hstq₂]
                    obtain ⟨hc₁, hc₂, -⟩ := ctrv_tables vs
                      (runSt (unlinkSosVars (ConKey.sos sid) vs) s)
                    cases ha : runRes (delActiveCon (ConKey.sos sid))
                        (runSt (check_to_remove_vars vs)
                          (runSt (unlinkSosVars (ConKey.sos sid) vs) s)) with
                    | error e₀ =>
                        obtain ⟨hr₃, -, -⟩ := run_bind_error ha
                        rw [hr₃] at h
                        have h₁ : e₀ = Err.notAdded := Except.error.inj h
                        have h₂ : e₀ = Err.keyError := delActiveCon_err _ _ e₀ ha
                        rw [h₁] at h₂
                        simp at h₂
                    | ok u₂ =>
                        obtain ⟨hr₃, hstq₃, -⟩ := run_bind_ok ha
                        rw [hr₃] at h
                        rw [hstq₃]
                        obtain ⟨ha₁, ha₂⟩ := delActiveCon_tables (ConKey.sos sid)
                          (runSt (check_to_remove_vars vs)
                            (runSt (unlinkSosVars (ConKey.sos sid) vs) s))
                        cases hd : runRes (delNamedExpr (ConKey.sos sid))
                            (runSt (delActiveCon (ConKey.sos sid))
                              (runSt (check_to_remove_vars vs)
                                (runSt (unlinkSosVars (ConKey.sos sid) vs) s))) with
                        | error e₀ =>
                            obtain ⟨hr₄, -, -⟩ := run_bind_error hd
                            rw [hr₄] at h
                            have h₁ : e₀ = Err.notAdded := Except.error.inj h
                            have h₂ : e₀ = Err.keyError :=
                              (delNamedExpr_run _ _).2 e₀ hd
                            rw [h₁] at h₂
                            simp at h₂
                        | ok u₃ =>
                            obtain ⟨hr₄, hstq₄, -⟩ := run_bind_ok hd
                            rw [hr₄] at h
                            rw [hstq₄]
                            have hcon := delNamedExpr_ok_contains (ConKey.sos sid)
                              _ u₃ hd
                            obtain ⟨-, hererase⟩ :=
                              (delNamedExpr_run (ConKey.sos sid) _).1 hcon
                            have hq₁ : (runSt (delNamedExpr (ConKey.sos sid))
                                (runSt (delActiveCon (ConKey.sos sid))
                                  (runSt (check_to_remove_vars vs)
                                    (runSt (unlinkSosVars (ConKey.sos sid) vs)
                                      s)))).named_expressions
                                = eraseA s.named_expressions (ConKey.sos sid) := by
                              rw [hererase]
                              show eraseA (runSt (delActiveCon (ConKey.sos sid))
                                (runSt (check_to_remove_vars vs)
                                  (runSt (unlinkSosVars (ConKey.sos sid) vs)
                                    s))).named_expressions (ConKey.sos sid)
                                = eraseA s.named_expressions (ConKey.sos sid)
                              rw [ha₁, hc₁, hu₁]
                            have hq₂ : (runSt (delNamedExpr (ConKey.sos sid))
                                (runSt (delActiveCon (ConKey.sos sid))
                                  (runSt (check_to_remove_vars vs)
                                    (runSt (unlinkSosVars (ConKey.sos sid) vs)
                                      s)))).vars_referenced_by_con
                                = s.vars_referenced_by_con := by
                              rw [hererase]
                              show (runSt (delActiveCon (ConKey.sos sid))
                                (runSt (check_to_remove_vars vs)
                                  (runSt (unlinkSosVars (ConKey.sos sid) vs)
                                    s))).vars_referenced_by_con
                                = s.vars_referenced_by_con
                              rw [ha₂, hc₂, hu₂]
                            cases hvb : runRes (delVarsByCon (ConKey.sos sid))
                                (runSt (delNamedExpr (ConKey.sos sid))
                                  (runSt (delActiveCon (ConKey.sos sid))
                                    (runSt (check_to_remove_vars vs)
                                      (runSt (unlinkSosVars (ConKey.sos sid) vs)
                                        s)))) with
                            | error e₀ =>
                                obtain ⟨hr₅, -, -⟩ := run_bind_error hvb
                                rw [hr₅] at h
                                have h₁ : e₀ = Err.notAdded := Except.error.inj h
                                have h₂ : e₀ = Err.keyError :=
                                  (delVarsByCon_run _ _).2 e₀ hvb
                                rw [h₁] at h₂
                                simp at h₂
                            | ok u₄ =>
                                obtain ⟨hr₅, hstq₅, -⟩ := run_bind_ok hvb
                                rw [hr₅] at h
                                rw [hstq₅]
                                have hconv : containsA (runSt
                                    (delNamedExpr (ConKey.sos sid))
                                    (runSt (delActiveCon (ConKey.sos sid))
                                      (runSt (check_to_remove_vars vs)
                                        (runSt (unlinkSosVars (ConKey.sos sid) vs)
                                          s)))).vars_referenced_by_con
                                    (ConKey.sos sid) = true := by
                                  rw [hq₂]
                                  rw [containsA, hv]
                                  rfl
                                obtain ⟨-, hverase⟩ :=
                                  (delVarsByCon_run (ConKey.sos sid) _).1 hconv
                                have hf₁ : (runSt (delVarsByCon (ConKey.sos sid))
                                    (runSt (delNamedExpr (ConKey.sos sid))
                                      (runSt (delActiveCon (ConKey.sos sid))
                                        (runSt (check_to_remove_vars vs)
                                          (runSt (unlinkSosVars (ConKey.sos sid) vs)
                                            s))))).named_expressions
                                    = eraseA s.named_expressions (ConKey.sos sid) := by
                                  rw [hverase]
                                  exact hq₁
                                have hf₂ : (runSt (delVarsByCon (ConKey.sos sid))
                                    (runSt (delNamedExpr (ConKey.sos sid))
                                      (runSt (delActiveCon (ConKey.sos sid))
                                        (runSt (check_to_remove_vars vs)
                                          (runSt (unlinkSosVars (ConKey.sos sid) vs)
                                            s))))).vars_referenced_by_con
                                    = eraseA s.vars_referenced_by_con
                                      (ConKey.sos sid) := by
                                  rw [hverase]
                                  show eraseA (runSt (delNamedExpr (ConKey.sos sid))
                                    (runSt (delActiveCon (ConKey.sos sid))
                                      (runSt (check_to_remove_vars vs)
                                        (runSt (unlinkSosVars (ConKey.sos sid) vs)
                                          s)))).vars_referenced_by_con
                                    (ConKey.sos sid)
                                    = eraseA s.vars_referenced_by_con (ConKey.sos sid)
                                  rw [hq₂]
                                obtain ⟨k, hk, hpre, hlast⟩ := ih _ h
                                  (by
                                    rw [hf₁]
                                    exact nodup_keysA_eraseA _ _ hn₁)
                                  (by
                                    rw [hf₂]
                                    exact nodup_keysA_eraseA _ _ hn₂)
                                refine ⟨k + 1, by simpa using hk, ?_,
                                  by simpa using hlast⟩
                                intro c hcm
                                rcases List.mem_cons.mp (by simpa using hcm) with
                                  rfl | hcm₀
                                · constructor
                                  · refine ((NVmono_removeSosLoop rest) _
                                      (ConKey.sos c)).1 ?_
                                    rw [hf₁]
                                    exact containsA_eraseA_self _ _ hn₁
                                  · refine ((NVmono_removeSosLoop rest) _
                                      (ConKey.sos c)).2.1 ?_
                                    rw [hf₂]
                                    exact containsA_eraseA_self _ _ hn₂
                                · exact hpre c hcm₀
      · -- not tracked: the was-added check fails right here
        rw [if_pos (by simpa using hc)] at h ⊢
        simp only [runSt_throwE]
        refine ⟨0, by simp, by simp, ?_⟩
        simpa using hc

/-- C10: `remove_constraints`, `remove_sos_constraints` and
`remove_variables` each request the backend removal of the entire
argument list first (the backend event heads the trace, before any
was-added or still-referenced check can raise), and when a per-entity
check later raises, the registry entries of the entities earlier in the
list have already been deleted and the failing check is visible in the
final state. -/
theorem claim10_thm (s : SState)
    (hn₁ : (keysA s.named_expressions).Nodup)
    (hn₂ : (keysA s.vars_referenced_by_con).Nodup)
    (hn₃ : (keysA s.referenced_variables).Nodup)
    (hn₄ : (keysA s.vars).Nodup) :
    (∀ cids, (runTr (remove_constraints cids) s).head?
        = some (Event.removeConstraints cids)) ∧
    (∀ sids, (runTr (remove_sos_constraints sids) s).head?
        = some (Event.removeSosConstraints sids)) ∧
    (∀ vids, (runTr (remove_variables vids) s).head?
        = some (Event.removeVariables vids)) ∧
    (∀ cids, runRes (remove_constraints cids) s = .error .notAdded →
      ∃ (k : Nat) (hk : k < cids.length),
        (∀ c ∈ cids.take k,
          containsA (runSt (remove_constraints cids) s).named_expressions
            (ConKey.reg c) = false ∧
          containsA (runSt (remove_constraints cids) s).vars_referenced_by_con
            (ConKey.reg c) = false) ∧
        containsA (runSt (remove_constraints cids) s).named_expressions
          (ConKey.reg (cids.get ⟨k, hk⟩)) = false) ∧
    (∀ sids, runRes (remove_sos_constraints sids) s = .error .notAdded →
      ∃ (k : Nat) (hk : k < sids.length),
        (∀ c ∈ sids.take k,
          containsA (runSt (remove_sos_constraints sids) s).named_expressions
            (ConKey.sos c) = false ∧
          containsA (runSt (remove_sos_constraints sids) s).vars_referenced_by_con
            (ConKey.sos c) = false) ∧
        containsA (runSt (remove_sos_constraints sids) s).vars_referenced_by_con
          (ConKey.sos (sids.get ⟨k, hk⟩)) = false) ∧
    (∀ vids e, runRes (remove_variables vids) s = .error e →
      (e = .notAdded ∨ e = .stillReferenced) →
      ∃ (k : Nat) (hk : k < vids.length),
        ∀ v ∈ vids.take k,
          containsA (runSt (remove_variables vids) s).referenced_variables v
            = false ∧
          containsA (runSt (remove_variables vids) s).vars v = false) := by
  refine ⟨?_, ?_, ?_, ?_, ?_, ?_⟩
  · intro cids
    rw [remove_constraints, runTr_bind]
    simp only [runTr_backendCall, runRes_backendCall]
    by_cases hf : s.fails.fRemoveConstraints = true <;> simp [hf]
  · intro sids
    rw [remove_sos_constraints, runTr_bind]
    simp only [runTr_backendCall, runRes_backendCall]
    by_cases hf : s.fails.fRemoveSos = true <;> simp [hf]
  · intro vids
    rw [remove_variables, runTr_bind]
    simp only [runTr_backendCall, runRes_backendCall]
    by_cases hf : s.fails.fRemoveVariables = true <;> simp [hf]
  · intro cids h
    rw [remove_constraints] at h ⊢
    by_cases hf : s.fails.fRemoveConstraints = true
    · have hb : runRes (backendCall (Event.removeConstraints cids)
          (fun s => s.fails.fRemoveConstraints)) s = .error .backendError := by
        rw [runRes_backendCall]
        simp [hf]
      obtain ⟨hr, -, -⟩ := run_bind_error hb
      rw [hr] at h
      have h₁ : Err.backendError = Err.notAdded := Except.error.inj h
      simp at h₁
    · have hb : runRes (backendCall (Event.removeConstraints cids)
          (fun s => s.fails.fRemoveConstraints)) s = .ok () := by
        rw [runRes_backendCall]
        simp [hf]
      obtain ⟨hr, hst, -⟩ := run_bind_ok hb
      rw [hr, runSt_backendCall] at h
      rw [hst, runSt_backendCall]
      exact removeConsLoop_err cids s h hn₁ hn₂
  · intro sids h
    rw [remove_sos_constraints] at h ⊢
    by_cases hf : s.fails.fRemoveSos = true
    · have hb : runRes (backendCall (Event.removeSosConstraints sids)
          (fun s => s.fails.fRemoveSos)) s = .error .backendError := by
        rw [runRes_backendCall]
        simp [hf]
      obtain ⟨hr, -, -⟩ := run_bind_error hb
      rw [hr] at h
      have h₁ : Err.backendError = Err.notAdded := Except.error.inj h
      simp at h₁
    · have hb : runRes (backendCall (Event.removeSosConstraints sids)
          (fun s => s.fails.fRemoveSos)) s = .ok () := by
        rw [runRes_backendCall]
        simp [hf]
      obtain ⟨hr, hst, -⟩ := run_bind_ok hb
      rw [hr, runSt_backendCall] at h
      rw [hst, runSt_backendCall]
      exact removeSosLoop_err sids s h hn₁ hn₂
  · intro vids e h he
    rw [remove_variables] at h ⊢
    by_cases hf : s.fails.fRemoveVariables = true
    · have hb : runRes (backendCall (Event.removeVariables vids)
          (fun s => s.fails.fRemoveVariables)) s = .error .backendError := by
        rw [runRes_backendCall]
        simp [hf]
      obtain ⟨hr, -, -⟩ := run_bind_error hb
      rw [hr] at h
      have h₁ : Err.backendError = e := Except.error.inj h
      rcases he with rfl | rfl <;> simp at h₁
    · have hb : runRes (backendCall (Event.removeVariables vids)
          (fun s => s.fails.fRemoveVariables)) s = .ok () := by
        rw [runRes_backendCall]
        simp [hf]
      obtain ⟨hr, hst, -⟩ := run_bind_ok hb
      rw [hr, runSt_backendCall] at h
      rw [hst, runSt_backendCall]
      obtain ⟨k, hk, hpre, -⟩ := removeVarsLoop_err vids s e h he hn₃ hn₄
      exact ⟨k, hk, hpre⟩

theorem mem_runTr_bind {α β : Type} {x : M α} {f : α → M β} {s : SState} {ev : Event}
    (h : ev ∈ runTr (x >>= f) s) :
    ev ∈ runTr x s ∨ ∃ a, runRes x s = .ok a ∧ ev ∈ runTr (f a) (runSt x s) := by
  rw [runTr_bind] at h
  cases hr : runRes x s with
  | ok a =>
      rw [hr] at h
      rcases List.mem_append.mp h with h₁ | h₂
      · exact Or.inl h₁
      · exact Or.inr ⟨a, rfl, h₂⟩
  | error e =>
      rw [hr] at h
      exact Or.inl h

theorem ctr_tr (l : List Nat) : ∀ (acc : List Nat) (s : SState),
    runTr (checkToRemoveLoop l acc) s = [] := by
  induction l with
  | nil => intro acc s; rfl
  | cons v rest ih =>
      intro acc s
      rw [checkToRemoveLoop]
      rw [runTr_bind]
      simp only [runRes_getS, runSt_getS, runTr_getS, List.nil_append]
      cases hl : lookupA s.referenced_variables v with
      | none => simp [hl]
      | some e =>
          simp only [hl]
          by_cases he : e.rcons = [] ∧ e.rsos = [] ∧ e.robj = none
          · rw [if_pos he]
            exact ih _ s
          · rw [if_neg he]
            exact ih _ s

theorem rvl_tr (l : List Nat) : ∀ (s : SState),
    runTr (removeVariablesLoop l) s = [] := by
  induction l with
  | nil => intro s; rfl
  | cons v rest ih =>
      intro s
      rw [removeVariablesLoop]
      rw [runTr_bind]
      simp only [runRes_getS, runSt_getS, runTr_getS, List.nil_append]
      cases hl : lookupA s.referenced_variables v with
      | none => simp [hl]
      | some e =>
          simp only [hl]
          by_cases he : e.rcons ≠ [] ∨ e.rsos ≠ [] ∨ e.robj ≠ none
          · rw [if_pos he]
            rfl
          · rw [if_neg he]
            by_cases hc : containsA s.vars v = true
            · rw [if_pos hc]
              rw [runTr_bind]
              simp only [runRes_setS, runSt_setS, runTr_setS, List.nil_append]
              exact ih _
            · rw [if_neg hc]
              rw [runTr_bind]
              simp only [runRes_setS, runSt_setS, runTr_setS, List.nil_append]
              rfl

theorem rvl_outside (l : List Nat) : ∀ (s : SState) (w : Nat), w ∉ l →
    lookupA (runSt (removeVariablesLoop l) s).referenced_variables w
      = lookupA s.referenced_variables w ∧
    lookupA (runSt (removeVariablesLoop l) s).vars w = lookupA s.vars w := by
  induction l with
  | nil => intro s w _; exact ⟨rfl, rfl⟩
  | cons v rest ih =>
      intro s w hw
      have hwv : v ≠ w := fun hvw => hw (hvw ▸ List.mem_cons_self v rest)
      have hwr : w ∉ rest := fun hr => hw (List.mem_cons_of_mem v hr)
      rw [removeVariablesLoop]
      rw [runSt_bind]
      simp only [runRes_getS, runSt_getS]
      cases hl : lookupA s.referenced_variables v with
      | none => simp [hl]
      | some e =>
          simp only [hl]
          by_cases he : e.rcons ≠ [] ∨ e.rsos ≠ [] ∨ e.robj ≠ none
          · rw [if_pos he]
            exact ⟨rfl, rfl⟩
          · rw [if_neg he]
            by_cases hc : containsA s.vars v = true
            · rw [if_pos hc]
              rw [runSt_bind]
              simp only [runRes_setS, runSt_setS]
              obtain ⟨ih₁, ih₂⟩ := ih _ w hwr
              rw [ih₁, ih₂]
              constructor
              · exact lookupA_eraseA_ne _ v w hwv
              · exact lookupA_eraseA_ne _ v w hwv
            · rw [if_neg hc]
              rw [runSt_bind]
              simp only [runRes_setS, runSt_setS, runSt_throwE]
              constructor
              · exact lookupA_eraseA_ne _ v w hwv
              · trivial

theorem avl_tr (l : List Nat) : ∀ (s : SState),
    runTr (addVariablesLoop l) s = [] := by
  induction l with
  | nil => intro s; rfl
  | cons v rest ih =>
      intro s
      rw [addVariablesLoop]
      rw [runTr_bind]
      simp only [runRes_getS, runSt_getS, runTr_getS, List.nil_append]
      by_cases hc : containsA s.referenced_variables v = true
      · rw [if_pos hc]
        rfl
      · rw [if_neg hc]
        rw [runTr_bind]
        simp only [runRes_setS, runSt_setS, runTr_setS, List.nil_append]
        exact ih _

theorem avl_outside (l : List Nat) : ∀ (s : SState) (w : Nat), w ∉ l →
    lookupA (runSt (addVariablesLoop l) s).referenced_variables w
      = lookupA s.referenced_variables w := by
  induction l with
  | nil => intro s w _; rfl
  | cons v rest ih =>
      intro s w hw
      have hwv : v ≠ w := fun hvw => hw (hvw ▸ List.mem_cons_self v rest)
      have hwr : w ∉ rest := fun hr => hw (List.mem_cons_of_mem v hr)
      rw [addVariablesLoop]
      rw [runSt_bind]
      simp only [runRes_getS, runSt_getS]
      by_cases hc : containsA s.referenced_variables v = true
      · rw [if_pos hc]
        rfl
      · rw [if_neg hc]
        rw [runSt_bind]
        simp only [runRes_setS, runSt_setS]
        rw [ih _ w hwr]
        exact lookupA_insertA_ne _ v w _ hwv

theorem setObjRefs_run (o : Option Nat) (l : List Nat) : ∀ (s : SState) (w : Nat),
    runTr (setObjRefs o l) s = [] ∧
    (lookupA (runSt (setObjRefs o l) s).referenced_variables w).map
        (fun e => (e.rcons, e.rsos))
      = (lookupA s.referenced_variables w).map (fun e => (e.rcons, e.rsos)) ∧
    (runSt (setObjRefs o l) s).vars = s.vars ∧
    (runSt (setObjRefs o l) s).model = s.model := by
  induction l with
  | nil => intro s w; exact ⟨rfl, rfl, rfl, rfl⟩
  | cons v rest ih =>
      intro s w
      rw [setObjRefs]
      rw [runTr_bind, runSt_bind]
      cases hr : runRes (setObjRef o v) s with
      | error e₀ =>
          have htr : runTr (setObjRef o v) s = [] := by
            rw [setObjRef]
            rw [runTr_bind]
            simp only [runRes_getS, runSt_getS, runTr_getS, List.nil_append]
            cases hl : lookupA s.referenced_variables v <;> simp [hl]
          have hst : runSt (setObjRef o v) s = s := by
            rw [setObjRef] at hr ⊢
            rw [runRes_bind] at hr
            rw [runSt_bind]
            simp only [runRes_getS, runSt_getS] at hr ⊢
            cases hl : lookupA s.referenced_variables v with
            | none => simp [hl]
            | some e =>
                simp only [hl, runRes_setS] at hr
                simp at hr
          simp [hr, htr, hst]
      | ok u =>
          have h₂ : (lookupA (runSt (setObjRef o v) s).referenced_variables w).map
                  (fun e => (e.rcons, e.rsos))
                = (lookupA s.referenced_variables w).map
                  (fun e => (e.rcons, e.rsos)) := by
            rw [setObjRef]
            rw [runSt_bind]
            simp only [runRes_getS, runSt_getS]
            cases hl : lookupA s.referenced_variables v with
            | none => simp [hl]
            | some e =>
                simp only [hl]
                show (lookupA (insertA s.referenced_variables v
                    { e with robj := o }) w).map (fun e => (e.rcons, e.rsos))
                  = (lookupA s.referenced_variables w).map
                    (fun e => (e.rcons, e.rsos))
                by_cases hvw : v = w
                · subst hvw
                  rw [lookupA_insertA_self, hl]
                  rfl
                · rw [lookupA_insertA_ne _ v w _ hvw]
          have h₁ : runTr (setObjRef o v) s = [] := by
            rw [setObjRef]
            rw [runTr_bind]
            simp only [runRes_getS, runSt_getS, runTr_getS, List.nil_append]
            cases hl : lookupA s.referenced_variables v <;> simp [hl]
          have h₃ : (runSt (setObjRef o v) s).vars = s.vars := by
            rw [setObjRef]
            rw [runSt_bind]
            simp only [runRes_getS, runSt_getS]
            cases hl : lookupA s.referenced_variables v <;> simp [hl]
          have h₄ : (runSt (setObjRef o v) s).model = s.model := by
            rw [setObjRef]
            rw [runSt_bind]
            simp only [runRes_getS, runSt_getS]
            cases hl : lookupA s.referenced_variables v <;> simp [hl]
          obtain ⟨i₁, i₂, i₃, i₄⟩ := ih (runSt (setObjRef o v) s) w
          simp only [hr, h₁, List.nil_append]
          refine ⟨i₁, ?_, ?_, ?_⟩
          · rw [i₂, h₂]
          · rw [i₃, h₃]
          · rw [i₄, h₄]

/-- Trace and entry effect of `_check_to_remove_vars` seen from a variable
whose reference entry still lists a constraint or an SOS constraint: the
single emitted backend removal never lists it, and its entry survives. -/
theorem check_to_remove_trace (vids : List Nat) (s : SState) (v : Nat) (e : RefEntry)
    (hv : lookupA s.referenced_variables v = some e)
    (hne : e.rcons ≠ [] ∨ e.rsos ≠ []) :
    (∀ ev ∈ runTr (check_to_remove_vars vids) s,
      ∃ tr, ev = Event.removeVariables tr ∧ v ∉ tr) ∧
    lookupA (runSt (check_to_remove_vars vids) s).referenced_variables v = some e := by
  rw [check_to_remove_vars]
  rw [runTr_bind, runSt_bind]
  cases hr : runRes (checkToRemoveLoop vids []) s with
  | error e₀ =>
      simp only [ctr_tr, ctr_state]
      exact ⟨fun ev hev => absurd hev (List.not_mem_nil ev), hv⟩
  | ok toRemove =>
      simp only [ctr_tr, ctr_state, List.nil_append]
      have hvout : v ∉ toRemove := by
        intro hmem
        rcases (ctr_out vids [] toRemove s hr).2 v hmem with h₀ | ⟨e₁, he₁, hc₁, hs₁, -⟩
        · exact absurd h₀ (List.not_mem_nil v)
        · rw [hv] at he₁
          obtain rfl : e = e₁ := Option.some.inj he₁
          rcases hne with hne | hne
          · exact hne hc₁
          · exact hne hs₁
      rw [remove_variables]
      rw [runTr_bind, runSt_bind]
      simp only [runTr_backendCall, runRes_backendCall, runSt_backendCall]
      by_cases hf : s.fails.fRemoveVariables = true
      · simp only [hf, if_true]
        refine ⟨?_, hv⟩
        intro ev hev
        have hev' : ev = Event.removeVariables toRemove := by simpa using hev
        subst hev'
        exact ⟨toRemove, rfl, hvout⟩
      · simp only [hf, if_false, Bool.false_eq_true]
        refine ⟨?_, ((rvl_outside toRemove s v hvout).1).trans hv⟩
        intro ev hev
        rw [rvl_tr] at hev
        have hev' : ev = Event.removeVariables toRemove := by simpa using hev
        subst hev'
        exact ⟨toRemove, rfl, hvout⟩

theorem mem_filter_foldl (p : Nat → Bool) : ∀ (l acc : List Nat) (w : Nat),
    w ∈ l.foldl (fun acc u => if p u then acc else addKey acc u) acc →
    w ∈ acc ∨ p w = false := by
  intro l
  induction l with
  | nil =>
      intro acc w h
      exact Or.inl (by simpa using h)
  | cons u rest ih =>
      intro acc w h
      rw [List.foldl_cons] at h
      rcases ih _ w h with h₀ | h₀
      · by_cases hp : p u = true
        · rw [if_pos hp] at h₀
          exact Or.inl h₀
        · rw [if_neg hp] at h₀
          rcases (mem_addKey acc u w).mp h₀ with h₁ | rfl
          · exact Or.inl h₁
          · exact Or.inr (by simpa using hp)
      · exact Or.inr h₀

/-- Trace and entry effect of `_check_for_new_vars` seen from a variable
already holding a reference entry: the single emitted backend addition
never lists it, and its entry survives. -/
theorem check_for_new_trace (vids : List Nat) (s : SState) (v : Nat)
    (hc : containsA s.referenced_variables v = true) :
    (∀ ev ∈ runTr (check_for_new_vars vids) s,
      ∃ tr, ev = Event.addVariables tr ∧ v ∉ tr) ∧
    lookupA (runSt (check_for_new_vars vids) s).referenced_variables v
      = lookupA s.referenced_variables v := by
  rw [check_for_new_vars]
  rw [runTr_bind, runSt_bind]
  simp only [runRes_getS, runSt_getS, runTr_getS, List.nil_append]
  have hvnew : v ∉ vids.foldl
      (fun acc u => if containsA s.referenced_variables u then acc
        else addKey acc u) [] := by
    intro hmem
    rcases mem_filter_foldl (fun u => containsA s.referenced_variables u)
        vids [] v hmem with h₀ | h₀
    · exact absurd h₀ (List.not_mem_nil v)
    · rw [hc] at h₀
      simp at h₀
  rw [add_variables]
  rw [runTr_bind, runSt_bind]
  cases hr : runRes (addVariablesLoop (vids.foldl
      (fun acc u => if containsA s.referenced_variables u then acc
        else addKey acc u) [])) s with
  | error e₀ =>
      simp only [avl_tr]
      exact ⟨fun ev hev => absurd hev (List.not_mem_nil ev),
        avl_outside _ s v hvnew⟩
  | ok u =>
      simp only [avl_tr, runTr_backendCall, runSt_backendCall, List.nil_append]
      refine ⟨?_, avl_outside _ s v hvnew⟩
      intro ev hev
      have hev' : ev = Event.addVariables (vids.foldl
          (fun acc u => if containsA s.referenced_variables u then acc
            else addKey acc u) []) := by simpa using hev
      subst hev'
      exact ⟨_, rfl, hvnew⟩

def sW10 : SState := { }

theorem claim10_witness :
    (keysA sW10.named_expressions).Nodup ∧
    (keysA sW10.vars_referenced_by_con).Nodup ∧
    (keysA sW10.referenced_variables).Nodup ∧
    (keysA sW10.vars).Nodup ∧
    (runTr (remove_constraints [7]) sW10).head?
      = some (Event.removeConstraints [7]) ∧
    (runTr (remove_sos_constraints [8]) sW10).head?
      = some (Event.removeSosConstraints [8]) ∧
    (runTr (remove_variables [9]) sW10).head?
      = some (Event.removeVariables [9]) :=
  ⟨by decide, by decide, by decide, by decide,
    (claim10_thm sW10 (by decide) (by decide) (by decide) (by decide)).1 [7],
    (claim10_thm sW10 (by decide) (by decide) (by decide) (by decide)).2.1 [8],
    (claim10_thm sW10 (by decide) (by decide) (by decide) (by decide)).2.2.1 [9]⟩

/-! ## C7: `set_objective` and variables shared with constraints -/

/-- The C7 invariant: variable `v` holds a reference entry that still
lists a referencing constraint or SOS constraint. -/
def RefSafeInv (v : Nat) (s : SState) : Prop :=
  ∃ e, lookupA s.referenced_variables v = some e ∧ (e.rcons ≠ [] ∨ e.rsos ≠ [])

/-- An event is harmless for `v`: it is not a backend variable removal or
addition listing `v`. -/
def EvOk (v : Nat) (ev : Event) : Prop :=
  (∀ l, ev = Event.removeVariables l → v ∉ l) ∧
  (∀ l, ev = Event.addVariables l → v ∉ l)

/-- A program fragment is swap-safe for `v`: run from any state satisfying
the invariant it emits no backend variable removal or addition listing
`v`, and it preserves the invariant. -/
def ObjSafe (v : Nat) {α : Type} (x : M α) : Prop :=
  ∀ s : SState, RefSafeInv v s →
    (∀ ev ∈ runTr x s, EvOk v ev) ∧ RefSafeInv v (runSt x s)

theorem ObjSafe_bind {α β : Type} {v : Nat} {x : M α} {f : α → M β}
    (hx : ObjSafe v x) (hf : ∀ a, ObjSafe v (f a)) : ObjSafe v (x >>= f) := by
  intro s hs
  obtain ⟨htx, hix⟩ := hx s hs
  cases hr : runRes x s with
  | ok a =>
      obtain ⟨-, hst₁, htr₁⟩ := run_bind_ok (f := f) hr
      obtain ⟨htf, hif⟩ := hf a (runSt x s) hix
      rw [hst₁, htr₁]
      refine ⟨?_, hif⟩
      intro ev hev
      rcases List.mem_append.mp hev with h | h
      · exact htx ev h
      · exact htf ev h
  | error e₀ =>
      obtain ⟨-, hst₁, htr₁⟩ := run_bind_error (f := f) hr
      rw [hst₁, htr₁]
      exact ⟨htx, hix⟩

theorem ObjSafe_pure {α : Type} (v : Nat) (a : α) : ObjSafe v (pure a) := by
  intro s hs
  refine ⟨?_, ?_⟩
  · intro ev hev
    rw [runTr_pure] at hev
    exact absurd hev (List.not_mem_nil ev)
  · rw [runSt_pure]
    exact hs

theorem ObjSafe_getS (v : Nat) : ObjSafe v getS := by
  intro s hs
  refine ⟨?_, ?_⟩
  · intro ev hev
    rw [runTr_getS] at hev
    exact absurd hev (List.not_mem_nil ev)
  · rw [runSt_getS]
    exact hs

theorem ObjSafe_throwE {α : Type} (v : Nat) (e : Err) : ObjSafe v (throwE e : M α) := by
  intro s hs
  refine ⟨?_, ?_⟩
  · intro ev hev
    rw [runTr_throwE] at hev
    exact absurd hev (List.not_mem_nil ev)
  · rw [runSt_throwE]
    exact hs

theorem ObjSafe_ite {α : Type} (v : Nat) (c : Prop) [Decidable c] {x y : M α}
    (hx : ObjSafe v x) (hy : ObjSafe v y) : ObjSafe v (if c then x else y) := by
  by_cases hc : c
  · rw [if_pos hc]
    exact hx
  · rw [if_neg hc]
    exact hy

theorem ObjSafe_modifyS (v : Nat) (f : SState → SState)
    (hf : ∀ s, (f s).referenced_variables = s.referenced_variables) :
    ObjSafe v (modifyS f) := by
  intro s hs
  refine ⟨?_, ?_⟩
  · intro ev hev
    rw [runTr_modifyS] at hev
    exact absurd hev (List.not_mem_nil ev)
  · obtain ⟨e, he, hne⟩ := hs
    refine ⟨e, ?_, hne⟩
    rw [runSt_modifyS, hf s]
    exact he

theorem ObjSafe_backendCall (v : Nat) (ev₀ : Event) (flag : SState → Bool)
    (hev₀ : EvOk v ev₀) : ObjSafe v (backendCall ev₀ flag) := by
  intro s hs
  refine ⟨?_, ?_⟩
  · intro ev hmem
    rw [runTr_backendCall] at hmem
    have h : ev = ev₀ := by simpa using hmem
    subst h
    exact hev₀
  · rw [runSt_backendCall]
    exact hs

theorem ObjSafe_setObjRefs (v : Nat) (o : Option Nat) (l : List Nat) :
    ObjSafe v (setObjRefs o l) := by
  intro s hs
  obtain ⟨e, he, hne⟩ := hs
  obtain ⟨h₁, h₂, -, -⟩ := setObjRefs_run o l s v
  refine ⟨?_, ?_⟩
  · intro ev hev
    rw [h₁] at hev
    exact absurd hev (List.not_mem_nil ev)
  · rw [he] at h₂
    cases hl : lookupA (runSt (setObjRefs o l) s).referenced_variables v with
    | none =>
        rw [hl] at h₂
        simp at h₂
    | some e₁ =>
        rw [hl] at h₂
        have h₃ : (e₁.rcons, e₁.rsos) = (e.rcons, e.rsos) := Option.some.inj h₂
        have hcq : e₁.rcons = e.rcons := congrArg Prod.fst h₃
        have hsq : e₁.rsos = e.rsos := congrArg Prod.snd h₃
        refine ⟨e₁, hl, ?_⟩
        rcases hne with h | h
        · exact Or.inl (by rw [hcq]; exact h)
        · exact Or.inr (by rw [hsq]; exact h)

theorem ObjSafe_check_to_remove (v : Nat) (vids : List Nat) :
    ObjSafe v (check_to_remove_vars vids) := by
  intro s hs
  obtain ⟨e, he, hne⟩ := hs
  obtain ⟨ht, hst⟩ := check_to_remove_trace vids s v e he hne
  refine ⟨?_, ⟨e, hst, hne⟩⟩
  intro ev hev
  obtain ⟨tr, rfl, hnm⟩ := ht ev hev
  constructor
  · intro l hl
    obtain rfl : tr = l := Event.removeVariables.inj hl
    exact hnm
  · intro l hl
    simp at hl

theorem ObjSafe_check_for_new (v : Nat) (vids : List Nat) :
    ObjSafe v (check_for_new_vars vids) := by
  intro s hs
  obtain ⟨e, he, hne⟩ := hs
  have hc : containsA s.referenced_variables v = true := by
    rw [containsA, he]
    rfl
  obtain ⟨ht, hst⟩ := check_for_new_trace vids s v hc
  refine ⟨?_, ⟨e, by rw [hst]; exact he, hne⟩⟩
  intro ev hev
  obtain ⟨tr, rfl, hnm⟩ := ht ev hev
  constructor
  · intro l hl
    simp at hl
  · intro l hl
    obtain rfl : tr = l := Event.addVariables.inj hl
    exact hnm

theorem ObjSafe_popExternal (v : Nat) (k : EFKey) : ObjSafe v (popExternal k) := by
  intro s hs
  refine ⟨?_, ?_⟩
  · intro ev hev
    have h : runTr (popExternal k) s = [] := rfl
    rw [h] at hev
    exact absurd hev (List.not_mem_nil ev)
  · obtain ⟨e, he, hne⟩ := hs
    exact ⟨e, he, hne⟩

theorem ObjSafe_unfixAll (v : Nat) (l : List Nat) : ObjSafe v (unfixAll l) := by
  intro s hs
  obtain ⟨-, htr, hstq, -⟩ := unfixAll_run l s
  refine ⟨?_, ?_⟩
  · intro ev hev
    rw [htr] at hev
    exact absurd hev (List.not_mem_nil ev)
  · obtain ⟨e, he, hne⟩ := hs
    refine ⟨e, ?_, hne⟩
    rw [hstq]
    exact he

theorem ObjSafe_fixAll (v : Nat) (l : List Nat) : ObjSafe v (fixAll l) := by
  intro s hs
  obtain ⟨-, htr, hstq, -⟩ := fixAll_run l s
  refine ⟨?_, ?_⟩
  · intro ev hev
    rw [htr] at hev
    exact absurd hev (List.not_mem_nil ev)
  · obtain ⟨e, he, hne⟩ := hs
    refine ⟨e, ?_, hne⟩
    rw [hstq]
    exact he

/-- The whole of `set_objective` is swap-safe for any variable whose
reference entry lists a constraint or an SOS constraint. -/
theorem ObjSafe_set_objective (v : Nat) (obj : Option SObj) :
    ObjSafe v (set_objective obj) := by
  rw [set_objective.eq_def]
  refine ObjSafe_bind (ObjSafe_getS v) (fun a => ?_)
  have hSEC : ObjSafe v (match obj with
    | some o => do
        modifyS fun s => { s with
          objective := some o.oid
          objective_expr := some o.oexprId
          objective_sense := some o.osense }
        let s₂ ← getS
        let r := collect_vars_and_named_exprs
          (fun v => (s₂.model.varAttrs v).vfixed) o.oexpr
        if ¬ s₂.only_child_vars then check_for_new_vars r.vars else pure ()
        modifyS fun s => { s with obj_named_expressions := r.named_expressions }
        if r.external_functions ≠ [] then
          modifyS fun s =>
            { s with external_functions :=
                insertA s.external_functions (.objK o.oid) r.external_functions }
        else pure ()
        modifyS fun s => { s with vars_referenced_by_obj := r.vars }
        setObjRefs (some o.oid) r.vars
        let s₃ ← getS
        if ¬ s₃.config.treat_fixed_vars_as_params then unfixAll r.fixed_vars
        else pure ()
        backendCall (.setObjective (some o.oid)) (fun s => s.fails.fSetObjective)
        fixAll r.fixed_vars
    | none => do
        modifyS fun s => { s with
          vars_referenced_by_obj := []
          objective := none
          objective_expr := none
          objective_sense := none
          obj_named_expressions := [] }
        backendCall (.setObjective none) (fun s => s.fails.fSetObjective)) := by
    cases obj with
    | some o =>
        have hTail3 : ∀ r : CollectorState, ObjSafe v (do
            backendCall (Event.setObjective (some o.oid))
              (fun s => s.fails.fSetObjective)
            fixAll r.fixed_vars) := by
          intro r
          refine ObjSafe_bind (ObjSafe_backendCall v _ _
            ⟨fun l hl => by simp at hl, fun l hl => by simp at hl⟩) (fun _ => ?_)
          exact ObjSafe_fixAll v _
        have hTail2 : ∀ r : CollectorState, ObjSafe v (do
            modifyS fun s => { s with vars_referenced_by_obj := r.vars }
            setObjRefs (some o.oid) r.vars
            let s₃ ← getS
            if ¬ s₃.config.treat_fixed_vars_as_params then unfixAll r.fixed_vars
            else pure ()
            backendCall (Event.setObjective (some o.oid))
              (fun s => s.fails.fSetObjective)
            fixAll r.fixed_vars) := by
          intro r
          refine ObjSafe_bind (ObjSafe_modifyS v _ (fun _ => rfl)) (fun _ => ?_)
          refine ObjSafe_bind (ObjSafe_setObjRefs v _ _) (fun _ => ?_)
          refine ObjSafe_bind (ObjSafe_getS v) (fun s₃ => ?_)
          by_cases hc : ¬ s₃.config.treat_fixed_vars_as_params = true
          · rw [if_pos hc]
            exact ObjSafe_bind (ObjSafe_unfixAll v _) (fun _ => hTail3 r)
          · rw [if_neg hc]
            exact ObjSafe_bind (ObjSafe_pure v ()) (fun _ => hTail3 r)
        have hTail1 : ∀ r : CollectorState, ObjSafe v (do
            modifyS fun s => { s with obj_named_expressions := r.named_expressions }
            if r.external_functions ≠ [] then
              modifyS fun s =>
                { s with external_functions := insertA s.external_functions (.objK o.oid) r.external_functions }
            else pure ()
            modifyS fun s => { s with vars_referenced_by_obj := r.vars }
            setObjRefs (some o.oid) r.vars
            let s₃ ← getS
            if ¬ s₃.config.treat_fixed_vars_as_params then unfixAll r.fixed_vars
            else pure ()
            backendCall (Event.setObjective (some o.oid))
              (fun s => s.fails.fSetObjective)
            fixAll r.fixed_vars) := by
          intro r
          refine ObjSafe_bind (ObjSafe_modifyS v _ (fun _ => rfl)) (fun _ => ?_)
          by_cases hc : r.external_functions ≠ []
          · rw [if_pos hc]
            exact ObjSafe_bind (ObjSafe_modifyS v _ (fun _ => rfl))
              (fun _ => hTail2 r)
          · rw [if_neg hc]
            exact ObjSafe_bind (ObjSafe_pure v ()) (fun _ => hTail2 r)
        refine ObjSafe_bind (ObjSafe_modifyS v _ (fun _ => rfl)) (fun _ => ?_)
        refine ObjSafe_bind (ObjSafe_getS v) (fun s₂ => ?_)
        by_cases hc : ¬ s₂.only_child_vars = true
        · rw [if_pos hc]
          exact ObjSafe_bind (ObjSafe_check_for_new v _)
            (fun _ => hTail1 (collect_vars_and_named_exprs
              (fun w => (s₂.model.varAttrs w).vfixed) o.oexpr))
        · rw [if_neg hc]
          exact ObjSafe_bind (ObjSafe_pure v ())
            (fun _ => hTail1 (collect_vars_and_named_exprs
              (fun w => (s₂.model.varAttrs w).vfixed) o.oexpr))
    | none =>
        refine ObjSafe_bind (ObjSafe_modifyS v _ (fun _ => rfl)) (fun _ => ?_)
        exact ObjSafe_backendCall v _ _ ⟨fun l hl => by simp at hl,
          fun l hl => by simp at hl⟩
  cases ho : a.objective with
  | some oldOid =>
      refine ObjSafe_bind (ObjSafe_setObjRefs v _ _) (fun _ => ?_)
      refine ObjSafe_bind (ObjSafe_getS v) (fun s₁ => ?_)
      by_cases hc : ¬ s₁.only_child_vars = true
      · rw [if_pos hc]
        exact ObjSafe_bind (ObjSafe_check_to_remove v _)
          (fun _ => ObjSafe_bind (ObjSafe_popExternal v _) (fun _ => hSEC))
      · rw [if_neg hc]
        exact ObjSafe_bind (ObjSafe_pure v ())
          (fun _ => ObjSafe_bind (ObjSafe_popExternal v _) (fun _ => hSEC))
  | none =>
      exact ObjSafe_bind (ObjSafe_pure v ()) (fun _ => hSEC)

/-- C7: when `set_objective` replaces an existing objective, a variable
whose reference entry still lists a referencing constraint or SOS
constraint is never named in a backend variable removal or addition
during the swap. -/
theorem claim7_thm (o : SObj) (s : SState) (oldOid : Nat) (v : Nat) (e : RefEntry)
    (hobj : s.objective = some oldOid)
    (hv : lookupA s.referenced_variables v = some e)
    (hne : e.rcons ≠ [] ∨ e.rsos ≠ []) :
    ∀ ev ∈ runTr (set_objective (some o)) s,
      (∀ l, ev = Event.removeVariables l → v ∉ l) ∧
      (∀ l, ev = Event.addVariables l → v ∉ l) := by
  intro ev hev
  exact (ObjSafe_set_objective v (some o) s ⟨e, hv, hne⟩).1 ev hev

def o7 : SObj := { oid := 2, oexprId := 200, oexpr := .varE 5 }

def s7 : SState := {
  objective := some 1
  objective_expr := some 100
  objective_sense := some true
  vars_referenced_by_obj := [5]
  referenced_variables := [(5, { robj := some 1 })]
  vars := [(5, {})]
  model := { mvars := [(5, {})] } }

/-- C7 counterexample: variable 5 is shared between the outgoing and the
incoming objective (and referenced by nothing else); the swap removes it
from the backend and adds it back. -/
theorem claim7_cex :
    s7.objective = some 1 ∧
    lookupA s7.referenced_variables 5 = some { robj := some 1 } ∧
    5 ∈ (collect_vars_and_named_exprs
      (fun w => (s7.model.varAttrs w).vfixed) o7.oexpr).vars ∧
    5 ∈ s7.vars_referenced_by_obj ∧
    runRes (set_objective (some o7)) s7 = .ok () ∧
    Event.removeVariables [5] ∈ runTr (set_objective (some o7)) s7 ∧
    Event.addVariables [5] ∈ runTr (set_objective (some o7)) s7 := by
  refine ⟨rfl, rfl, by decide, by decide, rfl, by decide, by decide⟩

def sW7 : SState := {
  objective := some 1
  vars_referenced_by_obj := [6]
  referenced_variables := [(6, { rcons := [ConKey.reg 3], robj := some 1 })]
  vars := [(6, {})]
  model := { mvars := [(6, {})] } }

theorem claim7_witness :
    sW7.objective = some 1 ∧
    lookupA sW7.referenced_variables 6
      = some { rcons := [ConKey.reg 3], robj := some 1 } ∧
    (∀ ev ∈ runTr (set_objective (some o7)) sW7,
      (∀ l, ev = Event.removeVariables l → 6 ∉ l) ∧
      (∀ l, ev = Event.addVariables l → 6 ∉ l)) :=
  ⟨rfl, rfl, claim7_thm o7 sW7 1 6 _ rfl rfl (by decide)⟩

/-! ## C9: alignment of `_vars` and `_referenced_variables` -/

theorem keysA_insertA {κ α : Type} [DecidableEq κ] (l : List (κ × α)) (k : κ) (a : α) :
    keysA (insertA l k a) =
      if containsA l k then keysA l else keysA l ++ [k] := by
  induction l with
  | nil => simp [insertA, keysA, containsA, lookupA]
  | cons p rest ih =>
      obtain ⟨k₁, a₁⟩ := p
      rw [insertA]
      by_cases h : k₁ = k
      · rw [if_pos h]
        have hc : containsA ((k₁, a₁) :: rest) k = true := by
          rw [containsA, lookupA, if_pos h]
          rfl
        rw [hc, if_pos rfl]
        rfl
      · rw [if_neg h]
        have hc : containsA ((k₁, a₁) :: rest) k = containsA rest k := by
          rw [containsA, lookupA, if_neg h]
          rfl
        rw [hc]
        show k₁ :: keysA (insertA rest k a) = _
        rw [ih]
        by_cases h₂ : containsA rest k = true
        · rw [if_pos h₂, if_pos h₂]
          rfl
        · rw [if_neg h₂, if_neg h₂]
          rfl

theorem nodup_keysA_insertA {κ α : Type} [DecidableEq κ]
    (l : List (κ × α)) (k : κ) (a : α) (h : (keysA l).Nodup) :
    (keysA (insertA l k a)).Nodup := by
  rw [keysA_insertA]
  by_cases hc : containsA l k = true
  · rw [if_pos hc]
    exact h
  · rw [if_neg hc]
    have hk : k ∉ keysA l := (containsA_false_iff l k).mp (by simpa using hc)
    simp [List.nodup_append, h, hk]

/-- The C9 invariant proper: the two per-variable tables hold exactly the
same key set. -/
def Aligned (s : SState) : Prop :=
  ∀ k, containsA s.vars k = containsA s.referenced_variables k

/-- The C9 invariant with the dict wellformedness it relies on: both
tables are duplicate-free and key-aligned. -/
def WellKeyed (s : SState) : Prop :=
  (keysA s.vars).Nodup ∧ (keysA s.referenced_variables).Nodup ∧ Aligned s

/-- A program fragment preserves the table alignment, whether it returns
or raises. -/
def AlPres {α : Type} (x : M α) : Prop :=
  ∀ s, WellKeyed s → WellKeyed (runSt x s)

theorem AlPres_bind {α β : Type} {x : M α} {f : α → M β}
    (hx : AlPres x) (hf : ∀ a, AlPres (f a)) : AlPres (x >>= f) := by
  intro s hs
  cases hr : runRes x s with
  | ok a =>
      obtain ⟨-, hst, -⟩ := run_bind_ok (f := f) hr
      rw [hst]
      exact hf a _ (hx s hs)
  | error e₀ =>
      obtain ⟨-, hst, -⟩ := run_bind_error (f := f) hr
      rw [hst]
      exact hx s hs

theorem AlPres_of_tables {α : Type} {x : M α}
    (h : ∀ s, (runSt x s).vars = s.vars ∧
      (runSt x s).referenced_variables = s.referenced_variables) : AlPres x := by
  intro s hs
  obtain ⟨h₁, h₂⟩ := h s
  obtain ⟨hn₁, hn₂, ha⟩ := hs
  refine ⟨?_, ?_, ?_⟩
  · rw [h₁]
    exact hn₁
  · rw [h₂]
    exact hn₂
  · intro k
    rw [h₁, h₂]
    exact ha k

theorem AlPres_pure {α : Type} (a : α) : AlPres (pure a) :=
  AlPres_of_tables (fun s => by rw [runSt_pure]; exact ⟨rfl, rfl⟩)

theorem AlPres_getS : AlPres getS :=
  AlPres_of_tables (fun s => by rw [runSt_getS]; exact ⟨rfl, rfl⟩)

theorem AlPres_throwE {α : Type} (e : Err) : AlPres (throwE e : M α) :=
  AlPres_of_tables (fun s => by rw [runSt_throwE]; exact ⟨rfl, rfl⟩)

theorem AlPres_backendCall (ev : Event) (flag : SState → Bool) :
    AlPres (backendCall ev flag) :=
  AlPres_of_tables (fun s => by rw [runSt_backendCall]; exact ⟨rfl, rfl⟩)

theorem AlPres_ite {α : Type} (c : Prop) [Decidable c] {x y : M α}
    (hx : AlPres x) (hy : AlPres y) : AlPres (if c then x else y) := by
  by_cases hc : c
  · rw [if_pos hc]
    exact hx
  · rw [if_neg hc]
    exact hy

theorem AlPres_modifyS (f : SState → SState)
    (hf : ∀ s, (f s).vars = s.vars ∧
      (f s).referenced_variables = s.referenced_variables) :
    AlPres (modifyS f) :=
  AlPres_of_tables (fun s => by rw [runSt_modifyS]; exact hf s)

theorem WK_ref_insert (s : SState) (k : Nat) (e : RefEntry)
    (hc : containsA s.referenced_variables k = true) (hs : WellKeyed s) :
    WellKeyed { s with referenced_variables := insertA s.referenced_variables k e } := by
  obtain ⟨hn₁, hn₂, ha⟩ := hs
  refine ⟨hn₁, nodup_keysA_insertA _ _ _ hn₂, ?_⟩
  intro k₀
  show containsA s.vars k₀ = containsA (insertA s.referenced_variables k e) k₀
  rw [containsA_insertA]
  by_cases h : k = k₀
  · subst h
    simp [ha k, hc]
  · simp [h, ha k₀]

theorem WK_var_insert (s : SState) (k : Nat) (a : VarAttrs)
    (hc : containsA s.vars k = true) (hs : WellKeyed s) :
    WellKeyed { s with vars := insertA s.vars k a } := by
  obtain ⟨hn₁, hn₂, ha⟩ := hs
  refine ⟨nodup_keysA_insertA _ _ _ hn₁, hn₂, ?_⟩
  intro k₀
  show containsA (insertA s.vars k a) k₀ = containsA s.referenced_variables k₀
  rw [containsA_insertA]
  by_cases h : k = k₀
  · subst h
    simp [← ha k, hc]
  · simp [h, ha k₀]

theorem WK_insert_pair (s : SState) (v : Nat) (e : RefEntry) (a : VarAttrs)
    (hs : WellKeyed s) :
    WellKeyed { s with
      referenced_variables := insertA s.referenced_variables v e
      vars := insertA s.vars v a } := by
  obtain ⟨hn₁, hn₂, ha⟩ := hs
  refine ⟨nodup_keysA_insertA _ _ _ hn₁, nodup_keysA_insertA _ _ _ hn₂, ?_⟩
  intro k₀
  show containsA (insertA s.vars v a) k₀
    = containsA (insertA s.referenced_variables v e) k₀
  rw [containsA_insertA, containsA_insertA, ha k₀]

theorem WK_erase_pair (s : SState) (v : Nat) (hs : WellKeyed s) :
    WellKeyed { s with
      referenced_variables := eraseA s.referenced_variables v
      vars := eraseA s.vars v } := by
  obtain ⟨hn₁, hn₂, ha⟩ := hs
  refine ⟨nodup_keysA_eraseA _ _ hn₁, nodup_keysA_eraseA _ _ hn₂, ?_⟩
  intro k₀
  show containsA (eraseA s.vars v) k₀
    = containsA (eraseA s.referenced_variables v) k₀
  by_cases h : v = k₀
  · subst h
    rw [containsA_eraseA_self _ _ hn₁, containsA_eraseA_self _ _ hn₂]
  · rw [containsA, lookupA_eraseA_ne _ _ _ h, containsA,
      lookupA_eraseA_ne _ _ _ h]
    exact ha k₀

theorem AlPres_bind_getS {β : Type} {f : SState → M β}
    (hf : ∀ s, WellKeyed s → WellKeyed (runSt (f s) s)) : AlPres (getS >>= f) := by
  intro s hs
  have h : runSt (getS >>= f) s = runSt (f s) s := by
    rw [runSt_bind]
    simp only [runRes_getS, runSt_getS]
  rw [h]
  exact hf s hs

theorem AlPres_ite_bind {α β : Type} (c : Prop) [Decidable c] {x y : M α}
    {g : α → M β} (hx : AlPres x) (hy : AlPres y) (hg : ∀ a, AlPres (g a)) :
    AlPres (if c then (x >>= g) else (y >>= g)) :=
  AlPres_ite c (AlPres_bind hx hg) (AlPres_bind hy hg)

theorem AlPres_addVariablesLoop (l : List Nat) : AlPres (addVariablesLoop l) := by
  induction l with
  | nil =>
      rw [addVariablesLoop]
      exact AlPres_pure ()
  | cons v rest ih =>
      rw [addVariablesLoop]
      refine AlPres_bind_getS (fun s₀ hs₀ => ?_)
      by_cases hc : containsA s₀.referenced_variables v = true
      · rw [if_pos hc, runSt_throwE]
        exact hs₀
      · rw [if_neg hc]
        rw [runSt_bind]
        simp only [runRes_setS, runSt_setS]
        exact ih _ (WK_insert_pair s₀ v {} (s₀.model.varAttrs v) hs₀)

theorem AlPres_add_variables (vids : List Nat) : AlPres (add_variables vids) := by
  rw [add_variables]
  exact AlPres_bind (AlPres_addVariablesLoop vids)
    (fun _ => AlPres_backendCall _ _)

theorem AlPres_check_for_new_vars (vids : List Nat) :
    AlPres (check_for_new_vars vids) := by
  rw [check_for_new_vars]
  exact AlPres_bind AlPres_getS (fun a => AlPres_add_variables _)

theorem AlPres_removeVariablesLoop (l : List Nat) :
    AlPres (removeVariablesLoop l) := by
  induction l with
  | nil =>
      rw [removeVariablesLoop]
      exact AlPres_pure ()
  | cons v rest ih =>
      rw [removeVariablesLoop]
      refine AlPres_bind_getS (fun s₀ hs₀ => ?_)
      cases hl : lookupA s₀.referenced_variables v with
      | none =>
          simp only [hl, runSt_throwE]
          exact hs₀
      | some e =>
          simp only [hl]
          by_cases he : e.rcons ≠ [] ∨ e.rsos ≠ [] ∨ e.robj ≠ none
          · rw [if_pos he, runSt_throwE]
            exact hs₀
          · rw [if_neg he]
            have hcv : containsA { s₀ with referenced_variables := eraseA s₀.referenced_variables v }.vars v = true := by
              show containsA s₀.vars v = true
              rw [hs₀.2.2 v, containsA, hl]
              rfl
            rw [if_pos hcv]
            rw [runSt_bind]
            simp only [runRes_setS, runSt_setS]
            exact ih _ (WK_erase_pair s₀ v hs₀)

theorem AlPres_remove_variables (vids : List Nat) :
    AlPres (remove_variables vids) := by
  rw [remove_variables]
  exact AlPres_bind (AlPres_backendCall _ _)
    (fun _ => AlPres_removeVariablesLoop vids)

theorem AlPres_checkToRemoveLoop (l acc : List Nat) :
    AlPres (checkToRemoveLoop l acc) :=
  AlPres_of_tables (fun s => by rw [ctr_state]; exact ⟨rfl, rfl⟩)

theorem AlPres_check_to_remove_vars (vids : List Nat) :
    AlPres (check_to_remove_vars vids) := by
  rw [check_to_remove_vars]
  exact AlPres_bind (AlPres_checkToRemoveLoop vids [])
    (fun a => AlPres_remove_variables a)

theorem AlPres_linkConVar (key : ConKey) (v : Nat) : AlPres (linkConVar key v) := by
  rw [linkConVar]
  refine AlPres_bind_getS (fun s₀ hs₀ => ?_)
  cases hl : lookupA s₀.referenced_variables v with
  | none =>
      simp only [hl, runSt_throwE]
      exact hs₀
  | some e =>
      simp only [hl, runSt_setS]
      refine WK_ref_insert s₀ v _ ?_ hs₀
      rw [containsA, hl]
      rfl

theorem AlPres_linkConVars (key : ConKey) (l : List Nat) :
    AlPres (linkConVars key l) := by
  induction l with
  | nil =>
      rw [linkConVars]
      exact AlPres_pure ()
  | cons v rest ih =>
      rw [linkConVars]
      exact AlPres_bind (AlPres_linkConVar key v) (fun _ => ih)

theorem AlPres_linkSosVar (key : ConKey) (v : Nat) : AlPres (linkSosVar key v) := by
  rw [linkSosVar]
  refine AlPres_bind_getS (fun s₀ hs₀ => ?_)
  cases hl : lookupA s₀.referenced_variables v with
  | none =>
      simp only [hl, runSt_throwE]
      exact hs₀
  | some e =>
      simp only [hl, runSt_setS]
      refine WK_ref_insert s₀ v _ ?_ hs₀
      rw [containsA, hl]
      rfl

theorem AlPres_linkSosVars (key : ConKey) (l : List Nat) :
    AlPres (linkSosVars key l) := by
  induction l with
  | nil =>
      rw [linkSosVars]
      exact AlPres_pure ()
  | cons v rest ih =>
      rw [linkSosVars]
      exact AlPres_bind (AlPres_linkSosVar key v) (fun _ => ih)

theorem AlPres_refUnlinkCon (key : ConKey) (v : Nat) :
    AlPres (refUnlinkCon key v) := by
  rw [refUnlinkCon]
  refine AlPres_bind_getS (fun s₀ hs₀ => ?_)
  cases hl : lookupA s₀.referenced_variables v with
  | none =>
      simp only [hl, runSt_throwE]
      exact hs₀
  | some e =>
      simp only [hl]
      by_cases hk : key ∈ e.rcons
      · rw [if_pos hk, runSt_setS]
        refine WK_ref_insert s₀ v _ ?_ hs₀
        rw [containsA, hl]
        rfl
      · rw [if_neg hk, runSt_throwE]
        exact hs₀

theorem AlPres_unlinkConVars (key : ConKey) (l : List Nat) :
    AlPres (unlinkConVars key l) := by
  induction l with
  | nil =>
      rw [unlinkConVars]
      exact AlPres_pure ()
  | cons v rest ih =>
      rw [unlinkConVars]
      exact AlPres_bind (AlPres_refUnlinkCon key v) (fun _ => ih)

theorem AlPres_refUnlinkSos (key : ConKey) (v : Nat) :
    AlPres (refUnlinkSos key v) := by
  rw [refUnlinkSos]
  refine AlPres_bind_getS (fun s₀ hs₀ => ?_)
  cases hl : lookupA s₀.referenced_variables v with
  | none =>
      simp only [hl, runSt_throwE]
      exact hs₀
  | some e =>
      simp only [hl]
      by_cases hk : key ∈ e.rsos
      · rw [if_pos hk, runSt_setS]
        refine WK_ref_insert s₀ v _ ?_ hs₀
        rw [containsA, hl]
        rfl
      · rw [if_neg hk, runSt_throwE]
        exact hs₀

theorem AlPres_unlinkSosVars (key : ConKey) (l : List Nat) :
    AlPres (unlinkSosVars key l) := by
  induction l with
  | nil =>
      rw [unlinkSosVars]
      exact AlPres_pure ()
  | cons v rest ih =>
      rw [unlinkSosVars]
      exact AlPres_bind (AlPres_refUnlinkSos key v) (fun _ => ih)

theorem AlPres_setObjRef (o : Option Nat) (v : Nat) : AlPres (setObjRef o v) := by
  rw [setObjRef]
  refine AlPres_bind_getS (fun s₀ hs₀ => ?_)
  cases hl : lookupA s₀.referenced_variables v with
  | none =>
      simp only [hl, runSt_throwE]
      exact hs₀
  | some e =>
      simp only [hl, runSt_setS]
      refine WK_ref_insert s₀ v _ ?_ hs₀
      rw [containsA, hl]
      rfl

theorem AlPres_setObjRefs (o : Option Nat) (l : List Nat) :
    AlPres (setObjRefs o l) := by
  induction l with
  | nil =>
      rw [setObjRefs]
      exact AlPres_pure ()
  | cons v rest ih =>
      rw [setObjRefs]
      exact AlPres_bind (AlPres_setObjRef o v) (fun _ => ih)

theorem AlPres_delActiveCon (key : ConKey) : AlPres (delActiveCon key) := by
  rw [delActiveCon]
  refine AlPres_bind_getS (fun s₀ hs₀ => ?_)
  by_cases hc : containsA s₀.active_constraints key = true
  · rw [if_pos hc, runSt_setS]
    exact hs₀
  · rw [if_neg hc, runSt_throwE]
    exact hs₀

theorem AlPres_delNamedExpr (key : ConKey) : AlPres (delNamedExpr key) := by
  rw [delNamedExpr]
  refine AlPres_bind_getS (fun s₀ hs₀ => ?_)
  by_cases hc : containsA s₀.named_expressions key = true
  · rw [if_pos hc, runSt_setS]
    exact hs₀
  · rw [if_neg hc, runSt_throwE]
    exact hs₀

theorem AlPres_delVarsByCon (key : ConKey) : AlPres (delVarsByCon key) := by
  rw [delVarsByCon]
  refine AlPres_bind_getS (fun s₀ hs₀ => ?_)
  by_cases hc : containsA s₀.vars_referenced_by_con key = true
  · rw [if_pos hc, runSt_setS]
    exact hs₀
  · rw [if_neg hc, runSt_throwE]
    exact hs₀

theorem AlPres_popExternal (k : EFKey) : AlPres (popExternal k) :=
  AlPres_of_tables (fun s => ⟨rfl, rfl⟩)

theorem AlPres_unfixAll (l : List Nat) : AlPres (unfixAll l) :=
  AlPres_of_tables (fun s => by
    rw [(unfixAll_run l s).2.2.1]
    exact ⟨rfl, rfl⟩)

theorem AlPres_fixAll (l : List Nat) : AlPres (fixAll l) :=
  AlPres_of_tables (fun s => by
    rw [(fixAll_run l s).2.2.1]
    exact ⟨rfl, rfl⟩)

theorem AlPres_removeParamsLoop (l : List Nat) : AlPres (removeParamsLoop l) := by
  induction l with
  | nil =>
      rw [removeParamsLoop]
      exact AlPres_pure ()
  | cons p rest ih =>
      rw [removeParamsLoop]
      refine AlPres_bind_getS (fun s₀ hs₀ => ?_)
      by_cases hc : p ∈ s₀.params
      · rw [if_pos hc]
        rw [runSt_bind]
        simp only [runRes_setS, runSt_setS]
        exact ih _ hs₀
      · rw [if_neg hc, runSt_throwE]
        exact hs₀

theorem AlPres_remove_params (pids : List Nat) : AlPres (remove_params pids) := by
  rw [remove_params]
  exact AlPres_bind (AlPres_backendCall _ _) (fun _ => AlPres_removeParamsLoop pids)

theorem AlPres_add_params (pids : List Nat) : AlPres (add_params pids) := by
  rw [add_params]
  exact AlPres_bind (AlPres_modifyS _ (fun s => ⟨rfl, rfl⟩))
    (fun _ => AlPres_backendCall _ _)

theorem AlPres_update_params : AlPres update_params := by
  rw [update_params]
  exact AlPres_backendCall _ _

theorem AlPres_addConOne (con : SCon) : AlPres (addConOne con) := by
  rw [addConOne]
  refine AlPres_bind AlPres_getS (fun s₀ => ?_)
  refine AlPres_ite _ (AlPres_throwE _) ?_
  refine AlPres_bind (AlPres_modifyS _ (fun s => ⟨rfl, rfl⟩)) (fun _ => ?_)
  refine AlPres_bind AlPres_getS (fun s₁ => ?_)
  refine AlPres_ite_bind _ (AlPres_check_for_new_vars _) (AlPres_pure ())
    (fun _ => ?_)
  refine AlPres_bind (AlPres_modifyS _ (fun s => ⟨rfl, rfl⟩)) (fun _ => ?_)
  refine AlPres_ite_bind _ (AlPres_modifyS _ (fun s => ⟨rfl, rfl⟩))
    (AlPres_pure ()) (fun _ => ?_)
  refine AlPres_bind (AlPres_modifyS _ (fun s => ⟨rfl, rfl⟩)) (fun _ => ?_)
  refine AlPres_bind (AlPres_linkConVars _ _) (fun _ => ?_)
  refine AlPres_bind AlPres_getS (fun s₂ => ?_)
  refine AlPres_ite _ ?_ (AlPres_pure _)
  exact AlPres_bind (AlPres_unfixAll _) (fun _ => AlPres_pure _)

theorem AlPres_addConstraintsLoop (l : List SCon) :
    ∀ acc, AlPres (addConstraintsLoop l acc) := by
  induction l with
  | nil =>
      intro acc
      rw [addConstraintsLoop]
      exact AlPres_pure _
  | cons con rest ih =>
      intro acc
      rw [addConstraintsLoop]
      exact AlPres_bind (AlPres_addConOne con) (fun fv => ih _)

theorem AlPres_add_constraints (cons : List SCon) : AlPres (add_constraints cons) := by
  rw [add_constraints]
  refine AlPres_bind (AlPres_addConstraintsLoop cons []) (fun allFixed => ?_)
  exact AlPres_bind (AlPres_backendCall _ _) (fun _ => AlPres_fixAll _)

theorem AlPres_addSosLoop (l : List SSos) : AlPres (addSosLoop l) := by
  induction l with
  | nil =>
      rw [addSosLoop]
      exact AlPres_pure ()
  | cons con rest ih =>
      rw [addSosLoop]
      refine AlPres_bind AlPres_getS (fun s₀ => ?_)
      refine AlPres_ite _ (AlPres_throwE _) ?_
      refine AlPres_bind (AlPres_modifyS _ (fun s => ⟨rfl, rfl⟩)) (fun _ => ?_)
      refine AlPres_bind AlPres_getS (fun s₁ => ?_)
      refine AlPres_ite_bind _ (AlPres_check_for_new_vars _) (AlPres_pure ())
        (fun _ => ?_)
      refine AlPres_bind (AlPres_modifyS _ (fun s => ⟨rfl, rfl⟩)) (fun _ => ?_)
      refine AlPres_bind (AlPres_modifyS _ (fun s => ⟨rfl, rfl⟩)) (fun _ => ?_)
      exact AlPres_bind (AlPres_linkSosVars _ _) (fun _ => ih)

theorem AlPres_add_sos_constraints (cons : List SSos) :
    AlPres (add_sos_constraints cons) := by
  rw [add_sos_constraints]
  exact AlPres_bind (AlPres_addSosLoop cons) (fun _ => AlPres_backendCall _ _)

theorem AlPres_removeConstraintsLoop (l : List Nat) :
    AlPres (removeConstraintsLoop l) := by
  induction l with
  | nil =>
      rw [removeConstraintsLoop]
      exact AlPres_pure ()
  | cons cid rest ih =>
      rw [removeConstraintsLoop]
      refine AlPres_bind AlPres_getS (fun s₀ => ?_)
      refine AlPres_ite _ (AlPres_throwE _) ?_
      cases hl : lookupA s₀.vars_referenced_by_con (ConKey.reg cid) with
      | none =>
          exact AlPres_throwE _
      | some vs =>
          refine AlPres_bind (AlPres_unlinkConVars _ _) (fun _ => ?_)
          refine AlPres_bind AlPres_getS (fun s₁ => ?_)
          refine AlPres_ite_bind _ (AlPres_check_to_remove_vars _)
            (AlPres_pure ()) (fun _ => ?_)
          refine AlPres_bind (AlPres_delActiveCon _) (fun _ => ?_)
          refine AlPres_bind (AlPres_delNamedExpr _) (fun _ => ?_)
          refine AlPres_bind (AlPres_popExternal _) (fun _ => ?_)
          exact AlPres_bind (AlPres_delVarsByCon _) (fun _ => ih)

theorem AlPres_remove_constraints (cids : List Nat) :
    AlPres (remove_constraints cids) := by
  rw [remove_constraints]
  exact AlPres_bind (AlPres_backendCall _ _)
    (fun _ => AlPres_removeConstraintsLoop cids)

theorem AlPres_removeSosLoop (l : List Nat) : AlPres (removeSosLoop l) := by
  induction l with
  | nil =>
      rw [removeSosLoop]
      exact AlPres_pure ()
  | cons sid rest ih =>
      rw [removeSosLoop]
      refine AlPres_bind AlPres_getS (fun s₀ => ?_)
      refine AlPres_ite _ (AlPres_throwE _) ?_
      cases hl : lookupA s₀.vars_referenced_by_con (ConKey.sos sid) with
      | none =>
          exact AlPres_throwE _
      | some vs =>
          refine AlPres_bind (AlPres_unlinkSosVars _ _) (fun _ => ?_)
          refine AlPres_bind (AlPres_check_to_remove_vars _) (fun _ => ?_)
          refine AlPres_bind (AlPres_delActiveCon _) (fun _ => ?_)
          refine AlPres_bind (AlPres_delNamedExpr _) (fun _ => ?_)
          exact AlPres_bind (AlPres_delVarsByCon _) (fun _ => ih)

theorem AlPres_remove_sos_constraints (sids : List Nat) :
    AlPres (remove_sos_constraints sids) := by
  rw [remove_sos_constraints]
  exact AlPres_bind (AlPres_backendCall _ _) (fun _ => AlPres_removeSosLoop sids)

theorem conDiff_state (l : List SCon) : ∀ (acc : List (Nat × SCon)) (s : SState),
    runSt (conDiffLoop l acc) s = s := by
  induction l with
  | nil =>
      intro acc s
      rfl
  | cons c rest ih =>
      intro acc s
      rw [conDiffLoop]
      rw [runSt_bind]
      simp only [runRes_getS, runSt_getS]
      cases hl : lookupA s.active_constraints (ConKey.reg c.cid) with
      | none => simp [hl]
      | some snap =>
          cases snap with
          | none => simp [hl]
          | some q =>
              simp only [hl]
              by_cases hcc : conChanged q c = true
              · rw [if_pos hcc]
                exact ih _ s
              · rw [if_neg hcc]
                exact ih _ s

theorem AlPres_conDiffLoop (l : List SCon) (acc : List (Nat × SCon)) :
    AlPres (conDiffLoop l acc) :=
  AlPres_of_tables (fun s => by rw [conDiff_state]; exact ⟨rfl, rfl⟩)

theorem AlPres_set_objective (obj : Option SObj) : AlPres (set_objective obj) := by
  rw [set_objective.eq_def]
  refine AlPres_bind AlPres_getS (fun a => ?_)
  have hSEC : AlPres (match obj with
    | some o => do
        modifyS fun s => { s with
          objective := some o.oid
          objective_expr := some o.oexprId
          objective_sense := some o.osense }
        let s₂ ← getS
        let r := collect_vars_and_named_exprs
          (fun v => (s₂.model.varAttrs v).vfixed) o.oexpr
        if ¬ s₂.only_child_vars then check_for_new_vars r.vars else pure ()
        modifyS fun s => { s with obj_named_expressions := r.named_expressions }
        if r.external_functions ≠ [] then
          modifyS fun s =>
            { s with external_functions := insertA s.external_functions (.objK o.oid) r.external_functions }
        else pure ()
        modifyS fun s => { s with vars_referenced_by_obj := r.vars }
        setObjRefs (some o.oid) r.vars
        let s₃ ← getS
        if ¬ s₃.config.treat_fixed_vars_as_params then unfixAll r.fixed_vars
        else pure ()
        backendCall (.setObjective (some o.oid)) (fun s => s.fails.fSetObjective)
        fixAll r.fixed_vars
    | none => do
        modifyS fun s => { s with
          vars_referenced_by_obj := []
          objective := none
          objective_expr := none
          objective_sense := none
          obj_named_expressions := [] }
        backendCall (.setObjective none) (fun s => s.fails.fSetObjective)) := by
    cases obj with
    | some o =>
        refine AlPres_bind (AlPres_modifyS _ (fun s => ⟨rfl, rfl⟩)) (fun _ => ?_)
        refine AlPres_bind AlPres_getS (fun s₂ => ?_)
        refine AlPres_ite_bind _ (AlPres_check_for_new_vars _) (AlPres_pure ())
          (fun _ => ?_)
        refine AlPres_bind (AlPres_modifyS _ (fun s => ⟨rfl, rfl⟩)) (fun _ => ?_)
        refine AlPres_ite_bind _ (AlPres_modifyS _ (fun s => ⟨rfl, rfl⟩))
          (AlPres_pure ()) (fun _ => ?_)
        refine AlPres_bind (AlPres_modifyS _ (fun s => ⟨rfl, rfl⟩)) (fun _ => ?_)
        refine AlPres_bind (AlPres_setObjRefs _ _) (fun _ => ?_)
        refine AlPres_bind AlPres_getS (fun s₃ => ?_)
        refine AlPres_ite_bind _ (AlPres_unfixAll _) (AlPres_pure ())
          (fun _ => ?_)
        exact AlPres_bind (AlPres_backendCall _ _) (fun _ => AlPres_fixAll _)
    | none =>
        refine AlPres_bind (AlPres_modifyS _ (fun s => ⟨rfl, rfl⟩)) (fun _ => ?_)
        exact AlPres_backendCall _ _
  cases ho : a.objective with
  | some oldOid =>
      refine AlPres_bind (AlPres_setObjRefs _ _) (fun _ => ?_)
      refine AlPres_bind AlPres_getS (fun s₁ => ?_)
      refine AlPres_ite _ ?_ ?_
      · exact AlPres_bind (AlPres_check_to_remove_vars _)
          (fun _ => AlPres_bind (AlPres_popExternal _) (fun _ => hSEC))
      · exact AlPres_bind (AlPres_pure ())
          (fun _ => AlPres_bind (AlPres_popExternal _) (fun _ => hSEC))
  | none =>
      exact AlPres_bind (AlPres_pure ()) (fun _ => hSEC)

theorem varDiff_state (l : List Nat) :
    ∀ (p : List Nat × List (Nat × SCon) × Bool) (s : SState),
    runSt (varDiffLoop l p) s = s := by
  induction l with
  | nil =>
      intro p s
      obtain ⟨upd, acc, need⟩ := p
      rfl
  | cons v rest ih =>
      intro p s
      obtain ⟨upd, acc, need⟩ := p
      rw [varDiffLoop]
      rw [runSt_bind]
      simp only [runRes_getS, runSt_getS]
      cases hl : lookupA s.vars v with
      | none => simp [hl]
      | some snap =>
          simp only [hl]
          split
          · exact ih _ s
          · split
            · exact ih _ s
            · split
              · split
                · split
                  · rfl
                  · exact ih _ s
                · exact ih _ s
              · split
                · exact ih _ s
                · exact ih _ s

theorem varDiff_upd (l : List Nat) :
    ∀ (p : List Nat × List (Nat × SCon) × Bool) (s : SState)
      (out : List Nat × List (Nat × SCon) × Bool),
    runRes (varDiffLoop l p) s = .ok out →
    ∀ v ∈ out.1, v ∈ p.1 ∨ containsA s.vars v = true := by
  induction l with
  | nil =>
      intro p s out h v hv
      obtain rfl : p = out := Except.ok.inj h
      exact Or.inl hv
  | cons w rest ih =>
      intro p s out h v hv
      obtain ⟨upd, acc, need⟩ := p
      have hcw : containsA s.vars w = true → (v ∈ upd ++ [w] → v ∈ upd ∨
          containsA s.vars v = true) := by
        intro hw hm
        rcases List.mem_append.mp hm with h₀ | h₀
        · exact Or.inl h₀
        · have : v = w := by simpa using h₀
          subst this
          exact Or.inr hw
      rw [varDiffLoop] at h
      rw [runRes_bind] at h
      simp only [runRes_getS, runSt_getS] at h
      cases hl : lookupA s.vars w with
      | none =>
          simp only [hl, runRes_throwE] at h
          simp at h
      | some snap =>
          have hw : containsA s.vars w = true := by
            rw [containsA, hl]
            rfl
          simp only [hl] at h
          split at h
          · rcases ih _ s out h v hv with h₀ | h₀
            · exact (hcw hw h₀).imp id id
            · exact Or.inr h₀
          · split at h
            · rcases ih _ s out h v hv with h₀ | h₀
              · exact (hcw hw h₀).imp id id
              · exact Or.inr h₀
            · split at h
              · split at h
                · split at h
                  · simp at h
                  · rcases ih _ s out h v hv with h₀ | h₀
                    · exact (hcw hw h₀).imp id id
                    · exact Or.inr h₀
                · rcases ih _ s out h v hv with h₀ | h₀
                  · exact (hcw hw h₀).imp id id
                  · exact Or.inr h₀
              · split at h
                · rcases ih _ s out h v hv with h₀ | h₀
                  · exact (hcw hw h₀).imp id id
                  · exact Or.inr h₀
                · rcases ih _ s out h v hv with h₀ | h₀
                  · exact Or.inl h₀
                  · exact Or.inr h₀

theorem foldl_insertA_contains (g : Nat → VarAttrs) : ∀ (l : List Nat)
    (t : List (Nat × VarAttrs)), (∀ v ∈ l, containsA t v = true) →
    (∀ k, containsA (l.foldl (fun t v => insertA t v (g v)) t) k = containsA t k) ∧
    ((keysA t).Nodup →
      (keysA (l.foldl (fun t v => insertA t v (g v)) t)).Nodup) := by
  intro l
  induction l with
  | nil =>
      intro t _
      exact ⟨fun k => rfl, fun h => h⟩
  | cons v rest ih =>
      intro t hmem
      rw [List.foldl_cons]
      have hv : containsA t v = true := hmem v (List.mem_cons_self v rest)
      have hpt : ∀ k, containsA (insertA t v (g v)) k = containsA t k := by
        intro k
        rw [containsA_insertA]
        by_cases h : v = k
        · subst h
          simp [hv]
        · simp [h]
      have hmem' : ∀ u ∈ rest, containsA (insertA t v (g v)) u = true := by
        intro u hu
        rw [hpt u]
        exact hmem u (List.mem_cons_of_mem v hu)
      obtain ⟨ih₁, ih₂⟩ := ih _ hmem'
      refine ⟨?_, ?_⟩
      · intro k
        rw [ih₁ k, hpt k]
      · intro hn
        exact ih₂ (nodup_keysA_insertA _ _ _ hn)

/-- `update_variables` preserves the table alignment whenever every listed
variable already holds a snapshot record. -/
theorem WK_update_variables (vids : List Nat) (s : SState)
    (hv : ∀ v ∈ vids, containsA s.vars v = true) (hs : WellKeyed s) :
    WellKeyed (runSt (update_variables vids) s) := by
  rw [update_variables]
  rw [runSt_bind]
  simp only [runRes_modifyS, runSt_modifyS, runSt_backendCall]
  obtain ⟨hn₁, hn₂, ha⟩ := hs
  obtain ⟨hpt, hnd⟩ := foldl_insertA_contains (fun v => s.model.varAttrs v)
    vids s.vars hv
  refine ⟨hnd hn₁, hn₂, ?_⟩
  intro k
  show containsA (vids.foldl (fun t v => insertA t v (s.model.varAttrs v))
    s.vars) k = containsA s.referenced_variables k
  rw [hpt k]
  exact ha k

theorem AlPres_updateObjPhase (cfg : UpdateConfig) (need₁ : Bool)
    (old_vars : List Nat) :
    AlPres (do
      let s₄ ← getS
      let pyomo_obj :=
        if cfg.check_for_new_objective then s₄.model.mobj else trackedObjAsSObj s₄
      let need₂ := need₁ ||
        (cfg.check_for_new_objective && decide (pyomo_obj.map SObj.oid ≠ s₄.objective))
      let need₃ := need₂ ||
        (cfg.update_objective &&
          (match pyomo_obj with
           | some o =>
               decide (some o.oexprId ≠ s₄.objective_expr) ||
                 decide (some o.osense ≠ s₄.objective_sense)
           | none => false))
      if need₃ then set_objective pyomo_obj else pure ()
      remove_variables old_vars) := by
  refine AlPres_bind AlPres_getS (fun s₄ => ?_)
  refine AlPres_ite_bind _ (AlPres_set_objective _) (AlPres_pure ()) (fun _ => ?_)
  exact AlPres_remove_variables _

theorem AlPres_updateTail (cfg : UpdateConfig) (consRA : List (Nat × SCon))
    (need₀ : Bool) (newConIds : List Nat) (old_vars : List Nat) :
    AlPres (do
      remove_constraints (consRA.map Prod.fst)
      add_constraints (consRA.map Prod.snd)
      let s₃ ← getS
      let neCons := if cfg.update_named_expressions then namedDiffCons s₃ newConIds else []
      if cfg.update_named_expressions then do
        remove_constraints neCons
        add_constraints (neCons.map (modelConOfId s₃))
      else pure ()
      let need₁ := need₀ ||
        (cfg.update_named_expressions &&
          s₃.obj_named_expressions.any (fun q => decide (s₃.model.nexprCurrent q.1 q.2 ≠ q.2)))
      let s₄ ← getS
      let pyomo_obj :=
        if cfg.check_for_new_objective then s₄.model.mobj else trackedObjAsSObj s₄
      let need₂ := need₁ ||
        (cfg.check_for_new_objective && decide (pyomo_obj.map SObj.oid ≠ s₄.objective))
      let need₃ := need₂ ||
        (cfg.update_objective &&
          (match pyomo_obj with
           | some o =>
               decide (some o.oexprId ≠ s₄.objective_expr) ||
                 decide (some o.osense ≠ s₄.objective_sense)
           | none => false))
      if need₃ then set_objective pyomo_obj else pure ()
      remove_variables old_vars) := by
  refine AlPres_bind (AlPres_remove_constraints _) (fun _ => ?_)
  refine AlPres_bind (AlPres_add_constraints _) (fun _ => ?_)
  refine AlPres_bind AlPres_getS (fun s₃ => ?_)
  refine AlPres_ite _ ?_ ?_
  · refine AlPres_bind (AlPres_remove_constraints _) (fun _ => ?_)
    refine AlPres_bind (AlPres_add_constraints _) (fun y => ?_)
    exact AlPres_updateObjPhase cfg _ old_vars
  · refine AlPres_bind (AlPres_pure ()) (fun y => ?_)
    exact AlPres_updateObjPhase cfg _ old_vars

theorem WK_bind_varphase {g : List Nat × List (Nat × SCon) × Bool → M Unit}
    (c : Prop) [Decidable c]
    (vtc : List Nat) (c₁ : List (Nat × SCon)) (b : Bool) (s : SState)
    (hs : WellKeyed s)
    (hg : ∀ a, (∀ v ∈ a.1, containsA s.vars v = true) →
      WellKeyed (runSt (g a) s)) :
    WellKeyed (runSt (if c then (varDiffLoop vtc ([], c₁, b) >>= g)
      else (pure ([], c₁, b) >>= g)) s) := by
  by_cases hc : c
  · rw [if_pos hc]
    cases hr : runRes (varDiffLoop vtc ([], c₁, b)) s with
    | error e =>
        obtain ⟨-, hst, -⟩ := run_bind_error hr
        rw [hst, varDiff_state]
        exact hs
    | ok a =>
        obtain ⟨-, hst, -⟩ := run_bind_ok hr
        rw [hst, varDiff_state]
        refine hg a ?_
        intro v hv
        rcases varDiff_upd vtc _ s a hr v hv with h₀ | h₀
        · exact absurd h₀ (List.not_mem_nil v)
        · exact h₀
  · rw [if_neg hc]
    have h : runSt (pure ([], c₁, b) >>= g) s = runSt (g ([], c₁, b)) s := by
      rw [runSt_bind]
      simp only [runRes_pure, runSt_pure]
    rw [h]
    exact hg _ (fun v hv => absurd hv (List.not_mem_nil v))

theorem WK_bind_updvars {g : Unit → M Unit} (c : Prop) [Decidable c]
    (vtu : List Nat) (s : SState) (hs : WellKeyed s)
    (hv : ∀ v ∈ vtu, containsA s.vars v = true)
    (hg : ∀ st, WellKeyed st → WellKeyed (runSt (g ()) st)) :
    WellKeyed (runSt (if c then (update_variables vtu >>= g)
      else (pure () >>= g)) s) := by
  by_cases hc : c
  · rw [if_pos hc]
    cases hr : runRes (update_variables vtu) s with
    | error e =>
        obtain ⟨-, hst, -⟩ := run_bind_error hr
        rw [hst]
        exact WK_update_variables vtu s hv hs
    | ok u =>
        obtain ⟨-, hst, -⟩ := run_bind_ok hr
        rw [hst]
        exact hg _ (WK_update_variables vtu s hv hs)
  · rw [if_neg hc]
    have h : runSt (pure () >>= g) s = runSt (g ()) s := by
      rw [runSt_bind]
      simp only [runRes_pure, runSt_pure]
    rw [h]
    exact hg s hs

theorem AlPres_updateVarPhase (cfg : UpdateConfig)
    (start_vars current_var_ids new_vars newConIds old_vars : List Nat)
    (consRA₁ : List (Nat × SCon)) :
    AlPres (do
      let s₂ ← getS
      let vars_to_check :=
        if s₂.only_child_vars ∧ cfg.update_vars then
          current_var_ids.filter (fun v => v ∉ new_vars)
        else if cfg.update_vars then
          (keysA s₂.vars).filter (fun v => v ∈ start_vars)
        else []
      let (vars_to_update, consRA, need₀) ←
        if cfg.update_vars then varDiffLoop vars_to_check ([], consRA₁, false)
        else pure ([], consRA₁, false)
      if cfg.update_vars then update_variables vars_to_update else pure ()
      remove_constraints (consRA.map Prod.fst)
      add_constraints (consRA.map Prod.snd)
      let s₃ ← getS
      let neCons := if cfg.update_named_expressions then namedDiffCons s₃ newConIds else []
      if cfg.update_named_expressions then do
        remove_constraints neCons
        add_constraints (neCons.map (modelConOfId s₃))
      else pure ()
      let need₁ := need₀ ||
        (cfg.update_named_expressions &&
          s₃.obj_named_expressions.any (fun q => decide (s₃.model.nexprCurrent q.1 q.2 ≠ q.2)))
      let s₄ ← getS
      let pyomo_obj :=
        if cfg.check_for_new_objective then s₄.model.mobj else trackedObjAsSObj s₄
      let need₂ := need₁ ||
        (cfg.check_for_new_objective && decide (pyomo_obj.map SObj.oid ≠ s₄.objective))
      let need₃ := need₂ ||
        (cfg.update_objective &&
          (match pyomo_obj with
           | some o =>
               decide (some o.oexprId ≠ s₄.objective_expr) ||
                 decide (some o.osense ≠ s₄.objective_sense)
           | none => false))
      if need₃ then set_objective pyomo_obj else pure ()
      remove_variables old_vars) := by
  refine AlPres_bind_getS (fun s₂ hs₂ => ?_)
  refine WK_bind_varphase _ _ _ _ s₂ hs₂ (fun a ha => ?_)
  obtain ⟨vtu, consRA, need₀⟩ := a
  refine WK_bind_updvars _ vtu s₂ hs₂ ha (fun st hst => ?_)
  exact AlPres_updateTail cfg consRA need₀ newConIds old_vars st hst

theorem AlPres_updateBody (cfg : UpdateConfig)
    (new_vars old_vars current_var_ids start_vars : List Nat)
    (new_params old_params : List Nat)
    (new_cons : List SCon) (new_sos : List SSos) (old_cons old_sos : List Nat) :
    AlPres (do
      remove_constraints old_cons
      remove_sos_constraints old_sos
      remove_params old_params
      if cfg.update_params then update_params else pure ()
      add_params new_params
      add_variables new_vars
      add_constraints new_cons
      add_sos_constraints new_sos
      let newConIds := new_cons.map SCon.cid
      let newSosIds := new_sos.map SSos.sid
      let consRA₁ ←
        if cfg.update_constraints then do
          let s₁ ← getS
          let cons_to_update := s₁.model.mcons.filter (fun c => c.cid ∉ newConIds)
          let sos_to_update := s₁.model.msos.filter (fun c => c.sid ∉ newSosIds)
          let acc ← conDiffLoop cons_to_update []
          remove_sos_constraints (sos_to_update.map SSos.sid)
          add_sos_constraints sos_to_update
          pure acc
        else pure []
      let s₂ ← getS
      let vars_to_check :=
        if s₂.only_child_vars ∧ cfg.update_vars then
          current_var_ids.filter (fun v => v ∉ new_vars)
        else if cfg.update_vars then
          (keysA s₂.vars).filter (fun v => v ∈ start_vars)
        else []
      let (vars_to_update, consRA, need₀) ←
        if cfg.update_vars then varDiffLoop vars_to_check ([], consRA₁, false)
        else pure ([], consRA₁, false)
      if cfg.update_vars then update_variables vars_to_update else pure ()
      remove_constraints (consRA.map Prod.fst)
      add_constraints (consRA.map Prod.snd)
      let s₃ ← getS
      let neCons := if cfg.update_named_expressions then namedDiffCons s₃ newConIds else []
      if cfg.update_named_expressions then do
        remove_constraints neCons
        add_constraints (neCons.map (modelConOfId s₃))
      else pure ()
      let need₁ := need₀ ||
        (cfg.update_named_expressions &&
          s₃.obj_named_expressions.any (fun q => decide (s₃.model.nexprCurrent q.1 q.2 ≠ q.2)))
      let s₄ ← getS
      let pyomo_obj :=
        if cfg.check_for_new_objective then s₄.model.mobj else trackedObjAsSObj s₄
      let need₂ := need₁ ||
        (cfg.check_for_new_objective && decide (pyomo_obj.map SObj.oid ≠ s₄.objective))
      let need₃ := need₂ ||
        (cfg.update_objective &&
          (match pyomo_obj with
           | some o =>
               decide (some o.oexprId ≠ s₄.objective_expr) ||
                 decide (some o.osense ≠ s₄.objective_sense)
           | none => false))
      if need₃ then set_objective pyomo_obj else pure ()
      remove_variables old_vars) := by
  refine AlPres_bind (AlPres_remove_constraints _) (fun _ => ?_)
  refine AlPres_bind (AlPres_remove_sos_constraints _) (fun _ => ?_)
  refine AlPres_bind (AlPres_remove_params _) (fun _ => ?_)
  refine AlPres_ite_bind _ AlPres_update_params (AlPres_pure ()) (fun _ => ?_)
  refine AlPres_bind (AlPres_add_params _) (fun _ => ?_)
  refine AlPres_bind (AlPres_add_variables _) (fun _ => ?_)
  refine AlPres_bind (AlPres_add_constraints _) (fun _ => ?_)
  refine AlPres_bind (AlPres_add_sos_constraints _) (fun _ => ?_)
  refine AlPres_ite _ ?_ ?_
  · refine AlPres_bind AlPres_getS (fun s₁ => ?_)
    refine AlPres_bind (AlPres_conDiffLoop _ _) (fun acc => ?_)
    refine AlPres_bind (AlPres_remove_sos_constraints _) (fun _ => ?_)
    refine AlPres_bind (AlPres_add_sos_constraints _) (fun _ => ?_)
    refine AlPres_bind (AlPres_pure _) (fun consRA₁ => ?_)
    exact AlPres_updateVarPhase cfg _ _ _ _ _ _
  · refine AlPres_bind (AlPres_pure _) (fun consRA₁ => ?_)
    exact AlPres_updateVarPhase cfg _ _ _ _ _ _

/-- The synchronization pass preserves the table alignment: its internal
`update_variables` call only ever receives variables already holding a
snapshot record. -/
theorem AlPres_update : AlPres update := by
  rw [update.eq_def]
  refine AlPres_bind AlPres_getS (fun s₀ => ?_)
  split
  split
  all_goals split
  all_goals split
  all_goals exact AlPres_updateBody s₀.config _ _ _ _ _ _ _ _ _ _

/-- C9: from a state with duplicate-free, key-aligned tables, every public
operation leaves the snapshot table `_vars` and the reference table
`_referenced_variables` holding the same key set — except that
`update_variables` needs every listed variable to be tracked already
(a dict setitem creates a `_vars` record with no reference entry). -/
theorem claim9_thm (s : SState) (h : WellKeyed s) :
    (∀ vids, Aligned (runSt (add_variables vids) s)) ∧
    (∀ pids, Aligned (runSt (add_params pids) s)) ∧
    (∀ cons, Aligned (runSt (add_constraints cons) s)) ∧
    (∀ soss, Aligned (runSt (add_sos_constraints soss) s)) ∧
    (∀ cids, Aligned (runSt (remove_constraints cids) s)) ∧
    (∀ sids, Aligned (runSt (remove_sos_constraints sids) s)) ∧
    (∀ vids, Aligned (runSt (remove_variables vids) s)) ∧
    (∀ pids, Aligned (runSt (remove_params pids) s)) ∧
    (∀ vids, (∀ v ∈ vids, containsA s.vars v = true) →
      Aligned (runSt (update_variables vids) s)) ∧
    Aligned (runSt update_params s) ∧
    (∀ obj, Aligned (runSt (set_objective obj) s)) ∧
    Aligned (runSt update s) :=
  ⟨fun vids => (AlPres_add_variables vids s h).2.2,
   fun pids => (AlPres_add_params pids s h).2.2,
   fun cons => (AlPres_add_constraints cons s h).2.2,
   fun soss => (AlPres_add_sos_constraints soss s h).2.2,
   fun cids => (AlPres_remove_constraints cids s h).2.2,
   fun sids => (AlPres_remove_sos_constraints sids s h).2.2,
   fun vids => (AlPres_remove_variables vids s h).2.2,
   fun pids => (AlPres_remove_params pids s h).2.2,
   fun vids hv => (WK_update_variables vids s hv h).2.2,
   (AlPres_update_params s h).2.2,
   fun obj => (AlPres_set_objective obj s h).2.2,
   (AlPres_update s h).2.2⟩

def s9 : SState := { model := { mvars := [(8, {})] } }

/-- C9 counterexample: `update_variables` on a variable with no snapshot
record succeeds and creates a `_vars` entry with no matching
`_referenced_variables` entry, breaking the alignment. -/
theorem claim9_cex :
    Aligned s9 ∧
    containsA s9.vars 8 = false ∧
    runRes (update_variables [8]) s9 = .ok () ∧
    containsA (runSt (update_variables [8]) s9).vars 8 = true ∧
    containsA (runSt (update_variables [8]) s9).referenced_variables 8 = false :=
  ⟨fun k => rfl, rfl, rfl, rfl, rfl⟩

def sW9 : SState := {
  vars := [(4, {})]
  referenced_variables := [(4, {})]
  model := { mvars := [(4, {})] } }

theorem claim9_witness :
    WellKeyed sW9 ∧
    Aligned (runSt (remove_variables [4]) sW9) ∧
    Aligned (runSt update sW9) := by
  have hwk : WellKeyed sW9 := by
    refine ⟨by decide, by decide, ?_⟩
    intro k
    show (if (4 : Nat) = k then some ({} : VarAttrs) else none).isSome
      = (if (4 : Nat) = k then some ({} : RefEntry) else none).isSome
    by_cases h : (4 : Nat) = k <;> simp [h]
  exact ⟨hwk, (claim9_thm sW9 hwk).2.2.2.2.2.2.1 [4],
    (claim9_thm sW9 hwk).2.2.2.2.2.2.2.2.2.2.2⟩

/-! ## C4: the bound comparison rule of the constraint diff -/

/-- C4: in the constraint diff, a bound replaced by a distinct object
counts as unchanged exactly when both objects are numeric-constant leaves
with equal value; the constraint is classified unchanged exactly when both
its bounds pass that test (given an identical body), and the diff loop
queues it for remove+re-add exactly when the classification says changed. -/
theorem claim4_thm (c : SCon) (snap : BoundObj × Nat × BoundObj)
    (newB oldB : BoundObj) (s : SState)
    (hbody : c.cbodyId = snap.2.1)
    (hne : sameBound newB oldB = false)
    (hlk : lookupA s.active_constraints (ConKey.reg c.cid) = some (some snap)) :
    (boundUnchanged newB oldB = true ↔
      ∃ i₁ i₂ v, newB = .numConst i₁ v ∧ oldB = .numConst i₂ v) ∧
    (conChanged snap c = false ↔
      boundUnchanged c.clower snap.1 = true ∧
      boundUnchanged c.cupper snap.2.2 = true) ∧
    runRes (conDiffLoop [c] []) s
      = .ok (if conChanged snap c then [(c.cid, c)] else []) := by
  refine ⟨?_, ?_, ?_⟩
  · constructor
    · intro h
      cases newB with
      | noneB =>
          cases oldB with
          | noneB => simp [sameBound, BoundObj.ident] at hne
          | numConst i v => simp [boundUnchanged, sameBound, BoundObj.ident] at h
          | otherB i => simp [boundUnchanged, sameBound, BoundObj.ident] at h
      | otherB j =>
          cases oldB with
          | noneB => simp [boundUnchanged, sameBound, BoundObj.ident] at h
          | numConst i v => simp [boundUnchanged, hne] at h
          | otherB i => simp [boundUnchanged, hne] at h
      | numConst i₁ v₁ =>
          cases oldB with
          | noneB => simp [boundUnchanged, sameBound, BoundObj.ident] at h
          | otherB i => simp [boundUnchanged, hne] at h
          | numConst i₂ v₂ =>
              have hv : v₁ = v₂ := by
                simpa [boundUnchanged, hne] using h
              exact ⟨i₁, i₂, v₁, rfl, by rw [hv]⟩
    · rintro ⟨i₁, i₂, v, rfl, rfl⟩
      simp [boundUnchanged, hne]
  · rw [conChanged]
    rw [hbody]
    simp
  · rw [conDiffLoop]
    rw [runRes_bind]
    simp only [runRes_getS, runSt_getS]
    simp only [hlk]
    by_cases hcc : conChanged snap c = true
    · rw [if_pos hcc, if_pos hcc]
      rw [conDiffLoop, runRes_pure]
      rfl
    · rw [if_neg hcc, if_neg hcc]
      rw [conDiffLoop, runRes_pure]

theorem lookupA_mem {κ α : Type} [DecidableEq κ] :
    ∀ (l : List (κ × α)) (k : κ) (a : α), lookupA l k = some a → (k, a) ∈ l := by
  intro l
  induction l with
  | nil =>
      intro k a h
      simp [lookupA] at h
  | cons p rest ih =>
      intro k a h
      obtain ⟨k₁, a₁⟩ := p
      rw [lookupA] at h
      by_cases hk : k₁ = k
      · rw [if_pos hk] at h
        obtain rfl : a₁ = a := Option.some.inj h
        subst hk
        exact List.mem_cons_self _ _
      · rw [if_neg hk] at h
        exact List.mem_cons_of_mem _ (ih k a h)

theorem containsA_dictAddCon_self (acc : List (Nat × SCon)) (c : SCon) :
    containsA (dictAddCon acc c) c.cid = true := by
  rw [dictAddCon]
  by_cases hc : containsA acc c.cid = true
  · rw [if_pos hc]
    exact hc
  · rw [if_neg hc]
    rw [containsA]
    rw [lookupA_isSome_iff_mem]
    rw [keysA, List.map_append]
    exact List.mem_append.mpr (Or.inr (by simp))

theorem containsA_dictAddCon_mono (acc : List (Nat × SCon)) (c : SCon) (k : Nat)
    (h : containsA acc k = true) : containsA (dictAddCon acc c) k = true := by
  rw [dictAddCon]
  by_cases hc : containsA acc c.cid = true
  · rw [if_pos hc]
    exact h
  · rw [if_neg hc]
    rw [containsA, lookupA_isSome_iff_mem, keysA, List.map_append]
    rw [containsA, lookupA_isSome_iff_mem] at h
    exact List.mem_append.mpr (Or.inl h)

theorem conDiff_mono (l : List SCon) :
    ∀ (acc : List (Nat × SCon)) (s : SState) (out : List (Nat × SCon)) (k : Nat),
    runRes (conDiffLoop l acc) s = .ok out →
    containsA acc k = true → containsA out k = true := by
  induction l with
  | nil =>
      intro acc s out k h hc
      obtain rfl : acc = out := Except.ok.inj h
      exact hc
  | cons c₀ rest ih =>
      intro acc s out k h hc
      rw [conDiffLoop] at h
      rw [runRes_bind] at h
      simp only [runRes_getS, runSt_getS] at h
      cases hl : lookupA s.active_constraints (ConKey.reg c₀.cid) with
      | none =>
          simp only [hl, runRes_throwE] at h
          simp at h
      | some snap =>
          cases snap with
          | none =>
              simp only [hl, runRes_throwE] at h
              simp at h
          | some q =>
              simp only [hl] at h
              by_cases hcc : conChanged q c₀ = true
              · rw [if_pos hcc] at h
                exact ih _ s out k h (containsA_dictAddCon_mono acc c₀ k hc)
              · rw [if_neg hcc] at h
                exact ih _ s out k h hc

theorem conDiff_pairs (l : List SCon) :
    ∀ (acc : List (Nat × SCon)) (s : SState) (out : List (Nat × SCon)),
    runRes (conDiffLoop l acc) s = .ok out →
    (∀ k c', (k, c') ∈ acc → c'.cid = k) →
    (∀ k c', (k, c') ∈ out → c'.cid = k) := by
  induction l with
  | nil =>
      intro acc s out h hp
      obtain rfl : acc = out := Except.ok.inj h
      exact hp
  | cons c₀ rest ih =>
      intro acc s out h hp
      rw [conDiffLoop] at h
      rw [runRes_bind] at h
      simp only [runRes_getS, runSt_getS] at h
      cases hl : lookupA s.active_constraints (ConKey.reg c₀.cid) with
      | none =>
          simp only [hl, runRes_throwE] at h
          simp at h
      | some snap =>
          cases snap with
          | none =>
              simp only [hl, runRes_throwE] at h
              simp at h
          | some q =>
              simp only [hl] at h
              by_cases hcc : conChanged q c₀ = true
              · rw [if_pos hcc] at h
                refine ih _ s out h ?_
                intro k c' hm
                rw [dictAddCon] at hm
                by_cases hc : containsA acc c₀.cid = true
                · rw [if_pos hc] at hm
                  exact hp k c' hm
                · rw [if_neg hc] at hm
                  rcases List.mem_append.mp hm with h₀ | h₀
                  · exact hp k c' h₀
                  · have h₁ : (k, c') = (c₀.cid, c₀) := by simpa using h₀
                    obtain ⟨h₂, h₃⟩ := Prod.mk.inj h₁
                    rw [h₃, h₂]
              · rw [if_neg hcc] at h
                exact ih _ s out h hp

theorem conDiff_mem (l : List SCon) :
    ∀ (acc : List (Nat × SCon)) (s : SState) (out : List (Nat × SCon))
      (c : SCon) (snap : BoundObj × Nat × BoundObj),
    runRes (conDiffLoop l acc) s = .ok out →
    c ∈ l →
    lookupA s.active_constraints (ConKey.reg c.cid) = some (some snap) →
    conChanged snap c = true →
    containsA out c.cid = true := by
  induction l with
  | nil =>
      intro acc s out c snap h hm
      exact absurd hm (List.not_mem_nil c)
  | cons c₀ rest ih =>
      intro acc s out c snap h hm hlk hcc
      rw [conDiffLoop] at h
      rw [runRes_bind] at h
      simp only [runRes_getS, runSt_getS] at h
      rcases List.mem_cons.mp hm with rfl | hm₀
      · rw [hlk] at h
        simp only at h
        rw [if_pos hcc] at h
        exact conDiff_mono rest _ s out c.cid h
          (containsA_dictAddCon_self acc c)
      · cases hl : lookupA s.active_constraints (ConKey.reg c₀.cid) with
        | none =>
            simp only [hl, runRes_throwE] at h
            simp at h
        | some snap₀ =>
            cases snap₀ with
            | none =>
                simp only [hl, runRes_throwE] at h
                simp at h
            | some q =>
                simp only [hl] at h
                by_cases hcc₀ : conChanged q c₀ = true
                · rw [if_pos hcc₀] at h
                  exact ih _ s out c snap h hm₀ hlk hcc
                · rw [if_neg hcc₀] at h
                  exact ih _ s out c snap h hm₀ hlk hcc

theorem mem_runTr_bind_left {α β : Type} {x : M α} {f : α → M β} {s : SState}
    {ev : Event} (h : ev ∈ runTr x s) : ev ∈ runTr (x >>= f) s := by
  rw [runTr_bind]
  cases hr : runRes x s with
  | ok a => exact List.mem_append.mpr (Or.inl h)
  | error e => exact h

theorem mem_runTr_bind_right {α β : Type} {x : M α} {f : α → M β} {s : SState}
    {a : α} {ev : Event} (hr : runRes x s = .ok a)
    (h : ev ∈ runTr (f a) (runSt x s)) : ev ∈ runTr (x >>= f) s := by
  rw [runTr_bind, hr]
  exact List.mem_append.mpr (Or.inr h)

theorem run_backendCall_ok (ev : Event) (flag : SState → Bool) (s : SState)
    (hf : flag s = false) : runRes (backendCall ev flag) s = .ok () := by
  rw [runRes_backendCall]
  simp [hf]

theorem run_step_rc_nil (s : SState) (hf : s.fails.fRemoveConstraints = false) :
    runRes (remove_constraints []) s = .ok () ∧
    runSt (remove_constraints []) s = s := by
  rw [remove_constraints]
  have hb : runRes (backendCall (Event.removeConstraints [])
      (fun s => s.fails.fRemoveConstraints)) s = .ok () :=
    run_backendCall_ok _ _ s hf
  obtain ⟨h₁, h₂, -⟩ := run_bind_ok
    (f := fun _ => removeConstraintsLoop []) hb
  rw [h₁, h₂, runSt_backendCall]
  rw [removeConstraintsLoop]
  exact ⟨rfl, rfl⟩

theorem run_step_rs_nil (s : SState) (hf : s.fails.fRemoveSos = false) :
    runRes (remove_sos_constraints []) s = .ok () ∧
    runSt (remove_sos_constraints []) s = s := by
  rw [remove_sos_constraints]
  have hb : runRes (backendCall (Event.removeSosConstraints [])
      (fun s => s.fails.fRemoveSos)) s = .ok () :=
    run_backendCall_ok _ _ s hf
  obtain ⟨h₁, h₂, -⟩ := run_bind_ok (f := fun _ => removeSosLoop []) hb
  rw [h₁, h₂, runSt_backendCall]
  rw [removeSosLoop]
  exact ⟨rfl, rfl⟩

theorem run_step_rp_nil (s : SState) (hf : s.fails.fRemoveParams = false) :
    runRes (remove_params []) s = .ok () ∧
    runSt (remove_params []) s = s := by
  rw [remove_params]
  have hb : runRes (backendCall (Event.removeParams [])
      (fun s => s.fails.fRemoveParams)) s = .ok () :=
    run_backendCall_ok _ _ s hf
  obtain ⟨h₁, h₂, -⟩ := run_bind_ok (f := fun _ => removeParamsLoop []) hb
  rw [h₁, h₂, runSt_backendCall]
  rw [removeParamsLoop]
  exact ⟨rfl, rfl⟩

theorem run_step_up_ite (s : SState) (hf : s.fails.fUpdateParams = false) :
    runRes (if s.config.update_params = true then update_params else pure ()) s
      = .ok () ∧
    runSt (if s.config.update_params = true then update_params else pure ()) s
      = s := by
  by_cases hc : s.config.update_params = true
  · rw [if_pos hc]
    rw [update_params]
    exact ⟨run_backendCall_ok _ _ s hf, runSt_backendCall _ _ s⟩
  · rw [if_neg hc]
    exact ⟨rfl, rfl⟩

theorem run_step_ap_nil (s : SState) (hf : s.fails.fAddParams = false) :
    runRes (add_params []) s = .ok () ∧ runSt (add_params []) s = s := by
  rw [add_params]
  have hm : runRes (modifyS fun s => { s with
      params := ([] : List Nat).foldl addKey s.params }) s = .ok () := rfl
  obtain ⟨h₁, h₂, -⟩ := run_bind_ok
    (f := fun _ => backendCall (Event.addParams [])
      (fun s => s.fails.fAddParams)) hm
  rw [h₁, h₂]
  rw [runSt_modifyS, runSt_backendCall]
  exact ⟨run_backendCall_ok _ _ _ hf, rfl⟩

theorem run_step_av_nil (s : SState) (hf : s.fails.fAddVariables = false) :
    runRes (add_variables []) s = .ok () ∧ runSt (add_variables []) s = s := by
  rw [add_variables]
  have hm : runRes (addVariablesLoop []) s = .ok () := rfl
  obtain ⟨h₁, h₂, -⟩ := run_bind_ok
    (f := fun _ => backendCall (Event.addVariables [])
      (fun s => s.fails.fAddVariables)) hm
  rw [h₁, h₂]
  have hsl : runSt (addVariablesLoop []) s = s := rfl
  rw [hsl, runSt_backendCall]
  exact ⟨run_backendCall_ok _ _ _ hf, rfl⟩

theorem run_step_ac_nil (s : SState) (hf : s.fails.fAddConstraints = false) :
    runRes (add_constraints []) s = .ok () ∧ runSt (add_constraints []) s = s := by
  rw [add_constraints]
  have hm : runRes (addConstraintsLoop [] []) s = .ok [] := by
    rw [addConstraintsLoop]
    rfl
  obtain ⟨h₁, h₂, -⟩ := run_bind_ok hm
  rw [h₁, h₂]
  have hsl : runSt (addConstraintsLoop [] []) s = s := by
    rw [addConstraintsLoop]
    rfl
  rw [hsl]
  have hb : runRes (backendCall (Event.addConstraints (List.map SCon.cid []))
      (fun s => s.fails.fAddConstraints)) s = .ok () :=
    run_backendCall_ok _ _ s hf
  obtain ⟨h₃, h₄, -⟩ := run_bind_ok (f := fun _ => fixAll []) hb
  rw [h₃, h₄, runSt_backendCall]
  rw [fixAll]
  exact ⟨rfl, rfl⟩

theorem run_step_as_nil (s : SState) (hf : s.fails.fAddSos = false) :
    runRes (add_sos_constraints []) s = .ok () ∧
    runSt (add_sos_constraints []) s = s := by
  rw [add_sos_constraints]
  have hm : runRes (addSosLoop []) s = .ok () := by
    rw [addSosLoop]
    rfl
  obtain ⟨h₁, h₂, -⟩ := run_bind_ok
    (f := fun _ => backendCall (Event.addSosConstraints (List.map SSos.sid []))
      (fun s => s.fails.fAddSos)) hm
  rw [h₁, h₂]
  have hsl : runSt (addSosLoop []) s = s := by
    rw [addSosLoop]
    rfl
  rw [hsl, runSt_backendCall]
  exact ⟨run_backendCall_ok _ _ _ hf, rfl⟩

theorem runRes_ok_bind_inv {α β : Type} {x : M α} {f : α → M β} {s : SState}
    {b : β} (h : runRes (x >>= f) s = .ok b) :
    ∃ a, runRes x s = .ok a ∧ runRes (f a) (runSt x s) = .ok b := by
  rw [runRes_bind] at h
  cases hr : runRes x s with
  | ok a =>
      rw [hr] at h
      exact ⟨a, rfl, h⟩
  | error e =>
      rw [hr] at h
      simp at h

theorem mem2_runTr_bind_right {α β : Type} {x : M α} {f : α → M β} {s : SState}
    {a : α} {ev₁ ev₂ : Event} (hr : runRes x s = .ok a)
    (h : ev₁ ∈ runTr (f a) (runSt x s) ∧ ev₂ ∈ runTr (f a) (runSt x s)) :
    ev₁ ∈ runTr (x >>= f) s ∧ ev₂ ∈ runTr (x >>= f) s :=
  ⟨mem_runTr_bind_right hr h.1, mem_runTr_bind_right hr h.2⟩

theorem mem_tr_remove_constraints (l : List Nat) (st : SState) :
    Event.removeConstraints l ∈ runTr (remove_constraints l) st := by
  rw [remove_constraints, runTr_bind]
  cases hr : runRes (backendCall (Event.removeConstraints l)
      (fun s => s.fails.fRemoveConstraints)) st <;>
    simp [runTr_backendCall]

theorem mem_tr_add_constraints (l : List SCon) (st : SState) (a : List Nat)
    (hok : runRes (addConstraintsLoop l []) st = .ok a) :
    Event.addConstraints (l.map SCon.cid) ∈ runTr (add_constraints l) st := by
  rw [add_constraints]
  refine mem_runTr_bind_right hok ?_
  refine mem_runTr_bind_left ?_
  rw [runTr_backendCall]
  simp

def cW4 : SCon :=
  { cid := 1, clower := .numConst 10 5, cbodyId := 7, cupper := .noneB }

def snapW4 : BoundObj × Nat × BoundObj := (.numConst 11 5, 7, .noneB)

def sW4 : SState :=
  { active_constraints := [(ConKey.reg 1, some snapW4)] }

theorem claim4_witness :
    cW4.cbodyId = snapW4.2.1 ∧
    sameBound (BoundObj.numConst 10 5) (BoundObj.numConst 11 5) = false ∧
    lookupA sW4.active_constraints (ConKey.reg cW4.cid) = some (some snapW4) ∧
    boundUnchanged (BoundObj.numConst 10 5) (BoundObj.numConst 11 5) = true ∧
    conChanged snapW4 cW4 = false ∧
    runRes (conDiffLoop [cW4] []) sW4
      = .ok (if conChanged snapW4 cW4 then [(cW4.cid, cW4)] else []) := by
  have h := claim4_thm cW4 snapW4 (BoundObj.numConst 10 5)
    (BoundObj.numConst 11 5) sW4 (by decide) (by decide) rfl
  exact ⟨by decide, by decide, rfl, h.1.mpr ⟨10, 11, 5, rfl, rfl⟩,
    by decide, h.2.2⟩

/-- C5: the constraint diff classifies a tracked constraint as changed on
body object identity alone (its expression tree is never compared), and a
successful synchronization pass removes such a constraint from the backend
and re-adds it. -/
theorem claim5_thm (s : SState) (c : SCon) (snap : BoundObj × Nat × BoundObj)
    (h : runRes update s = .ok ())
    (hocv : s.only_child_vars = false)
    (hfails : s.fails = {})
    (hnp : discoverParams s = ([], []))
    (hnc : discoverCons s = ([], [], [], []))
    (hmsos : s.model.msos = [])
    (huc : s.config.update_constraints = true)
    (hup : s.config.update_params = true)
    (huv : s.config.update_vars = false)
    (hlk : lookupA s.active_constraints (ConKey.reg c.cid) = some (some snap))
    (hmem : c ∈ s.model.mcons)
    (hbody : c.cbodyId ≠ snap.2.1) :
    (∀ t : PExpr, conChanged snap { c with cbody := t } = conChanged snap c) ∧
    (∃ l₁, Event.removeConstraints l₁ ∈ runTr update s ∧ c.cid ∈ l₁) ∧
    (∃ l₂, Event.addConstraints l₂ ∈ runTr update s ∧ c.cid ∈ l₂) := by
  have hcc : conChanged snap c = true := by
    rw [conChanged]
    simp [hbody]
  have hf₁ : s.fails.fRemoveConstraints = false := by rw [hfails]
  have hf₂ : s.fails.fRemoveSos = false := by rw [hfails]
  have hf₃ : s.fails.fRemoveParams = false := by rw [hfails]
  have hf₄ : s.fails.fUpdateParams = false := by rw [hfails]
  have hf₅ : s.fails.fAddParams = false := by rw [hfails]
  have hf₆ : s.fails.fAddVariables = false := by rw [hfails]
  have hf₇ : s.fails.fAddConstraints = false := by rw [hfails]
  have hf₈ : s.fails.fAddSos = false := by rw [hfails]
  obtain ⟨ha₁, hb₁⟩ := run_step_rc_nil s hf₁
  obtain ⟨ha₂, hb₂⟩ := run_step_rs_nil s hf₂
  obtain ⟨ha₃, hb₃⟩ := run_step_rp_nil s hf₃
  obtain ⟨ha₅, hb₅⟩ := run_step_ap_nil s hf₅
  obtain ⟨ha₆, hb₆⟩ := run_step_av_nil s hf₆
  obtain ⟨ha₇, hb₇⟩ := run_step_ac_nil s hf₇
  obtain ⟨ha₈, hb₈⟩ := run_step_as_nil s hf₈
  have e₁ : (if s.only_child_vars = true ∧
      (s.config.check_for_new_or_removed_vars = true ∨
        s.config.update_vars = true) then
      discoverVarsOC s else ([], [], [])) =
      (([], [], []) : List Nat × List Nat × List Nat) := by
    rw [hocv]
    simp
  have e₂ : (if s.config.check_for_new_or_removed_params = true then
      discoverParams s else ([], [])) = (([], []) : List Nat × List Nat) := by
    by_cases hq : s.config.check_for_new_or_removed_params = true
    · rw [if_pos hq, hnp]
    · rw [if_neg hq]
  have e₃ : (if s.config.check_for_new_or_removed_constraints = true ∨
      s.config.update_constraints = true then
      discoverCons s else ([], [], [], [])) =
      (([], [], [], []) : List SCon × List SSos × List Nat × List Nat) := by
    rw [if_pos (Or.inr huc), hnc]
  rw [update.eq_def] at h
  rw [runRes_bind] at h
  simp only [runRes_getS, runSt_getS] at h
  rw [e₁, e₂, e₃] at h
  simp only [huv, hocv, hmsos, Bool.false_eq_true, if_false, and_false,
    List.filter_nil, List.map_nil] at h
  -- step 1: remove_constraints []
  obtain ⟨u₁, hx₁, h⟩ := runRes_ok_bind_inv h
  rw [hb₁] at h
  -- step 2: remove_sos_constraints []
  obtain ⟨u₂, hx₂, h⟩ := runRes_ok_bind_inv h
  rw [hb₂] at h
  -- step 3: remove_params []
  obtain ⟨u₃, hx₃, h⟩ := runRes_ok_bind_inv h
  rw [hb₃] at h
  -- step 4: update_params (hup)
  rw [if_pos hup] at h
  obtain ⟨u₄, hx₄, h⟩ := runRes_ok_bind_inv h
  rw [update_params, runSt_backendCall] at h
  -- step 5-8
  obtain ⟨u₅, hx₅, h⟩ := runRes_ok_bind_inv h
  rw [hb₅] at h
  obtain ⟨u₆, hx₆, h⟩ := runRes_ok_bind_inv h
  rw [hb₆] at h
  obtain ⟨u₇, hx₇, h⟩ := runRes_ok_bind_inv h
  rw [hb₇] at h
  obtain ⟨u₈, hx₈, h⟩ := runRes_ok_bind_inv h
  rw [hb₈] at h
  -- constraint diff block
  rw [if_pos huc] at h
  rw [runRes_bind] at h
  simp only [runRes_getS, runSt_getS] at h
  simp only [hmsos, List.filter_nil, List.map_nil] at h
  obtain ⟨out, hcd, h⟩ := runRes_ok_bind_inv h
  rw [conDiff_state] at h
  obtain ⟨u₉, hx₉, h⟩ := runRes_ok_bind_inv h
  rw [hb₂] at h
  obtain ⟨u₁₀, hx₁₀, h⟩ := runRes_ok_bind_inv h
  rw [hb₈] at h
  -- pure out
  obtain ⟨y₁, hy₁, h⟩ := runRes_ok_bind_inv h
  rw [runSt_pure] at h
  simp only [runRes_pure] at hy₁
  obtain rfl : out = y₁ := Except.ok.inj hy₁
  -- getS
  obtain ⟨s₂x, hy₂, h⟩ := runRes_ok_bind_inv h
  rw [runSt_getS] at h
  -- pure triple
  obtain ⟨y₂, hy₃, h⟩ := runRes_ok_bind_inv h
  rw [runSt_pure] at h
  simp only [runRes_pure] at hy₃
  obtain rfl : ([], out, false) = y₂ := Except.ok.inj hy₃
  -- pure ()
  obtain ⟨u₀, hu₀, h⟩ := runRes_ok_bind_inv h
  rw [runSt_pure] at h
  simp only [] at h
  -- remove_constraints (map fst out)
  obtain ⟨u₁₁, hrcOK, h⟩ := runRes_ok_bind_inv h
  -- add_constraints (map snd out)
  obtain ⟨u₁₂, hacOK, h⟩ := runRes_ok_bind_inv h
  have hacOK2 := hacOK
  rw [add_constraints] at hacOK2
  obtain ⟨allFixed, hloopOK, -⟩ := runRes_ok_bind_inv hacOK2
  have hcout : containsA out c.cid = true := by
    refine conDiff_mem _ _ _ _ c snap hcd ?_ hlk hcc
    exact List.mem_filter.mpr ⟨hmem, by simp⟩
  cases hl₀ : lookupA out c.cid with
  | none =>
      rw [containsA, hl₀] at hcout
      simp at hcout
  | some c₁ =>
      have hpr : c₁.cid = c.cid :=
        conDiff_pairs _ _ _ _ hcd (fun k c₂ hk => absurd hk (List.not_mem_nil _))
          c.cid c₁ (lookupA_mem out c.cid c₁ hl₀)
      have hm₁ : c.cid ∈ List.map Prod.fst out := by
        have hmk : c.cid ∈ keysA out :=
          (lookupA_isSome_iff_mem out c.cid).mp (by rw [hl₀]; rfl)
        simpa [keysA] using hmk
      have hm₂ : c.cid ∈ List.map SCon.cid (List.map Prod.snd out) := by
        refine List.mem_map.mpr ⟨c₁, ?_, hpr⟩
        exact List.mem_map.mpr ⟨(c.cid, c₁), lookupA_mem out c.cid c₁ hl₀, rfl⟩
      have hpair : Event.removeConstraints (List.map Prod.fst out) ∈ runTr update s ∧
          Event.addConstraints (List.map SCon.cid (List.map Prod.snd out))
            ∈ runTr update s := by
        rw [update.eq_def]
        rw [runTr_bind]
        simp only [runRes_getS, runSt_getS, runTr_getS, List.nil_append]
        rw [e₁, e₂, e₃]
        simp only [huv, hocv, hmsos, Bool.false_eq_true, if_false, and_false,
          List.filter_nil, List.map_nil]
        refine mem2_runTr_bind_right hx₁ ?_
        rw [hb₁]
        refine mem2_runTr_bind_right hx₂ ?_
        rw [hb₂]
        refine mem2_runTr_bind_right hx₃ ?_
        rw [hb₃]
        rw [if_pos hup]
        refine mem2_runTr_bind_right hx₄ ?_
        rw [update_params, runSt_backendCall]
        refine mem2_runTr_bind_right hx₅ ?_
        rw [hb₅]
        refine mem2_runTr_bind_right hx₆ ?_
        rw [hb₆]
        refine mem2_runTr_bind_right hx₇ ?_
        rw [hb₇]
        refine mem2_runTr_bind_right hx₈ ?_
        rw [hb₈]
        rw [if_pos huc]
        rw [runTr_bind]
        simp only [runRes_getS, runSt_getS, runTr_getS, List.nil_append]
        simp only [hmsos, List.filter_nil, List.map_nil]
        refine mem2_runTr_bind_right hcd ?_
        rw [conDiff_state]
        refine mem2_runTr_bind_right hx₉ ?_
        rw [hb₂]
        refine mem2_runTr_bind_right hx₁₀ ?_
        rw [hb₈]
        refine mem2_runTr_bind_right (runRes_pure out s) ?_
        rw [runSt_pure]
        refine mem2_runTr_bind_right (runRes_getS s) ?_
        rw [runSt_getS]
        refine mem2_runTr_bind_right (runRes_pure _ s) ?_
        rw [runSt_pure]
        refine mem2_runTr_bind_right (runRes_pure _ s) ?_
        rw [runSt_pure]
        simp only []
        constructor
        · exact mem_runTr_bind_left (mem_tr_remove_constraints _ _)
        · refine mem_runTr_bind_right hrcOK ?_
          exact mem_runTr_bind_left (mem_tr_add_constraints _ _ allFixed hloopOK)
      exact ⟨fun t => rfl, ⟨_, hpair.1, hm₁⟩, ⟨_, hpair.2, hm₂⟩⟩

def cW5 : SCon := { cid := 3, cbodyId := 42, cbody := .varE 1, clower := .noneB, cupper := .noneB }

def sW5 : SState := {
  model := { mvars := [(1, {})], mcons := [cW5] }
  config := { update_vars := false }
  active_constraints := [(ConKey.reg 3, some (.noneB, 41, .noneB))]
  named_expressions := [(ConKey.reg 3, [])]
  vars_referenced_by_con := [(ConKey.reg 3, [1])]
  referenced_variables := [(1, { rcons := [ConKey.reg 3] })]
  vars := [(1, {})] }

def sW5b : SState := {
  model := { mvars := [(1, {})], mcons := [cW5] }
  config := { update_vars := false } }

def sW5c : SState := {
  model := { mvars := [(1, {})], mcons := [cW5] }
  config := { update_vars := false }
  active_constraints := [(ConKey.reg 3, some (.noneB, 42, .noneB))]
  named_expressions := [(ConKey.reg 3, [])]
  vars_referenced_by_con := [(ConKey.reg 3, [1])]
  referenced_variables := [(1, { rcons := [ConKey.reg 3] })]
  vars := [(1, {})] }

set_option maxHeartbeats 16000000 in
theorem update_run_sW5 : runRes update sW5 = Except.ok () := by
  obtain ⟨ha₁, hb₁⟩ := run_step_rc_nil sW5 rfl
  obtain ⟨ha₂, hb₂⟩ := run_step_rs_nil sW5 rfl
  obtain ⟨ha₃, hb₃⟩ := run_step_rp_nil sW5 rfl
  obtain ⟨ha₅, hb₅⟩ := run_step_ap_nil sW5 rfl
  obtain ⟨ha₆, hb₆⟩ := run_step_av_nil sW5 rfl
  obtain ⟨ha₇, hb₇⟩ := run_step_ac_nil sW5 rfl
  obtain ⟨ha₈, hb₈⟩ := run_step_as_nil sW5 rfl
  have e₁ : (if sW5.only_child_vars = true ∧
      (sW5.config.check_for_new_or_removed_vars = true ∨
        sW5.config.update_vars = true) then
      discoverVarsOC sW5 else ([], [], [])) =
      (([], [], []) : List Nat × List Nat × List Nat) := rfl
  have e₂ : (if sW5.config.check_for_new_or_removed_params = true then
      discoverParams sW5 else ([], [])) = (([], []) : List Nat × List Nat) := rfl
  have e₃ : (if sW5.config.check_for_new_or_removed_constraints = true ∨
      sW5.config.update_constraints = true then
      discoverCons sW5 else ([], [], [], [])) =
      (([], [], [], []) : List SCon × List SSos × List Nat × List Nat) := rfl
  rw [update.eq_def, runRes_bind]
  simp only [runRes_getS, runSt_getS]
  rw [e₁, e₂, e₃]
  simp only [show sW5.config.update_vars = false from rfl,
    show sW5.only_child_vars = false from rfl,
    show sW5.model.msos = ([] : List SSos) from rfl,
    Bool.false_eq_true, if_false, and_false, List.filter_nil, List.map_nil]
  rw [(run_bind_ok ha₁).1, hb₁]
  rw [(run_bind_ok ha₂).1, hb₂]
  rw [(run_bind_ok ha₃).1, hb₃]
  rw [if_pos (show sW5.config.update_params = true from rfl)]
  rw [(run_bind_ok (show runRes update_params sW5 = Except.ok () from rfl)).1,
    show runSt update_params sW5 = sW5 from rfl]
  rw [(run_bind_ok ha₅).1, hb₅]
  rw [(run_bind_ok ha₆).1, hb₆]
  rw [(run_bind_ok ha₇).1, hb₇]
  rw [(run_bind_ok ha₈).1, hb₈]
  rw [if_pos (show sW5.config.update_constraints = true from rfl)]
  rw [runRes_bind]
  simp only [runRes_getS, runSt_getS]
  simp only [show sW5.model.msos = ([] : List SSos) from rfl,
    List.filter_nil, List.map_nil]
  have hcd : runRes (conDiffLoop
      (List.filter (fun c => decide (c.cid ∉ ([] : List Nat))) sW5.model.mcons) [])
      sW5 = Except.ok [(3, cW5)] := rfl
  rw [(run_bind_ok hcd).1, conDiff_state]
  rw [(run_bind_ok ha₂).1, hb₂]
  rw [(run_bind_ok ha₈).1, hb₈]
  rw [(run_bind_ok (runRes_pure ([(3, cW5)] : List (Nat × SCon)) sW5)).1, runSt_pure]
  rw [(run_bind_ok (runRes_getS sW5)).1, runSt_getS]
  rw [(run_bind_ok (runRes_pure (([], [(3, cW5)], false) :
    List Nat × List (Nat × SCon) × Bool) sW5)).1, runSt_pure]
  rw [(run_bind_ok (runRes_pure () sW5)).1, runSt_pure]
  simp only []
  have hrc : runRes (remove_constraints (List.map Prod.fst [(3, cW5)])) sW5
      = Except.ok () := rfl
  have hrcs : runSt (remove_constraints (List.map Prod.fst [(3, cW5)])) sW5 = sW5b := rfl
  rw [(run_bind_ok hrc).1, hrcs]
  have hac : runRes (add_constraints (List.map Prod.snd [(3, cW5)])) sW5b
      = Except.ok () := rfl
  have hacs : runSt (add_constraints (List.map Prod.snd [(3, cW5)])) sW5b = sW5c := rfl
  rw [(run_bind_ok hac).1, hacs]
  rw [(run_bind_ok (runRes_getS sW5c)).1, runSt_getS]
  exact rfl

theorem claim5_witness :
    runRes update sW5 = .ok () ∧
    lookupA sW5.active_constraints (ConKey.reg cW5.cid)
      = some (some (BoundObj.noneB, 41, BoundObj.noneB)) ∧
    cW5.cbodyId ≠ (BoundObj.noneB, 41, (BoundObj.noneB : BoundObj)).2.1 ∧
    (∃ l₁, Event.removeConstraints l₁ ∈ runTr update sW5 ∧ cW5.cid ∈ l₁) ∧
    (∃ l₂, Event.addConstraints l₂ ∈ runTr update sW5 ∧ cW5.cid ∈ l₂) := by
  have h := claim5_thm sW5 cW5 (BoundObj.noneB, 41, BoundObj.noneB)
    update_run_sW5 rfl rfl rfl rfl rfl rfl rfl rfl rfl (by decide) (by decide)
  exact ⟨update_run_sW5, rfl, by decide, h.2.1, h.2.2⟩


/-! ## C2: triviality of the backend calls of a no-change second pass -/

/-- A backend invocation that performs no per-entity work: an empty
argument list, or the bulk parameter-value refresh. -/
def trivialEv : Event → Bool
  | .addVariables l => l.isEmpty
  | .addParams l => l.isEmpty
  | .addConstraints l => l.isEmpty
  | .addSosConstraints l => l.isEmpty
  | .setObjective _ => false
  | .removeConstraints l => l.isEmpty
  | .removeSosConstraints l => l.isEmpty
  | .removeVariables l => l.isEmpty
  | .removeParams l => l.isEmpty
  | .updateVariables l => l.isEmpty
  | .updateParams => true

theorem conDiff_nochange (l : List SCon) : ∀ (acc : List (Nat × SCon)) (s : SState),
    (∀ c ∈ l, ∃ snap, lookupA s.active_constraints (ConKey.reg c.cid) = some (some snap) ∧
      conChanged snap c = false) →
    runRes (conDiffLoop l acc) s = .ok acc := by
  induction l with
  | nil => intro acc s _; rfl
  | cons c rest ih =>
      intro acc s h
      obtain ⟨snap, hlk, hcc⟩ := h c (List.mem_cons_self c rest)
      rw [conDiffLoop, runRes_bind]
      simp only [runRes_getS, runSt_getS]
      simp only [hlk]
      rw [if_neg (by rw [hcc]; exact Bool.false_ne_true)]
      exact ih acc s (fun c₂ hc₂ => h c₂ (List.mem_cons_of_mem _ hc₂))

theorem conDiff_tr (l : List SCon) : ∀ (acc : List (Nat × SCon)) (s : SState),
    runTr (conDiffLoop l acc) s = [] := by
  induction l with
  | nil => intro acc s; rfl
  | cons c rest ih =>
      intro acc s
      rw [conDiffLoop, runTr_bind]
      simp only [runRes_getS, runSt_getS, runTr_getS, List.nil_append]
      cases hl : lookupA s.active_constraints (ConKey.reg c.cid) with
      | none => simp [hl, runTr_throwE]
      | some snap =>
          cases snap with
          | none => simp [hl, runTr_throwE]
          | some q =>
              simp only [hl]
              by_cases hcc : conChanged q c = true
              · rw [if_pos hcc]; exact ih _ s
              · rw [if_neg hcc]; exact ih _ s

theorem varDiff_nochange (l : List Nat) :
    ∀ (p : List Nat × List (Nat × SCon) × Bool) (s : SState),
    (∀ v ∈ l, lookupA s.vars v = some (s.model.varAttrs v)) →
    runRes (varDiffLoop l p) s = .ok p := by
  induction l with
  | nil => intro p s _; obtain ⟨upd, acc, need⟩ := p; rfl
  | cons v rest ih =>
      intro p s h
      obtain ⟨upd, acc, need⟩ := p
      rw [varDiffLoop, runRes_bind]
      simp only [runRes_getS, runSt_getS]
      simp only [h v (List.mem_cons_self v rest)]
      rw [if_neg (fun hh => hh rfl)]
      rw [if_neg (fun hh => hh rfl)]
      rw [if_neg (by rintro (hh | hh); exact hh rfl; exact hh.2 rfl)]
      rw [if_neg (fun hh => hh rfl)]
      exact ih _ s (fun v₂ hv₂ => h v₂ (List.mem_cons_of_mem _ hv₂))

theorem varDiff_tr (l : List Nat) :
    ∀ (p : List Nat × List (Nat × SCon) × Bool) (s : SState),
    runTr (varDiffLoop l p) s = [] := by
  induction l with
  | nil => intro p s; obtain ⟨upd, acc, need⟩ := p; rfl
  | cons v rest ih =>
      intro p s
      obtain ⟨upd, acc, need⟩ := p
      rw [varDiffLoop, runTr_bind]
      simp only [runRes_getS, runSt_getS, runTr_getS, List.nil_append]
      cases hl : lookupA s.vars v with
      | none => simp [hl, runTr_throwE]
      | some snap =>
          simp only [hl]
          split
          · exact ih _ s
          · split
            · exact ih _ s
            · split
              · split
                · split
                  · rfl
                  · exact ih _ s
                · exact ih _ s
              · split
                · exact ih _ s
                · exact ih _ s

theorem tr_rc_nil (s : SState) (hf : s.fails.fRemoveConstraints = false) :
    runTr (remove_constraints []) s = [Event.removeConstraints []] := by
  rw [remove_constraints]
  have hb : runRes (backendCall (Event.removeConstraints [])
      (fun s => s.fails.fRemoveConstraints)) s = .ok () :=
    run_backendCall_ok _ _ s hf
  rw [(run_bind_ok hb).2.2, runTr_backendCall]
  rfl

theorem tr_rs_nil (s : SState) (hf : s.fails.fRemoveSos = false) :
    runTr (remove_sos_constraints []) s = [Event.removeSosConstraints []] := by
  rw [remove_sos_constraints]
  have hb : runRes (backendCall (Event.removeSosConstraints [])
      (fun s => s.fails.fRemoveSos)) s = .ok () :=
    run_backendCall_ok _ _ s hf
  rw [(run_bind_ok hb).2.2, runTr_backendCall]
  rfl

theorem tr_rp_nil (s : SState) (hf : s.fails.fRemoveParams = false) :
    runTr (remove_params []) s = [Event.removeParams []] := by
  rw [remove_params]
  have hb : runRes (backendCall (Event.removeParams [])
      (fun s => s.fails.fRemoveParams)) s = .ok () :=
    run_backendCall_ok _ _ s hf
  rw [(run_bind_ok hb).2.2, runTr_backendCall]
  rfl

theorem tr_up (s : SState) : runTr update_params s = [Event.updateParams] := by
  rw [update_params, runTr_backendCall]

theorem tr_ap_nil (s : SState) : runTr (add_params []) s = [Event.addParams []] := by
  rw [add_params]
  have hm : runRes (modifyS fun s => { s with
      params := ([] : List Nat).foldl addKey s.params }) s = .ok () := rfl
  rw [(run_bind_ok (f := fun _ => backendCall (Event.addParams [])
    (fun s => s.fails.fAddParams)) hm).2.2, runTr_backendCall]
  rfl

theorem tr_av_nil (s : SState) : runTr (add_variables []) s = [Event.addVariables []] := by
  rw [add_variables]
  have hm : runRes (addVariablesLoop []) s = .ok () := rfl
  rw [(run_bind_ok (f := fun _ => backendCall (Event.addVariables [])
    (fun s => s.fails.fAddVariables)) hm).2.2, runTr_backendCall]
  rfl

theorem tr_ac_nil (s : SState) (hf : s.fails.fAddConstraints = false) :
    runTr (add_constraints []) s = [Event.addConstraints []] := by
  rw [add_constraints]
  have hm : runRes (addConstraintsLoop [] []) s = .ok [] := by
    rw [addConstraintsLoop]
    rfl
  rw [(run_bind_ok hm).2.2]
  have hst : runSt (addConstraintsLoop [] []) s = s := by
    rw [addConstraintsLoop]
    rfl
  rw [hst]
  have hb : runRes (backendCall (Event.addConstraints (List.map SCon.cid []))
      (fun s => s.fails.fAddConstraints)) s = .ok () :=
    run_backendCall_ok _ _ s hf
  rw [(run_bind_ok hb).2.2, runTr_backendCall, runSt_backendCall]
  rfl

theorem tr_as_nil (s : SState) : runTr (add_sos_constraints []) s
    = [Event.addSosConstraints []] := by
  rw [add_sos_constraints]
  have hm : runRes (addSosLoop []) s = .ok () := by
    rw [addSosLoop]
    rfl
  rw [(run_bind_ok hm).2.2]
  have hst : runSt (addSosLoop []) s = s := by
    rw [addSosLoop]
    rfl
  rw [hst, runTr_backendCall]
  rfl

theorem run_step_uv_nil (s : SState) (hf : s.fails.fUpdateVariables = false) :
    runRes (update_variables []) s = .ok () ∧ runSt (update_variables []) s = s := by
  rw [update_variables]
  have hm : runRes (modifyS fun s => { s with
      vars := ([] : List Nat).foldl (fun t v => insertA t v (s.model.varAttrs v)) s.vars })
      s = .ok () := rfl
  obtain ⟨h₁, h₂, -⟩ := run_bind_ok
    (f := fun _ => backendCall (Event.updateVariables [])
      (fun s => s.fails.fUpdateVariables)) hm
  rw [h₁, h₂, runSt_modifyS]
  exact ⟨run_backendCall_ok _ _ _ hf, runSt_backendCall _ _ _⟩

theorem tr_uv_nil (s : SState) : runTr (update_variables []) s
    = [Event.updateVariables []] := by
  rw [update_variables]
  have hm : runRes (modifyS fun s => { s with
      vars := ([] : List Nat).foldl (fun t v => insertA t v (s.model.varAttrs v)) s.vars })
      s = .ok () := rfl
  rw [(run_bind_ok (f := fun _ => backendCall (Event.updateVariables [])
    (fun s => s.fails.fUpdateVariables)) hm).2.2, runTr_backendCall]
  rfl

theorem run_step_rv_nil (s : SState) (hf : s.fails.fRemoveVariables = false) :
    runRes (remove_variables []) s = .ok () ∧ runSt (remove_variables []) s = s := by
  rw [remove_variables]
  have hb : runRes (backendCall (Event.removeVariables [])
      (fun s => s.fails.fRemoveVariables)) s = .ok () :=
    run_backendCall_ok _ _ s hf
  obtain ⟨h₁, h₂, -⟩ := run_bind_ok (f := fun _ => removeVariablesLoop []) hb
  rw [h₁, h₂, runSt_backendCall]
  exact ⟨rfl, rfl⟩

theorem tr_rv_nil (s : SState) (hf : s.fails.fRemoveVariables = false) :
    runTr (remove_variables []) s = [Event.removeVariables []] := by
  rw [remove_variables]
  have hb : runRes (backendCall (Event.removeVariables [])
      (fun s => s.fails.fRemoveVariables)) s = .ok () :=
    run_backendCall_ok _ _ s hf
  rw [(run_bind_ok hb).2.2, runTr_backendCall]
  rfl

theorem filter_mem_self {κ : Type} [DecidableEq κ] (l : List κ) :
    l.filter (fun v => decide (v ∈ l)) = l :=
  List.filter_eq_self.mpr (fun a ha => decide_eq_true ha)

/-- C2: with the default update configuration, on a state whose tracking
tables are fully synchronized with the model and whose model has no SOS
constraints, a synchronization pass succeeds, leaves the state unchanged,
and every backend call it makes is trivial: an empty-argument add/remove/
update call or the bulk parameter refresh.  (The no-SOS hypothesis is
forced: the pass unconditionally removes and re-adds every tracked SOS
constraint, see the counterexample.) -/
theorem claim2_thm (s : SState)
    (hcfg : s.config = {})
    (hocv : s.only_child_vars = false)
    (hfails : s.fails = {})
    (hnp : discoverParams s = ([], []))
    (hnc : discoverCons s = ([], [], [], []))
    (hmsos : s.model.msos = [])
    (hcons : ∀ c ∈ s.model.mcons, ∃ snap,
      lookupA s.active_constraints (ConKey.reg c.cid) = some (some snap) ∧
      conChanged snap c = false)
    (hvars : ∀ v ∈ keysA s.vars, lookupA s.vars v = some (s.model.varAttrs v))
    (hnamed : namedDiffCons s [] = [])
    (hone : s.obj_named_expressions.any
      (fun q => decide (s.model.nexprCurrent q.1 q.2 ≠ q.2)) = false)
    (hoid : Option.map SObj.oid s.model.mobj = s.objective)
    (hoexp : ∀ o, s.model.mobj = some o →
      some o.oexprId = s.objective_expr ∧ some o.osense = s.objective_sense) :
    runRes update s = .ok () ∧ runSt update s = s ∧
    ∀ ev ∈ runTr update s, trivialEv ev = true := by
  have hf₁ : s.fails.fRemoveConstraints = false := by rw [hfails]
  have hf₂ : s.fails.fRemoveSos = false := by rw [hfails]
  have hf₃ : s.fails.fRemoveParams = false := by rw [hfails]
  have hf₄ : s.fails.fUpdateParams = false := by rw [hfails]
  have hf₅ : s.fails.fAddParams = false := by rw [hfails]
  have hf₆ : s.fails.fAddVariables = false := by rw [hfails]
  have hf₇ : s.fails.fAddConstraints = false := by rw [hfails]
  have hf₈ : s.fails.fAddSos = false := by rw [hfails]
  have hf₉ : s.fails.fUpdateVariables = false := by rw [hfails]
  have hf₀ : s.fails.fRemoveVariables = false := by rw [hfails]
  obtain ⟨ha₁, hb₁⟩ := run_step_rc_nil s hf₁
  obtain ⟨ha₂, hb₂⟩ := run_step_rs_nil s hf₂
  obtain ⟨ha₃, hb₃⟩ := run_step_rp_nil s hf₃
  obtain ⟨ha₅, hb₅⟩ := run_step_ap_nil s hf₅
  obtain ⟨ha₆, hb₆⟩ := run_step_av_nil s hf₆
  obtain ⟨ha₇, hb₇⟩ := run_step_ac_nil s hf₇
  obtain ⟨ha₈, hb₈⟩ := run_step_as_nil s hf₈
  obtain ⟨ha₉, hb₉⟩ := run_step_uv_nil s hf₉
  obtain ⟨ha₀, hb₀⟩ := run_step_rv_nil s hf₀
  have haU : runRes update_params s = .ok () := run_backendCall_ok _ _ s hf₄
  have hbU : runSt update_params s = s := runSt_backendCall _ _ s
  have e₁ : (if s.only_child_vars = true ∧
      (s.config.check_for_new_or_removed_vars = true ∨
        s.config.update_vars = true) then
      discoverVarsOC s else ([], [], [])) =
      (([], [], []) : List Nat × List Nat × List Nat) := by
    rw [hocv]
    simp
  have e₂ : (if s.config.check_for_new_or_removed_params = true then
      discoverParams s else ([], [])) = (([], []) : List Nat × List Nat) := by
    rw [if_pos (show s.config.check_for_new_or_removed_params = true by rw [hcfg]), hnp]
  have e₃ : (if s.config.check_for_new_or_removed_constraints = true ∨
      s.config.update_constraints = true then
      discoverCons s else ([], [], [], [])) =
      (([], [], [], []) : List SCon × List SSos × List Nat × List Nat) := by
    rw [if_pos (Or.inr (show s.config.update_constraints = true by rw [hcfg])), hnc]
  rw [update.eq_def]
  rw [(run_bind_ok (runRes_getS s)).1, (run_bind_ok (runRes_getS s)).2.1,
    (run_bind_ok (runRes_getS s)).2.2, runSt_getS, runTr_getS]
  simp only [List.nil_append]
  rw [e₁, e₂, e₃]
  simp only [hocv, Bool.false_eq_true, false_and, if_false, hmsos,
    List.filter_nil, List.map_nil]
  rw [(run_bind_ok ha₁).1, (run_bind_ok ha₁).2.1, (run_bind_ok ha₁).2.2,
    hb₁, tr_rc_nil s hf₁]
  rw [(run_bind_ok ha₂).1, (run_bind_ok ha₂).2.1, (run_bind_ok ha₂).2.2,
    hb₂, tr_rs_nil s hf₂]
  rw [(run_bind_ok ha₃).1, (run_bind_ok ha₃).2.1, (run_bind_ok ha₃).2.2,
    hb₃, tr_rp_nil s hf₃]
  rw [if_pos (show s.config.update_params = true by rw [hcfg])]
  rw [(run_bind_ok haU).1, (run_bind_ok haU).2.1, (run_bind_ok haU).2.2,
    hbU, tr_up s]
  rw [(run_bind_ok ha₅).1, (run_bind_ok ha₅).2.1, (run_bind_ok ha₅).2.2,
    hb₅, tr_ap_nil s]
  rw [(run_bind_ok ha₆).1, (run_bind_ok ha₆).2.1, (run_bind_ok ha₆).2.2,
    hb₆, tr_av_nil s]
  rw [(run_bind_ok ha₇).1, (run_bind_ok ha₇).2.1, (run_bind_ok ha₇).2.2,
    hb₇, tr_ac_nil s hf₇]
  rw [(run_bind_ok ha₈).1, (run_bind_ok ha₈).2.1, (run_bind_ok ha₈).2.2,
    hb₈, tr_as_nil s]
  rw [if_pos (show s.config.update_constraints = true by rw [hcfg])]
  rw [(run_bind_ok (runRes_getS s)).1, (run_bind_ok (runRes_getS s)).2.1,
    (run_bind_ok (runRes_getS s)).2.2, runSt_getS, runTr_getS]
  have hcd := conDiff_nochange
    (List.filter (fun c => decide (c.cid ∉ ([] : List Nat))) s.model.mcons) [] s
    (fun c hc => hcons c (List.mem_filter.mp hc).1)
  rw [(run_bind_ok hcd).1, (run_bind_ok hcd).2.1, (run_bind_ok hcd).2.2,
    conDiff_state, conDiff_tr]
  rw [hmsos]
  simp only [List.filter_nil, List.map_nil]
  rw [(run_bind_ok ha₂).1, (run_bind_ok ha₂).2.1, (run_bind_ok ha₂).2.2,
    hb₂, tr_rs_nil s hf₂]
  rw [(run_bind_ok ha₈).1, (run_bind_ok ha₈).2.1, (run_bind_ok ha₈).2.2,
    hb₈, tr_as_nil s]
  rw [(run_bind_ok (runRes_pure ([] : List (Nat × SCon)) s)).1,
    (run_bind_ok (runRes_pure ([] : List (Nat × SCon)) s)).2.1,
    (run_bind_ok (runRes_pure ([] : List (Nat × SCon)) s)).2.2,
    runSt_pure, runTr_pure]
  rw [(run_bind_ok (runRes_getS s)).1, (run_bind_ok (runRes_getS s)).2.1,
    (run_bind_ok (runRes_getS s)).2.2, runSt_getS, runTr_getS]
  rw [if_pos (show s.config.update_vars = true by rw [hcfg])]
  rw [if_neg (fun hc => Bool.false_ne_true (hocv ▸ hc.1))]
  rw [if_pos (show s.config.update_vars = true by rw [hcfg])]
  rw [if_pos (And.intro not_false (show s.config.update_vars = true by rw [hcfg]))]
  rw [filter_mem_self]
  have hvd := varDiff_nochange (keysA s.vars) ([], [], false) s hvars
  rw [(run_bind_ok hvd).1, (run_bind_ok hvd).2.1, (run_bind_ok hvd).2.2,
    varDiff_state, varDiff_tr]
  rw [if_pos (show s.config.update_vars = true by rw [hcfg])]
  simp only []
  rw [(run_bind_ok ha₉).1, (run_bind_ok ha₉).2.1, (run_bind_ok ha₉).2.2,
    hb₉, tr_uv_nil s]
  simp only [List.map_nil]
  rw [(run_bind_ok ha₁).1, (run_bind_ok ha₁).2.1, (run_bind_ok ha₁).2.2,
    hb₁, tr_rc_nil s hf₁]
  rw [(run_bind_ok ha₇).1, (run_bind_ok ha₇).2.1, (run_bind_ok ha₇).2.2,
    hb₇, tr_ac_nil s hf₇]
  rw [(run_bind_ok (runRes_getS s)).1, (run_bind_ok (runRes_getS s)).2.1,
    (run_bind_ok (runRes_getS s)).2.2, runSt_getS, runTr_getS]
  rw [if_pos (show s.config.update_named_expressions = true by rw [hcfg])]
  rw [if_pos (show s.config.update_named_expressions = true by rw [hcfg])]
  rw [hnamed]
  simp only [List.map_nil]
  rw [(run_bind_ok ha₁).1, (run_bind_ok ha₁).2.1, (run_bind_ok ha₁).2.2,
    hb₁, tr_rc_nil s hf₁]
  rw [(run_bind_ok ha₇).1, (run_bind_ok ha₇).2.1, (run_bind_ok ha₇).2.2,
    hb₇, tr_ac_nil s hf₇]
  rw [(run_bind_ok (runRes_getS s)).1, (run_bind_ok (runRes_getS s)).2.1,
    (run_bind_ok (runRes_getS s)).2.2, runSt_getS, runTr_getS]
  rw [if_neg (show ¬ _ = true from ?hnd)]
  case hnd =>
    intro hc
    rw [if_pos (show s.config.check_for_new_objective = true by rw [hcfg])] at hc
    rw [hone, hoid] at hc
    cases hmo : s.model.mobj with
    | none =>
        rw [hmo] at hc
        simp [hcfg] at hc
    | some o =>
        obtain ⟨he₁, he₂⟩ := hoexp o hmo
        rw [hmo] at hc
        simp [hcfg, ← he₁, ← he₂] at hc
  rw [(run_bind_ok (runRes_pure () s)).1, (run_bind_ok (runRes_pure () s)).2.1,
    (run_bind_ok (runRes_pure () s)).2.2, runSt_pure, runTr_pure]
  rw [ha₀, hb₀, tr_rv_nil s hf₀]
  refine ⟨rfl, rfl, ?_⟩
  decide

def cW2 : SCon := { cid := 7, cbodyId := 9, cbody := .varE 1, clower := .noneB, cupper := .noneB }

def sW2w : SState := {
  model := { mvars := [(1, {})], mcons := [cW2] }
  active_constraints := [(ConKey.reg 7, some (.noneB, 9, .noneB))]
  named_expressions := [(ConKey.reg 7, [])]
  vars_referenced_by_con := [(ConKey.reg 7, [1])]
  referenced_variables := [(1, { rcons := [ConKey.reg 7] })]
  vars := [(1, {})] }

theorem claim2_witness :
    runRes update sW2w = .ok () ∧ runSt update sW2w = sW2w ∧
    ∀ ev ∈ runTr update sW2w, trivialEv ev = true :=
  claim2_thm sW2w rfl rfl rfl rfl rfl rfl
    (fun c hc => ⟨(.noneB, 9, .noneB),
      by rw [List.mem_singleton.mp hc]; rfl,
      by rw [List.mem_singleton.mp hc]; rfl⟩)
    (fun v hv => by rw [List.mem_singleton.mp hv]; rfl)
    rfl rfl rfl (fun o ho => Option.noConfusion ho)

def sosW : SSos := { sid := 5, svars := [1] }

def sW2 : SState := {
  model := { mvars := [(1, {})], msos := [sosW] }
  active_constraints := [(ConKey.sos 5, none)]
  named_expressions := [(ConKey.sos 5, [])]
  vars_referenced_by_con := [(ConKey.sos 5, [1])]
  referenced_variables := [(1, { rsos := [ConKey.sos 5] })]
  vars := [(1, {})] }

def sW2b : SState := { model := sW2.model }

set_option maxHeartbeats 16000000 in
theorem update_run_sW2 :
    runRes update sW2 = Except.ok () ∧ runSt update sW2 = sW2 ∧
    runTr update sW2 = [Event.removeConstraints [], Event.removeSosConstraints [],
      Event.removeParams [], Event.updateParams, Event.addParams [],
      Event.addVariables [], Event.addConstraints [], Event.addSosConstraints [],
      Event.removeSosConstraints [5], Event.removeVariables [1],
      Event.addVariables [1], Event.addSosConstraints [5],
      Event.updateVariables [], Event.removeConstraints [],
      Event.addConstraints [], Event.removeConstraints [],
      Event.addConstraints [], Event.removeVariables []] := by
  obtain ⟨ha₁, hb₁⟩ := run_step_rc_nil sW2 rfl
  obtain ⟨ha₂, hb₂⟩ := run_step_rs_nil sW2 rfl
  obtain ⟨ha₃, hb₃⟩ := run_step_rp_nil sW2 rfl
  obtain ⟨ha₅, hb₅⟩ := run_step_ap_nil sW2 rfl
  obtain ⟨ha₆, hb₆⟩ := run_step_av_nil sW2 rfl
  obtain ⟨ha₇, hb₇⟩ := run_step_ac_nil sW2 rfl
  obtain ⟨ha₉, hb₉⟩ := run_step_uv_nil sW2 rfl
  obtain ⟨ha₀, hb₀⟩ := run_step_rv_nil sW2 rfl
  have ha₈ : runRes (add_sos_constraints []) sW2 = .ok () := (run_step_as_nil sW2 rfl).1
  have hb₈ : runSt (add_sos_constraints []) sW2 = sW2 := (run_step_as_nil sW2 rfl).2
  have haU : runRes update_params sW2 = .ok () := run_backendCall_ok _ _ sW2 rfl
  have hbU : runSt update_params sW2 = sW2 := runSt_backendCall _ _ sW2
  have e₁ : (if sW2.only_child_vars = true ∧
      (sW2.config.check_for_new_or_removed_vars = true ∨
        sW2.config.update_vars = true) then
      discoverVarsOC sW2 else ([], [], [])) =
      (([], [], []) : List Nat × List Nat × List Nat) := rfl
  have e₂ : (if sW2.config.check_for_new_or_removed_params = true then
      discoverParams sW2 else ([], [])) = (([], []) : List Nat × List Nat) := rfl
  have e₃ : (if sW2.config.check_for_new_or_removed_constraints = true ∨
      sW2.config.update_constraints = true then
      discoverCons sW2 else ([], [], [], [])) =
      (([], [], [], []) : List SCon × List SSos × List Nat × List Nat) := rfl
  rw [update.eq_def]
  rw [(run_bind_ok (runRes_getS sW2)).1, (run_bind_ok (runRes_getS sW2)).2.1,
    (run_bind_ok (runRes_getS sW2)).2.2, runSt_getS, runTr_getS]
  simp only [List.nil_append]
  rw [e₁, e₂, e₃]
  simp only [show sW2.only_child_vars = false from rfl, Bool.false_eq_true,
    false_and, if_false, List.filter_nil, List.map_nil]
  rw [(run_bind_ok ha₁).1, (run_bind_ok ha₁).2.1, (run_bind_ok ha₁).2.2,
    hb₁, tr_rc_nil sW2 rfl]
  rw [(run_bind_ok ha₂).1, (run_bind_ok ha₂).2.1, (run_bind_ok ha₂).2.2,
    hb₂, tr_rs_nil sW2 rfl]
  rw [(run_bind_ok ha₃).1, (run_bind_ok ha₃).2.1, (run_bind_ok ha₃).2.2,
    hb₃, tr_rp_nil sW2 rfl]
  rw [if_pos (show sW2.config.update_params = true from rfl)]
  rw [(run_bind_ok haU).1, (run_bind_ok haU).2.1, (run_bind_ok haU).2.2,
    hbU, tr_up sW2]
  rw [(run_bind_ok ha₅).1, (run_bind_ok ha₅).2.1, (run_bind_ok ha₅).2.2,
    hb₅, tr_ap_nil sW2]
  rw [(run_bind_ok ha₆).1, (run_bind_ok ha₆).2.1, (run_bind_ok ha₆).2.2,
    hb₆, tr_av_nil sW2]
  rw [(run_bind_ok ha₇).1, (run_bind_ok ha₇).2.1, (run_bind_ok ha₇).2.2,
    hb₇, tr_ac_nil sW2 rfl]
  rw [(run_bind_ok ha₈).1, (run_bind_ok ha₈).2.1, (run_bind_ok ha₈).2.2,
    hb₈, tr_as_nil sW2]
  rw [if_pos (show sW2.config.update_constraints = true from rfl)]
  rw [(run_bind_ok (runRes_getS sW2)).1, (run_bind_ok (runRes_getS sW2)).2.1,
    (run_bind_ok (runRes_getS sW2)).2.2, runSt_getS, runTr_getS]
  have hcd : runRes (conDiffLoop
      (List.filter (fun c => decide (c.cid ∉ ([] : List Nat))) sW2.model.mcons) [])
      sW2 = Except.ok [] := rfl
  rw [(run_bind_ok hcd).1, (run_bind_ok hcd).2.1, (run_bind_ok hcd).2.2,
    conDiff_state, conDiff_tr]
  have hsr : runRes (remove_sos_constraints (List.map SSos.sid
      (List.filter (fun c => decide (c.sid ∉ ([] : List Nat))) sW2.model.msos)))
      sW2 = Except.ok () := rfl
  have hss : runSt (remove_sos_constraints (List.map SSos.sid
      (List.filter (fun c => decide (c.sid ∉ ([] : List Nat))) sW2.model.msos)))
      sW2 = sW2b := rfl
  have hstr : runTr (remove_sos_constraints (List.map SSos.sid
      (List.filter (fun c => decide (c.sid ∉ ([] : List Nat))) sW2.model.msos)))
      sW2 = [Event.removeSosConstraints [5], Event.removeVariables [1]] := rfl
  rw [(run_bind_ok hsr).1, (run_bind_ok hsr).2.1, (run_bind_ok hsr).2.2, hss, hstr]
  have har : runRes (add_sos_constraints
      (List.filter (fun c => decide (c.sid ∉ ([] : List Nat))) sW2.model.msos))
      sW2b = Except.ok () := rfl
  have has : runSt (add_sos_constraints
      (List.filter (fun c => decide (c.sid ∉ ([] : List Nat))) sW2.model.msos))
      sW2b = sW2 := rfl
  have hatr : runTr (add_sos_constraints
      (List.filter (fun c => decide (c.sid ∉ ([] : List Nat))) sW2.model.msos))
      sW2b = [Event.addVariables [1], Event.addSosConstraints [5]] := rfl
  rw [(run_bind_ok har).1, (run_bind_ok har).2.1, (run_bind_ok har).2.2, has, hatr]
  rw [(run_bind_ok (runRes_pure ([] : List (Nat × SCon)) sW2)).1,
    (run_bind_ok (runRes_pure ([] : List (Nat × SCon)) sW2)).2.1,
    (run_bind_ok (runRes_pure ([] : List (Nat × SCon)) sW2)).2.2,
    runSt_pure, runTr_pure]
  rw [(run_bind_ok (runRes_getS sW2)).1, (run_bind_ok (runRes_getS sW2)).2.1,
    (run_bind_ok (runRes_getS sW2)).2.2, runSt_getS, runTr_getS]
  rw [if_pos (show sW2.config.update_vars = true from rfl)]
  rw [if_neg (fun hc => Bool.false_ne_true
    ((show sW2.only_child_vars = false from rfl) ▸ hc.1))]
  rw [if_pos (show sW2.config.update_vars = true from rfl)]
  rw [if_pos (And.intro not_false (show sW2.config.update_vars = true from rfl))]
  rw [filter_mem_self]
  have hvd : runRes (varDiffLoop (keysA sW2.vars)
      (([], [], false) : List Nat × List (Nat × SCon) × Bool)) sW2
      = Except.ok ([], [], false) := rfl
  rw [(run_bind_ok hvd).1, (run_bind_ok hvd).2.1, (run_bind_ok hvd).2.2,
    varDiff_state, varDiff_tr]
  rw [if_pos (show sW2.config.update_vars = true from rfl)]
  simp only []
  rw [(run_bind_ok ha₉).1, (run_bind_ok ha₉).2.1, (run_bind_ok ha₉).2.2,
    hb₉, tr_uv_nil sW2]
  simp only [List.map_nil]
  rw [(run_bind_ok ha₁).1, (run_bind_ok ha₁).2.1, (run_bind_ok ha₁).2.2,
    hb₁, tr_rc_nil sW2 rfl]
  rw [(run_bind_ok ha₇).1, (run_bind_ok ha₇).2.1, (run_bind_ok ha₇).2.2,
    hb₇, tr_ac_nil sW2 rfl]
  rw [(run_bind_ok (runRes_getS sW2)).1, (run_bind_ok (runRes_getS sW2)).2.1,
    (run_bind_ok (runRes_getS sW2)).2.2, runSt_getS, runTr_getS]
  rw [if_pos (show sW2.config.update_named_expressions = true from rfl)]
  rw [if_pos (show sW2.config.update_named_expressions = true from rfl)]
  rw [show namedDiffCons sW2 [] = ([] : List Nat) from rfl]
  simp only [List.map_nil]
  rw [(run_bind_ok ha₁).1, (run_bind_ok ha₁).2.1, (run_bind_ok ha₁).2.2,
    hb₁, tr_rc_nil sW2 rfl]
  rw [(run_bind_ok ha₇).1, (run_bind_ok ha₇).2.1, (run_bind_ok ha₇).2.2,
    hb₇, tr_ac_nil sW2 rfl]
  rw [(run_bind_ok (runRes_getS sW2)).1, (run_bind_ok (runRes_getS sW2)).2.1,
    (run_bind_ok (runRes_getS sW2)).2.2, runSt_getS, runTr_getS]
  rw [if_neg (by decide)]
  rw [(run_bind_ok (runRes_pure () sW2)).1, (run_bind_ok (runRes_pure () sW2)).2.1,
    (run_bind_ok (runRes_pure () sW2)).2.2, runSt_pure, runTr_pure]
  rw [ha₀, hb₀, tr_rv_nil sW2 rfl]
  exact ⟨rfl, rfl, rfl⟩

theorem claim2_cex :
    runRes update sW2 = .ok () ∧
    runSt update sW2 = sW2 ∧
    Event.removeSosConstraints [5] ∈ runTr update sW2 ∧
    trivialEv (Event.removeSosConstraints [5]) = false := by
  obtain ⟨h₁, h₂, h₃⟩ := update_run_sW2
  exact ⟨h₁, h₂, by rw [h₃]; decide, by decide⟩


end Pyomo
